import Mathlib

/-!
# Yocta: single-pass bytecode compiler and stack virtual machine

A shallow embedding of `Compiler.cpp` and `VirtualMachine.cpp`.

* The compiler is a state transformer on `Compiler`; the mutually recursive
  parsing routines are tied together by `Compiler.exec`, whose fuel argument
  bounds the depth of the call tree, and return `Except Fault Compiler`.
* The virtual machine is a step function on `VirtualMachine`, iterated by `run`.
* C++ `int` values are modelled by `Int` and container sizes by `Nat`; the
  model is exact for chunks of fewer than `2 ^ 31` bytes. Casts to `uint8_t`
  and `uint16_t` are written as `% 256` and `% 65536`.
-/

namespace Yocta

/-! ## Values -/

/-- Modelled from the spec: `Value.h` is not in the source. A value is `None`,
a boolean, a number or a string. Numbers are double-precision in the program;
here they are the rationals, which agree with doubles on the sums, differences
and products of small integers. -/
inductive Value where
  | none : Value
  | bool (b : Bool) : Value
  | number (d : ℚ) : Value
  | str (s : String) : Value
  deriving DecidableEq

namespace Value

/-- Modelled from the spec: unary minus of `Value.h`, defined on numbers only. -/
def neg : Value → Option Value
  | number a => some (number (-a))
  | _ => Option.none

/-- Modelled from the spec: `operator+` of `Value.h`; adds two numbers,
concatenates two strings, and is not defined on other pairs. -/
def add : Value → Value → Option Value
  | number a, number b => some (number (a + b))
  | str a, str b => some (str (a ++ b))
  | _, _ => Option.none

/-- Modelled from the spec: `operator-` of `Value.h`, numbers only. -/
def sub : Value → Value → Option Value
  | number a, number b => some (number (a - b))
  | _, _ => Option.none

/-- Modelled from the spec: `operator*` of `Value.h`, numbers only. -/
def mul : Value → Value → Option Value
  | number a, number b => some (number (a * b))
  | _, _ => Option.none

/-- Modelled from the spec: `operator/` of `Value.h`, numbers only. Division by
zero yields an infinity or a NaN in the program, which the rationals do not
have; it is left undefined here. -/
def div : Value → Value → Option Value
  | number a, number b => if b = 0 then Option.none else some (number (a / b))
  | _, _ => Option.none

/-- Modelled from the spec: `operator>` of `Value.h`, numbers only. -/
def greater : Value → Value → Option Bool
  | number a, number b => some (decide (b < a))
  | _, _ => Option.none

/-- Modelled from the spec: `operator<` of `Value.h`, numbers only. -/
def less : Value → Value → Option Bool
  | number a, number b => some (decide (a < b))
  | _, _ => Option.none

/-- Modelled from the spec: `operator==` of `Value.h`; total, values of
different variants are unequal, `None == None` holds. -/
def equal (a b : Value) : Bool := decide (a = b)

end Value

/-! ## Operation codes -/

/-- Modelled from the spec: `OperationCodes.h` is not in the source. The
constructors are the enumerators named in `Disassembler.cpp`, `Compiler.cpp`
and `VirtualMachine.cpp`. -/
inductive OPCode where
  | None | OP_RETURN | OP_CONSTANT | OP_NEGATE | OP_ADD | OP_SUB | OP_MULT | OP_DIV
  | OP_NONE | OP_TRUE | OP_FALSE | OP_NOT | OP_EQUAL | OP_LESS | OP_GREATER
  | OP_PRINT | OP_POP_BACK | OP_DEFINE_GLOBAL_VAR | OP_GET_GLOBAL_VAR
  | OP_SET_GLOBAL_VAR | OP_SET_LOCAL_VAR | OP_GET_LOCAL_VAR | OP_JUMP
  | OP_JUMP_IF_FALSE | OP_LOOP
  deriving DecidableEq

/-- Modelled from the spec: the numbering of `OperationCodes.h` is not in the
source; the enumerators are numbered in the order in which
`Disassembler::disassembleInstruction` lists them. This is `(uint8_t)OPCode::X`. -/
def OPCode.toByte : OPCode → Nat
  | .None => 0 | .OP_RETURN => 1 | .OP_CONSTANT => 2 | .OP_NEGATE => 3
  | .OP_ADD => 4 | .OP_SUB => 5 | .OP_MULT => 6 | .OP_DIV => 7
  | .OP_NONE => 8 | .OP_TRUE => 9 | .OP_FALSE => 10 | .OP_NOT => 11
  | .OP_EQUAL => 12 | .OP_LESS => 13 | .OP_GREATER => 14 | .OP_PRINT => 15
  | .OP_POP_BACK => 16 | .OP_DEFINE_GLOBAL_VAR => 17 | .OP_GET_GLOBAL_VAR => 18
  | .OP_SET_GLOBAL_VAR => 19 | .OP_SET_LOCAL_VAR => 20 | .OP_GET_LOCAL_VAR => 21
  | .OP_JUMP => 22 | .OP_JUMP_IF_FALSE => 23 | .OP_LOOP => 24

/-- The enumerator a byte stands for, if any: the `case` labels of a
`switch` over `(uint8_t)OPCode::X`. -/
def OPCode.ofByte : Nat → Option OPCode
  | 0 => some .None | 1 => some .OP_RETURN | 2 => some .OP_CONSTANT
  | 3 => some .OP_NEGATE | 4 => some .OP_ADD | 5 => some .OP_SUB
  | 6 => some .OP_MULT | 7 => some .OP_DIV | 8 => some .OP_NONE
  | 9 => some .OP_TRUE | 10 => some .OP_FALSE | 11 => some .OP_NOT
  | 12 => some .OP_EQUAL | 13 => some .OP_LESS | 14 => some .OP_GREATER
  | 15 => some .OP_PRINT | 16 => some .OP_POP_BACK
  | 17 => some .OP_DEFINE_GLOBAL_VAR | 18 => some .OP_GET_GLOBAL_VAR
  | 19 => some .OP_SET_GLOBAL_VAR | 20 => some .OP_SET_LOCAL_VAR
  | 21 => some .OP_GET_LOCAL_VAR | 22 => some .OP_JUMP
  | 23 => some .OP_JUMP_IF_FALSE | 24 => some .OP_LOOP
  | _ => Option.none

/-! ## Chunk -/

/-- Modelled from the spec: `Chunk.h` is not in the source. `data` is the
bytecode, `constantPool` the constants, `lines` the source line of each byte. -/
structure Chunk where
  data : List Nat
  constantPool : List Value
  lines : List Nat
  deriving DecidableEq

/-- Ways in which a call of the compiler can end without a result. -/
inductive Fault where
  /-- The fuel of the model ran out. -/
  | outOfFuel
  /-- An empty `std::function` was called. -/
  | badFunctionCall
  /-- The constant pool already holds 256 entries. -/
  | poolOverflow
  deriving DecidableEq

namespace Chunk

/-- The chunk of a fresh `Chunk chunk;`. -/
def empty : Chunk := { data := [], constantPool := [], lines := [] }

/-- Modelled from the spec: `push_back(byte, line)` appends one byte and its
source line. -/
def push_back (ch : Chunk) (byte line : Nat) : Chunk :=
  { ch with data := ch.data ++ [byte % 256], lines := ch.lines ++ [line] }

/-- Modelled from the spec: `push_constant_only(value)` appends to the pool; it
fails when the pool already holds 256 entries. -/
def push_constant_only (ch : Chunk) (value : Value) : Except Fault Chunk :=
  if 256 ≤ ch.constantPool.length then .error .poolOverflow
  else .ok { ch with constantPool := ch.constantPool ++ [value] }

/-- Modelled from the spec: `push_constant(value, line)` appends the value to
the pool and the 8-bit index of the value to the code. The `CONSTANT` opcode
itself is the byte that `emitConstant` emits before this call. -/
def push_constant (ch : Chunk) (value : Value) (line : Nat) : Except Fault Chunk :=
  match ch.push_constant_only value with
  | .error e => .error e
  | .ok ch1 => .ok (ch1.push_back (ch1.constantPool.length - 1) line)

end Chunk

/-! ## Tokens and the lexer -/

/-- Modelled from the spec: `Token.h` is not in the source. The enumerators
are those of the rule table in `Compiler::intializeParserRules`. -/
inductive TokenType where
  | T_LEFT_PARENTHESIS | T_RIGHT_PARENTHESIS | T_LEFT_BRACES | T_RIGHT_BRACES
  | T_COMMA | T_DOT | T_MINUS | T_PLUS | T_SLASH | T_ASTERISTIC | T_SEMICOLON
  | T_EXCLAMATION | T_EXCLAMATION_EQUAL | T_EQUAL | T_EQUAL_EQUAL
  | T_GREATER | T_GREATER_EQUAL | T_LESS | T_LESS_EQUAL
  | T_IDENTIFIER | T_STRING | T_NUMERIC
  | T_AND | T_OR | T_IF | T_ELSE | T_FALSE | T_TRUE | T_FOR | T_WHILE
  | T_NONE | T_PRINT | T_VAR | T_FUNC | T_RETURN | T_CLASS | T_SUPER | T_THIS
  | T_ERROR | T_EOF
  deriving DecidableEq

/-- Modelled from the spec: a token is `(type, lexeme, line)`; the lexeme is
the member `data`. -/
structure Token where
  type : TokenType
  data : String
  line : Nat
  deriving DecidableEq

/-- Modelled from the spec: `Token::operator==` is not in the source; two
names are the same name when their lexemes are equal. -/
def Token.same (a b : Token) : Bool := decide (a.data = b.data)

/-- Modelled from the spec: the lexer is an external collaborator. It is
represented by the list of tokens it has still to deliver; once they are used
up, `nextToken` delivers this `T_EOF` token forever. -/
def eofToken : Token := { type := .T_EOF, data := "", line := 0 }

/-! ## Compiler state -/

/-- The precedence ladder, as the integer value of the enumerator. -/
abbrev Precedence := Nat

/-- Modelled from the spec: the enumerators of `Precedence`, low to high
`NONE < ASSIGNMENT < OR < AND < EQUALITY < COMPARISON < TERM < FACTOR < UNARY
< CALL < PRIMARY`. -/
def P_NONE : Precedence := 0
/-- See `P_NONE`. -/
def P_ASSIGNMENT : Precedence := 1
/-- See `P_NONE`. -/
def P_OR : Precedence := 2
/-- See `P_NONE`. -/
def P_AND : Precedence := 3
/-- See `P_NONE`. -/
def P_EQUAL : Precedence := 4
/-- See `P_NONE`. -/
def P_COMPARE : Precedence := 5
/-- See `P_NONE`. -/
def P_TERM : Precedence := 6
/-- See `P_NONE`. -/
def P_FACTOR : Precedence := 7
/-- See `P_NONE`. -/
def P_UNARY : Precedence := 8
/-- See `P_NONE`. -/
def P_CALL : Precedence := 9
/-- See `P_NONE`. -/
def P_PRIMARY : Precedence := 10

/-- A compiler method bound by `std::bind` in the rule table, with the value
bound to its `canAssign` parameter. `grouping` has no parameter. -/
inductive ParseFn where
  | grouping
  | unary (bound : Bool)
  | binary (bound : Bool)
  | variableFn (bound : Bool)
  | string (bound : Bool)
  | numeric (bound : Bool)
  | literalType (bound : Bool)
  | andRule (bound : Bool)
  | orRule (bound : Bool)
  deriving DecidableEq

/-- An entry of the rule table: `Rule(prefix, infix, precedence)`; `none` is
`nullptr`. -/
structure Rule where
  prefixFn : Option ParseFn
  infixFn : Option ParseFn
  precedence : Precedence

/-- The member `parser`: `previous`, `current`, `errorFound`, `panicMode`. -/
structure ParserState where
  previous : Token
  current : Token
  errorFound : Bool
  panicMode : Bool
  deriving DecidableEq

/-- A local variable of the compile-time stack; `depth = -1` marks a local
whose initializer is being compiled. -/
structure LocalVar where
  name : Token
  depth : Int
  deriving DecidableEq

/-- The member `localStack`; `scopeDepth` is unsigned in the source. -/
structure LocalStack where
  locals : List LocalVar
  scopeDepth : Nat
  deriving DecidableEq

/-- One diagnostic written to the standard error stream by `handleErrorToken`:
the token whose line and lexeme are printed, and the message. -/
structure Diagnostic where
  token : Token
  message : String
  deriving DecidableEq

/-- The state of a `yo::Compiler`, together with the lexer input still to be
read and the diagnostics written so far. -/
structure Compiler where
  lexer : List Token
  parser : ParserState
  currentChunk : Chunk
  localStack : LocalStack
  stderr : List Diagnostic
  deriving DecidableEq

namespace Compiler

/-! ## Error reporting and token handling -/

/-- `Compiler::handleErrorToken`: in panic mode the error is dropped;
otherwise panic mode is entered, the diagnostic is written and `errorFound`
is set. -/
def handleErrorToken (c : Compiler) (token : Token) (message : String) : Compiler :=
  if c.parser.panicMode then c
  else
    { c with
      parser := { c.parser with panicMode := true, errorFound := true }
      stderr := c.stderr ++ [{ token := token, message := message }] }

/-- `Compiler::handleErrorAtCurrentToken`. -/
def handleErrorAtCurrentToken (c : Compiler) (message : String) : Compiler :=
  handleErrorToken c c.parser.current message

/-- The loop of `Compiler::advance`: `parser.current = lexer.nextToken()` until
a token is not `T_ERROR`, reporting each error token. The second argument is
the input the lexer has still to deliver. -/
def advanceLoop (c : Compiler) : List Token → Compiler
  | [] => { c with lexer := [], parser := { c.parser with current := eofToken } }
  | t :: ts =>
    let c1 := { c with lexer := ts, parser := { c.parser with current := t } }
    if t.type ≠ TokenType.T_ERROR then c1
    else advanceLoop (handleErrorAtCurrentToken c1 t.data) ts

/-- `Compiler::advance`. -/
def advance (c : Compiler) : Compiler :=
  advanceLoop { c with parser := { c.parser with previous := c.parser.current } } c.lexer

/-- `Compiler::checkToken`. -/
def checkToken (c : Compiler) (type : TokenType) : Bool :=
  decide (c.parser.current.type = type)

/-- `Compiler::matchToken`: the result and the state after the call. -/
def matchToken (c : Compiler) (type : TokenType) : Bool × Compiler :=
  if c.parser.current.type ≠ type then (false, c) else (true, advance c)

/-- `Compiler::eat`. -/
def eat (c : Compiler) (type : TokenType) (message : String) : Compiler :=
  if c.parser.current.type = type then advance c
  else handleErrorAtCurrentToken c message

/-! ## Emitting bytes -/

/-- `Compiler::emitByte`. -/
def emitByte (c : Compiler) (byte : Nat) : Compiler :=
  { c with currentChunk := c.currentChunk.push_back byte c.parser.previous.line }

/-- `emitByte((uint8_t)OPCode::X)`. -/
def emitOp (c : Compiler) (op : OPCode) : Compiler :=
  emitByte c op.toByte

/-- `Compiler::emitConstant`. -/
def emitConstant (c : Compiler) (value : Value) : Except Fault Compiler :=
  let c1 := emitOp c .OP_CONSTANT
  match c1.currentChunk.push_constant value c1.parser.previous.line with
  | .error e => .error e
  | .ok ch => .ok { c1 with currentChunk := ch }

/-- `Compiler::emitJump`: the state after the call and the returned patch site
`data.size() - 2`. -/
def emitJump (c : Compiler) (instruction : Nat) : Compiler × Int :=
  let c1 := emitByte (emitByte (emitByte c instruction) 0xFF) 0xFF
  (c1, (c1.currentChunk.data.length : Int) - 2)

/-- `Compiler::emitLoop`. -/
def emitLoop (c : Compiler) (loopStart : Int) : Compiler :=
  let c1 := emitOp c .OP_LOOP
  let offset : Int := (c1.currentChunk.data.length : Int) - loopStart + 2
  let c2 :=
    if offset > 65535 then
      handleErrorAtCurrentToken c1 "The previous while offset was too large"
    else c1
  let c3 := emitByte c2 (((offset / 256) % 256).toNat)
  emitByte c3 ((offset % 256).toNat)

/-- `Compiler::patchJump`: the two bytes at `offset` and `offset + 1` are
overwritten; a write outside the code leaves it as it is. -/
def patchJump (c : Compiler) (offset : Int) : Compiler :=
  let jump : Int := (c.currentChunk.data.length : Int) - offset - 2
  let c1 :=
    if jump > 65535 then
      handleErrorAtCurrentToken c "The previous jump offset was too large"
    else c
  let d1 := c1.currentChunk.data.set offset.toNat (((jump / 256) % 256).toNat)
  let d2 := d1.set (offset + 1).toNat ((jump % 256).toNat)
  { c1 with currentChunk := { c1.currentChunk with data := d2 } }

/-- `Compiler::finish`. -/
def finish (c : Compiler) : Compiler :=
  emitOp c .OP_RETURN

/-! ## Scopes and variables -/

/-- `Compiler::startScope`: `++scopeDepth` on the unsigned scope depth. -/
def startScope (c : Compiler) : Compiler :=
  { c with localStack :=
      { c.localStack with scopeDepth := (c.localStack.scopeDepth + 1) % 4294967296 } }

/-- The value of `(unsigned int)depth` for an `int depth`. -/
def toUnsigned (depth : Int) : Nat := (depth % 4294967296).toNat

/-- The loop of `Compiler::endScope`, over the locals from the top of the
stack (the list is the stack reversed): one `OP_POP_BACK` per local whose
depth exceeds the scope depth. Returns the locals left, reversed. -/
def endScopeLoop (scopeDepth : Nat) : List LocalVar → Compiler → List LocalVar × Compiler
  | [], c => ([], c)
  | l :: rest, c =>
    if toUnsigned l.depth > scopeDepth then
      endScopeLoop scopeDepth rest (emitOp c .OP_POP_BACK)
    else (l :: rest, c)

/-- `Compiler::endScope`. `--scopeDepth` on the unsigned scope depth wraps
around at 0. -/
def endScope (c : Compiler) : Compiler :=
  let depth := (c.localStack.scopeDepth + 4294967295) % 4294967296
  let r := endScopeLoop depth c.localStack.locals.reverse c
  { r.2 with localStack := { locals := r.1.reverse, scopeDepth := depth } }

/-- `Compiler::addLocal`. -/
def addLocal (c : Compiler) (name : Token) : Compiler :=
  { c with localStack :=
      { c.localStack with locals := c.localStack.locals ++ [{ name := name, depth := -1 }] } }

/-- The loop of `Compiler::declareVariable`, over the locals from the top of
the stack: stop at the first local of an enclosing scope, report every local
of the same name met before. -/
def declareLoop (name : Token) (scopeDepth : Nat) : List LocalVar → Compiler → Compiler
  | [], c => c
  | var :: rest, c =>
    if var.depth ≠ -1 ∧ var.depth < (scopeDepth : Int) then c
    else if name.same var.name then
      declareLoop name scopeDepth rest
        (handleErrorAtCurrentToken c
          "A variable assigned to this name already exists in this scope")
    else declareLoop name scopeDepth rest c

/-- `Compiler::declareVariable`; the name is `parser.previous`. -/
def declareVariable (c : Compiler) : Compiler :=
  if c.localStack.scopeDepth = 0 then c
  else
    let name := c.parser.previous
    addLocal (declareLoop name c.localStack.scopeDepth c.localStack.locals.reverse c) name

/-- `Compiler::markInitialized`: the depth of the last local becomes the scope
depth. It is only called after `declareVariable` has pushed a local; on an
empty stack the model leaves the state as it is. -/
def markInitialized (c : Compiler) : Compiler :=
  match c.localStack.locals.reverse with
  | [] => c
  | l :: rest =>
    { c with localStack :=
        { c.localStack with
          locals := (({ l with depth := (c.localStack.scopeDepth : Int) } : LocalVar) :: rest).reverse } }

/-- `Compiler::identifierConstant`: the state after the call and the returned
`(uint8_t)constantPool.size() - 1`. -/
def identifierConstant (c : Compiler) (name : Token) : Except Fault (Compiler × Nat) :=
  match c.currentChunk.push_constant_only (.str name.data) with
  | .error e => .error e
  | .ok ch =>
    .ok ({ c with currentChunk := ch },
         (((ch.constantPool.length % 256 : Nat) : Int) - 1).emod 256 |>.toNat)

/-- `Compiler::parseVariable`. -/
def parseVariable (c : Compiler) (message : String) : Except Fault (Compiler × Nat) :=
  let c1 := declareVariable (eat c .T_IDENTIFIER message)
  if c1.localStack.scopeDepth > 0 then .ok (c1, 0)
  else identifierConstant c1 c1.parser.previous

/-- `Compiler::defineVariable`. -/
def defineVariable (c : Compiler) (globalVariable : Nat) : Compiler :=
  if c.localStack.scopeDepth > 0 then markInitialized c
  else emitByte (emitOp c .OP_DEFINE_GLOBAL_VAR) globalVariable

/-- The loop of `Compiler::resolveLocal`, over the locals from the top of the
stack; the index of the head in the stack is the length of the tail. Returns
the state after the call and the slot, or `-1`. -/
def resolveLoop (name : Token) : List LocalVar → Compiler → Compiler × Int
  | [], c => (c, -1)
  | var :: rest, c =>
    if name.same var.name then
      ((if var.depth = -1 then
          handleErrorAtCurrentToken c
            "Unable to read local variable in its own initializer."
        else c), (rest.length : Int))
    else resolveLoop name rest c

/-- `Compiler::resolveLocal`. -/
def resolveLocal (c : Compiler) (name : Token) : Compiler × Int :=
  resolveLoop name c.localStack.locals.reverse c

/-! ## The rule table -/

/-- `Compiler::intializeParserRules` and `Compiler::getParserRule`: the rule
inserted for each token type, with the arguments bound by `std::bind`. -/
def getParserRule : TokenType → Rule
  | .T_LEFT_PARENTHESIS => ⟨some .grouping, none, P_NONE⟩
  | .T_RIGHT_PARENTHESIS => ⟨none, none, P_NONE⟩
  | .T_LEFT_BRACES => ⟨none, none, P_NONE⟩
  | .T_RIGHT_BRACES => ⟨none, none, P_NONE⟩
  | .T_COMMA => ⟨none, none, P_NONE⟩
  | .T_DOT => ⟨none, none, P_NONE⟩
  | .T_MINUS => ⟨some (.unary false), some (.binary false), P_TERM⟩
  | .T_PLUS => ⟨none, some (.binary false), P_TERM⟩
  | .T_SLASH => ⟨none, some (.binary false), P_FACTOR⟩
  | .T_ASTERISTIC => ⟨none, some (.binary false), P_FACTOR⟩
  | .T_SEMICOLON => ⟨none, none, P_NONE⟩
  | .T_EXCLAMATION => ⟨some (.unary false), none, P_NONE⟩
  | .T_EXCLAMATION_EQUAL => ⟨none, some (.binary false), P_EQUAL⟩
  | .T_EQUAL => ⟨none, none, P_NONE⟩
  | .T_EQUAL_EQUAL => ⟨none, some (.binary false), P_COMPARE⟩
  | .T_GREATER => ⟨none, some (.binary false), P_COMPARE⟩
  | .T_GREATER_EQUAL => ⟨none, some (.binary false), P_COMPARE⟩
  | .T_LESS => ⟨none, some (.binary false), P_COMPARE⟩
  | .T_LESS_EQUAL => ⟨none, some (.binary false), P_COMPARE⟩
  | .T_IDENTIFIER => ⟨some (.variableFn true), none, P_NONE⟩
  | .T_STRING => ⟨some (.string true), none, P_NONE⟩
  | .T_NUMERIC => ⟨some (.numeric true), none, P_NONE⟩
  | .T_AND => ⟨none, some (.andRule false), P_AND⟩
  | .T_OR => ⟨none, some (.orRule false), P_OR⟩
  | .T_IF => ⟨none, none, P_NONE⟩
  | .T_ELSE => ⟨none, none, P_NONE⟩
  | .T_FALSE => ⟨some (.literalType true), none, P_NONE⟩
  | .T_TRUE => ⟨some (.literalType true), none, P_NONE⟩
  | .T_FOR => ⟨none, none, P_NONE⟩
  | .T_WHILE => ⟨none, none, P_NONE⟩
  | .T_NONE => ⟨some (.literalType true), none, P_NONE⟩
  | .T_PRINT => ⟨none, none, P_NONE⟩
  | .T_VAR => ⟨none, none, P_NONE⟩
  | .T_FUNC => ⟨none, none, P_NONE⟩
  | .T_RETURN => ⟨none, none, P_NONE⟩
  | .T_CLASS => ⟨none, none, P_NONE⟩
  | .T_SUPER => ⟨none, none, P_NONE⟩
  | .T_THIS => ⟨none, none, P_NONE⟩
  | .T_ERROR => ⟨none, none, P_NONE⟩
  | .T_EOF => ⟨none, none, P_NONE⟩

/-! ## Literals -/

/-- The decimal digits at the head of a list of characters: their value, their
number, and the rest of the list. -/
def readDigits : List Char → Nat → Nat → Nat × Nat × List Char
  | [], acc, k => (acc, k, [])
  | ch :: rest, acc, k =>
    if ch.isDigit then readDigits rest (10 * acc + (ch.toNat - 48)) (k + 1)
    else (acc, k, ch :: rest)

/-- Modelled from the spec: `std::strtod` on the lexeme of a number token,
which is a run of decimal digits optionally followed by `.` and a second run
of decimal digits. -/
def strtod (lexeme : String) : ℚ :=
  match readDigits lexeme.data 0 0 with
  | (whole, _, '.' :: rest) =>
    match readDigits rest 0 0 with
    | (frac, k, _) => (whole : ℚ) + (frac : ℚ) / (10 : ℚ) ^ k
  | (whole, _, _) => (whole : ℚ)

/-- `Compiler::numeric`. -/
def numeric (c : Compiler) (_canAssign : Bool) : Except Fault Compiler :=
  emitConstant c (.number (strtod c.parser.previous.data))

/-- `Compiler::prepareStringObject`. -/
def prepareStringObject (c : Compiler) : String :=
  c.parser.previous.data

/-- `Compiler::string`. -/
def string (c : Compiler) (_canAssign : Bool) : Except Fault Compiler :=
  emitConstant c (.str (prepareStringObject c))

/-- `Compiler::literalType`. -/
def literalType (c : Compiler) (_canAssign : Bool) : Compiler :=
  match c.parser.previous.type with
  | .T_NONE => emitOp c .OP_NONE
  | .T_TRUE => emitOp c .OP_TRUE
  | .T_FALSE => emitOp c .OP_FALSE
  | _ => c

/-- The `switch` of `Compiler::unary` after the operand. -/
def unaryEmit (c : Compiler) : TokenType → Compiler
  | .T_MINUS => emitOp c .OP_NEGATE
  | .T_EXCLAMATION => emitOp c .OP_NOT
  | _ => c

/-- The `switch` of `Compiler::binary` after the right operand. -/
def binaryEmit (c : Compiler) : TokenType → Compiler
  | .T_PLUS => emitOp c .OP_ADD
  | .T_MINUS => emitOp c .OP_SUB
  | .T_ASTERISTIC => emitOp c .OP_MULT
  | .T_SLASH => emitOp c .OP_DIV
  | .T_EQUAL_EQUAL => emitOp c .OP_EQUAL
  | .T_EXCLAMATION_EQUAL => emitOp (emitOp c .OP_EQUAL) .OP_NOT
  | .T_GREATER => emitOp c .OP_GREATER
  | .T_GREATER_EQUAL => emitOp (emitOp c .OP_LESS) .OP_NOT
  | .T_LESS => emitOp c .OP_LESS
  | .T_LESS_EQUAL => emitOp (emitOp c .OP_GREATER) .OP_NOT
  | _ => c

/-! ## The recursive-descent routines

The routines of the parser call each other recursively. Each one is written
here with the calls it makes passed through its first argument `call`;
`exec` ties the knot, giving every call one unit of fuel less than its caller. -/

/-- The routines that take part in the recursion, with their arguments. The
two loops are routines of their own: each turn of a loop is one call. -/
inductive Routine where
  | declaration
  | variableDeclaration
  | statement
  | expression
  | grouping
  | scopeBlock
  | statementExpression
  | statementPrint
  | statementIf
  | statementWhile
  | statementFor
  | unary (canAssign : Bool)
  | binary (canAssign : Bool)
  | andRule (canAssign : Bool)
  | orRule (canAssign : Bool)
  | variableFn (canAssign : Bool)
  | namedVariable (name : Token) (canAssign : Bool)
  | invoke (fn : ParseFn) (argument : Bool)
  | infixLoop (precedence : Precedence) (canAssign : Bool)
  | parsePrecedence (precedence : Precedence)

/-- A way of calling the routines. -/
abbrev Call := Routine → Compiler → Except Fault Compiler

/-- `Compiler::declaration`. -/
def declaration (call : Call) (c : Compiler) : Except Fault Compiler :=
  let m := matchToken c .T_VAR
  if m.1 then call .variableDeclaration m.2 else call .statement m.2

/-- `Compiler::variableDeclaration`. -/
def variableDeclaration (call : Call) (c : Compiler) : Except Fault Compiler := do
  let (c1, globalVariable) ← parseVariable c "Expected a variable name"
  let m := matchToken c1 .T_EQUAL
  let c2 ← (if m.1 then call .expression m.2 else pure (emitOp m.2 .OP_NONE))
  let c3 := eat c2 .T_SEMICOLON "Expected ';' after expression"
  pure (defineVariable c3 globalVariable)

/-- `Compiler::statement`. -/
def statement (call : Call) (c : Compiler) : Except Fault Compiler :=
  let m1 := matchToken c .T_PRINT
  if m1.1 then call .statementPrint m1.2 else
  let m2 := matchToken m1.2 .T_IF
  if m2.1 then call .statementIf m2.2 else
  let m3 := matchToken m2.2 .T_WHILE
  if m3.1 then call .statementWhile m3.2 else
  let m4 := matchToken m3.2 .T_FOR
  if m4.1 then call .statementFor m4.2 else
  let m5 := matchToken m4.2 .T_LEFT_BRACES
  if m5.1 then do
    let c1 ← call .scopeBlock (startScope m5.2)
    pure (endScope c1)
  else call .statementExpression m5.2

/-- `Compiler::expression`. -/
def expression (call : Call) (c : Compiler) : Except Fault Compiler :=
  call (.parsePrecedence P_ASSIGNMENT) c

/-- `Compiler::grouping`. -/
def grouping (call : Call) (c : Compiler) : Except Fault Compiler := do
  let c1 ← call .expression c
  pure (eat c1 .T_RIGHT_PARENTHESIS "Expected ')' after expression")

/-- `Compiler::scopeBlock`; the next turn of the loop is the call of
`scopeBlock` at the end. -/
def scopeBlock (call : Call) (c : Compiler) : Except Fault Compiler :=
  if !checkToken c .T_RIGHT_BRACES && !checkToken c .T_EOF then do
    let c1 ← call .declaration c
    call .scopeBlock c1
  else pure (eat c .T_RIGHT_BRACES "Expected '\x7d' after declaration")

/-- `Compiler::statementExpression`. -/
def statementExpression (call : Call) (c : Compiler) : Except Fault Compiler := do
  let c1 ← call .expression c
  let c2 := eat c1 .T_SEMICOLON "Expected ';' after expression"
  pure (emitOp c2 .OP_POP_BACK)

/-- `Compiler::statementPrint`. -/
def statementPrint (call : Call) (c : Compiler) : Except Fault Compiler := do
  let c1 := eat c .T_LEFT_PARENTHESIS "Expected a '('"
  let c2 ← call .expression c1
  let c3 := eat c2 .T_RIGHT_PARENTHESIS "Expected a ')'"
  let c4 := eat c3 .T_SEMICOLON "Expected ';' after expression"
  pure (emitOp c4 .OP_PRINT)

/-- `Compiler::statementIf`. -/
def statementIf (call : Call) (c : Compiler) : Except Fault Compiler := do
  let c1 := eat c .T_LEFT_PARENTHESIS "Expected a '('"
  let c2 ← call .expression c1
  let c3 := eat c2 .T_RIGHT_PARENTHESIS "Expected a ')'"
  let (c4, thenJump) := emitJump c3 OPCode.OP_JUMP_IF_FALSE.toByte
  let c5 := emitOp c4 .OP_POP_BACK
  let c6 ← call .statement c5
  let (c7, elseJump) := emitJump c6 OPCode.OP_JUMP.toByte
  let c8 := patchJump c7 thenJump
  let c9 := emitOp c8 .OP_POP_BACK
  let m := matchToken c9 .T_ELSE
  let c10 ← (if m.1 then call .statement m.2 else pure m.2)
  pure (patchJump c10 elseJump)

/-- `Compiler::statementWhile`. -/
def statementWhile (call : Call) (c : Compiler) : Except Fault Compiler := do
  let loopStart : Int := c.currentChunk.data.length
  let c1 := eat c .T_LEFT_PARENTHESIS "Expected a '('"
  let c2 ← call .expression c1
  let c3 := eat c2 .T_RIGHT_PARENTHESIS "Expected a ')'"
  let (c4, exitJump) := emitJump c3 OPCode.OP_JUMP_IF_FALSE.toByte
  let c5 := emitOp c4 .OP_POP_BACK
  let c6 ← call .statement c5
  let c7 := emitLoop c6 loopStart
  let c8 := patchJump c7 exitJump
  pure (emitOp c8 .OP_POP_BACK)

/-- `Compiler::statementFor`. -/
def statementFor (call : Call) (c : Compiler) : Except Fault Compiler := do
  let c1 := eat (startScope c) .T_LEFT_PARENTHESIS "Expected a '('"
  let m1 := matchToken c1 .T_SEMICOLON
  let c2 ←
    (if m1.1 then pure m1.2
     else
      let m2 := matchToken m1.2 .T_VAR
      if m2.1 then call .variableDeclaration m2.2 else call .statementExpression m2.2)
  let loopStart : Int := c2.currentChunk.data.length
  let m3 := matchToken c2 .T_SEMICOLON
  let (c3, exit) ←
    (if !m3.1 then do
      let d1 ← call .expression m3.2
      let d2 := eat d1 .T_SEMICOLON "Expected a ';' after loop condition"
      let (d3, e) := emitJump d2 OPCode.OP_JUMP_IF_FALSE.toByte
      pure (emitOp d3 .OP_POP_BACK, e)
     else pure (m3.2, (-1 : Int)))
  let m4 := matchToken c3 .T_RIGHT_PARENTHESIS
  let (c4, loopStart) ←
    (if !m4.1 then do
      let (d1, bodyJump) := emitJump m4.2 OPCode.OP_JUMP.toByte
      let incrementStart : Int := d1.currentChunk.data.length
      let d2 ← call .expression d1
      let d3 := emitOp d2 .OP_POP_BACK
      let d4 := eat d3 .T_RIGHT_PARENTHESIS "Expected a ')'"
      let d5 := emitLoop d4 loopStart
      pure (patchJump d5 bodyJump, incrementStart)
     else pure (m4.2, loopStart))
  let c5 ← call .statement c4
  let c6 := emitLoop c5 loopStart
  let c7 := if exit ≠ -1 then emitOp (patchJump c6 exit) .OP_POP_BACK else c6
  pure (endScope c7)

/-- `Compiler::unary`. -/
def unary (call : Call) (_canAssign : Bool) (c : Compiler) : Except Fault Compiler := do
  let type := c.parser.previous.type
  let c1 ← call (.parsePrecedence P_UNARY) c
  pure (unaryEmit c1 type)

/-- `Compiler::binary`. -/
def binary (call : Call) (_canAssign : Bool) (c : Compiler) : Except Fault Compiler := do
  let type := c.parser.previous.type
  let rule := getParserRule type
  let c1 ← call (.parsePrecedence (rule.precedence + 1)) c
  pure (binaryEmit c1 type)

/-- Modelled from the spec: `Compiler::andRule` is not in the source. After the
left operand: `JUMP_IF_FALSE` to the end, `POP`, the right operand parsed at
`AND` precedence, then the jump is patched. -/
def andRule (call : Call) (_canAssign : Bool) (c : Compiler) : Except Fault Compiler := do
  let (c1, endJump) := emitJump c OPCode.OP_JUMP_IF_FALSE.toByte
  let c2 := emitOp c1 .OP_POP_BACK
  let c3 ← call (.parsePrecedence P_AND) c2
  pure (patchJump c3 endJump)

/-- Modelled from the spec: `Compiler::orRule` is not in the source. After the
left operand: `JUMP_IF_FALSE` to the else part, `JUMP` to the end, the first
jump patched, `POP`, the right operand parsed at `OR` precedence, then the
second jump is patched. -/
def orRule (call : Call) (_canAssign : Bool) (c : Compiler) : Except Fault Compiler := do
  let (c1, elseJump) := emitJump c OPCode.OP_JUMP_IF_FALSE.toByte
  let (c2, endJump) := emitJump c1 OPCode.OP_JUMP.toByte
  let c3 := patchJump c2 elseJump
  let c4 := emitOp c3 .OP_POP_BACK
  let c5 ← call (.parsePrecedence P_OR) c4
  pure (patchJump c5 endJump)

/-- `Compiler::variable` (`variable` is a reserved word). -/
def variableFn (call : Call) (canAssign : Bool) (c : Compiler) : Except Fault Compiler :=
  call (.namedVariable c.parser.previous canAssign) c

/-- `Compiler::namedVariable`. -/
def namedVariable (call : Call) (name : Token) (canAssign : Bool) (c : Compiler) :
    Except Fault Compiler := do
  let (c1, arg) := resolveLocal c name
  let (c2, arg, getOperation, setOperation) ←
    (if arg ≠ -1 then
      pure (c1, arg, OPCode.OP_GET_LOCAL_VAR, OPCode.OP_SET_LOCAL_VAR)
     else do
      let (d, k) ← identifierConstant c1 name
      pure (d, (k : Int), OPCode.OP_GET_GLOBAL_VAR, OPCode.OP_SET_GLOBAL_VAR))
  let m := if canAssign then matchToken c2 .T_EQUAL else (false, c2)
  if m.1 then do
    let c3 ← call .expression m.2
    pure (emitByte (emitOp c3 setOperation) (arg % 256).toNat)
  else
    pure (emitByte (emitOp m.2 getOperation) (arg % 256).toNat)

/-- A call `fn(argument)` of a rule of the table. The object made by
`std::bind` drops the argument of the call and passes the value it has bound. -/
def invoke (call : Call) (fn : ParseFn) (_argument : Bool) (c : Compiler) :
    Except Fault Compiler :=
  match fn with
  | .grouping => call .grouping c
  | .unary bound => call (.unary bound) c
  | .binary bound => call (.binary bound) c
  | .variableFn bound => call (.variableFn bound) c
  | .string bound => string c bound
  | .numeric bound => numeric c bound
  | .literalType bound => pure (literalType c bound)
  | .andRule bound => call (.andRule bound) c
  | .orRule bound => call (.orRule bound) c

/-- The `while` loop of `Compiler::parsePrecedence`; the next turn of the loop
is the call of `infixLoop` at the end. -/
def infixLoop (call : Call) (precedence : Precedence) (canAssign : Bool) (c : Compiler) :
    Except Fault Compiler :=
  if precedence ≤ (getParserRule c.parser.current.type).precedence then
    let c1 := advance c
    match (getParserRule c1.parser.previous.type).infixFn with
    | none => .error .badFunctionCall
    | some fn => do
      let c2 ← call (.invoke fn canAssign) c1
      call (.infixLoop precedence canAssign) c2
  else pure c

/-- `Compiler::parsePrecedence`. -/
def parsePrecedence (call : Call) (precedence : Precedence) (c : Compiler) :
    Except Fault Compiler := do
  let c1 := advance c
  let type := c1.parser.previous.type
  match (getParserRule type).prefixFn with
  | none => pure (handleErrorAtCurrentToken c1 "Expected expression")
  | some fn =>
    let canAssign := decide (precedence ≤ P_ASSIGNMENT)
    let c2 ← call (.invoke fn canAssign) c1
    let c3 ← call (.infixLoop precedence canAssign) c2
    let m := if canAssign then matchToken c3 .T_EQUAL else (false, c3)
    if m.1 then pure (handleErrorAtCurrentToken m.2 "Invalid assignment target.")
    else pure m.2

/-- The body of each routine. -/
def dispatch (call : Call) : Routine → Compiler → Except Fault Compiler
  | .declaration => declaration call
  | .variableDeclaration => variableDeclaration call
  | .statement => statement call
  | .expression => expression call
  | .grouping => grouping call
  | .scopeBlock => scopeBlock call
  | .statementExpression => statementExpression call
  | .statementPrint => statementPrint call
  | .statementIf => statementIf call
  | .statementWhile => statementWhile call
  | .statementFor => statementFor call
  | .unary canAssign => unary call canAssign
  | .binary canAssign => binary call canAssign
  | .andRule canAssign => andRule call canAssign
  | .orRule canAssign => orRule call canAssign
  | .variableFn canAssign => variableFn call canAssign
  | .namedVariable name canAssign => namedVariable call name canAssign
  | .invoke fn argument => invoke call fn argument
  | .infixLoop precedence canAssign => infixLoop call precedence canAssign
  | .parsePrecedence precedence => parsePrecedence call precedence

/-- The routines with their recursive calls: with no fuel a call faults, with
`n + 1` units it runs the body of the routine, whose calls get `n` units. -/
def exec : Nat → Call
  | 0 => fun _ _ => .error .outOfFuel
  | n + 1 => dispatch (exec n)

/-- The routines that compile expressions. -/
def Routine.isExpr : Routine → Bool
  | .expression | .grouping | .unary _ | .binary _ | .andRule _ | .orRule _
  | .variableFn _ | .namedVariable _ _ | .invoke _ _ | .infixLoop _ _
  | .parsePrecedence _ => true
  | _ => false

/-- The `while` loop of `Compiler::compile`; each turn is one call. -/
def compileLoop : Nat → Compiler → Except Fault Compiler
  | 0, _ => .error .outOfFuel
  | n + 1, c =>
    let m := matchToken c .T_EOF
    if m.1 then pure m.2
    else do
      let c1 ← exec n .declaration m.2
      compileLoop n c1

/-- A newly constructed `yo::Compiler`: no locals, scope depth 0, nothing read. -/
def new : Compiler :=
  { lexer := []
    parser := { previous := eofToken, current := eofToken, errorFound := false, panicMode := false }
    currentChunk := Chunk.empty
    localStack := { locals := [], scopeDepth := 0 }
    stderr := [] }

/-- `Compiler::compile(source, chunk)`: the returned boolean and the compiler
afterwards. The source is given as the tokens the lexer delivers for it. -/
def compile (fuel : Nat) (c : Compiler) (source : List Token) (chunk : Chunk) :
    Except Fault (Bool × Compiler) := do
  let c1 := { c with lexer := source, currentChunk := chunk }
  let c2 := { c1 with parser := { c1.parser with errorFound := false, panicMode := false } }
  let c3 := advance c2
  let c4 ← compileLoop fuel c3
  let c5 := finish c4
  pure (!c5.parser.errorFound, c5)

end Compiler

/-! ## The virtual machine -/

/-- The result of `interpret` and of `run`. -/
inductive InterpretResult where
  | OK | COMPILE_ERROR | RUNTIME_ERROR
  deriving DecidableEq

/-- The state of a `yo::VirtualMachine`: its compiler (whose `currentChunk` is
the chunk that `run` executes), the instruction pointer as an offset into the
code, the operand stack (the top is the last element), the globals, the values
printed so far and the runtime diagnostics written so far. -/
structure VirtualMachine where
  compiler : Compiler
  IP : Nat
  vmStack : List Value
  vmGlobals : List (String × Value)
  stdout : List Value
  stderr : List String
  deriving DecidableEq

/-- What one turn of the dispatch loop of `run` does. -/
inductive Step where
  /-- The loop goes on in the given state. -/
  | next (vm : VirtualMachine)
  /-- `run` returns. -/
  | halt (result : InterpretResult) (vm : VirtualMachine)
  /-- `peek` threw `"Index out of range"`. -/
  | thrown (vm : VirtualMachine)
  /-- The source does not define what happens: a read outside the code, the
  stack or the pool, `back()` or `pop_back()` on an empty stack, or an operator
  of `Value` applied where it has no result. -/
  | undefined
  deriving DecidableEq

/-- The result of `peek`. -/
inductive Peek where
  | value (v : Value)
  | thrown
  | undefined
  deriving DecidableEq

namespace VirtualMachine

/-- The chunk that `run` executes: `compiler.currentChunk`. -/
def chunk (vm : VirtualMachine) : Chunk := vm.compiler.currentChunk

/-- `VirtualMachine::isBooleanFalse`. -/
def isBooleanFalse : Value → Bool
  | .none => true
  | .bool b => !b
  | _ => false

/-- `VirtualMachine::readByte`: `*IP++`. -/
def readByte (vm : VirtualMachine) : Option (Nat × VirtualMachine) :=
  match vm.chunk.data[vm.IP]? with
  | none => none
  | some b => some (b, { vm with IP := vm.IP + 1 })

/-- `VirtualMachine::readConstant`. -/
def readConstant (vm : VirtualMachine) : Option (Value × VirtualMachine) :=
  match readByte vm with
  | none => none
  | some (idx, vm1) =>
    match vm1.chunk.constantPool[idx]? with
    | none => none
    | some v => some (v, vm1)

/-- `VirtualMachine::readShort`: `IP += 2, (uint16_t)((IP[-2] << 8) | IP[-1])`,
converted to the declared return type `uint8_t`. -/
def readShort (vm : VirtualMachine) : Option (Nat × VirtualMachine) :=
  match vm.chunk.data[vm.IP]?, vm.chunk.data[vm.IP + 1]? with
  | some hi, some lo =>
    some ((((hi <<< 8) ||| lo) % 65536) % 256, { vm with IP := vm.IP + 2 })
  | _, _ => none

/-- `VirtualMachine::peek`: throws when `distance > vmStack.size() + 1`, else
reads `vmStack[vmStack.size() - 1 - distance]`. -/
def peek (vm : VirtualMachine) (distance : Nat) : Peek :=
  if distance > vm.vmStack.length + 1 then .thrown
  else if distance < vm.vmStack.length then
    match vm.vmStack[vm.vmStack.length - 1 - distance]? with
    | some v => .value v
    | none => .undefined
  else .undefined

/-- `vmStack.back()` followed by `vmStack.pop_back()`. -/
def pop (vm : VirtualMachine) : Option (Value × VirtualMachine) :=
  match vm.vmStack.getLast? with
  | none => none
  | some v => some (v, { vm with vmStack := vm.vmStack.dropLast })

/-- `vmStack.push_back(v)`. -/
def push (vm : VirtualMachine) (v : Value) : VirtualMachine :=
  { vm with vmStack := vm.vmStack ++ [v] }

/-- The operator of `Value` that `binaryOperation` applies for an opcode. -/
def applyBinary : OPCode → Value → Value → Option Value
  | .OP_ADD, a, b => a.add b
  | .OP_SUB, a, b => a.sub b
  | .OP_MULT, a, b => a.mul b
  | .OP_DIV, a, b => a.div b
  | .OP_GREATER, a, b => (a.greater b).map Value.bool
  | .OP_LESS, a, b => (a.less b).map Value.bool
  | _, _, _ => none

/-- `VirtualMachine::binaryOperation`. -/
def binaryOperation (vm : VirtualMachine) (operation : OPCode) : Step :=
  match pop vm with
  | none => .undefined
  | some (b, vm1) =>
    match pop vm1 with
    | none => .undefined
    | some (a, vm2) =>
      match applyBinary operation a b with
      | none => .undefined
      | some r => .next (push vm2 r)

/-- Modelled from the spec: `getStringObject` is not in the source; it yields
the string of a `Str` constant. -/
def getStringObject : Value → Option String
  | .str s => some s
  | _ => none

/-- `vmGlobals.find(name)`. -/
def findGlobal (globals : List (String × Value)) (name : String) : Option Value :=
  (globals.find? (fun kv => decide (kv.1 = name))).map Prod.snd

/-- `vmGlobals[name] = value`: the entry is replaced, or added if absent. -/
def setGlobal : List (String × Value) → String → Value → List (String × Value)
  | [], name, value => [(name, value)]
  | kv :: rest, name, value =>
    if kv.1 = name then (name, value) :: rest else kv :: setGlobal rest name value

/-- Modelled from the spec: `runtimeError` is not in the source; it writes a
diagnostic to the standard error stream, and the operand stack is discarded. -/
def runtimeError (vm : VirtualMachine) (message : String) : VirtualMachine :=
  { vm with vmStack := [], stderr := vm.stderr ++ [message] }

/-- The name constant of a global-variable instruction:
`getStringObject(chunk->constantPool[readByte()])`. -/
def readName (vm : VirtualMachine) : Option (String × VirtualMachine) :=
  match readConstant vm with
  | none => none
  | some (v, vm1) =>
    match getStringObject v with
    | none => none
    | some name => some (name, vm1)

/-- The body of the `switch` of `run` for a decoded opcode, after `readByte`
has consumed the opcode byte. -/
def execute (vm : VirtualMachine) : OPCode → Step
  | .OP_RETURN => .halt .OK vm
  | .OP_CONSTANT =>
    match readConstant vm with
    | none => .undefined
    | some (constant, vm1) => .next (push vm1 constant)
  | .OP_NEGATE =>
    match pop vm with
    | none => .undefined
    | some (back, vm1) =>
      match back.neg with
      | none => .undefined
      | some r => .next (push vm1 r)
  | .OP_ADD => binaryOperation vm .OP_ADD
  | .OP_SUB => binaryOperation vm .OP_SUB
  | .OP_MULT => binaryOperation vm .OP_MULT
  | .OP_DIV => binaryOperation vm .OP_DIV
  | .OP_NOT =>
    match pop vm with
    | none => .undefined
    | some (back, vm1) => .next (push vm1 (.bool (isBooleanFalse back)))
  | .OP_NONE => .next (push vm .none)
  | .OP_TRUE => .next (push vm (.bool true))
  | .OP_FALSE => .next (push vm (.bool false))
  | .OP_EQUAL =>
    match pop vm with
    | none => .undefined
    | some (b, vm1) =>
      match pop vm1 with
      | none => .undefined
      | some (a, vm2) => .next (push vm2 (.bool (a.equal b)))
  | .OP_GREATER => binaryOperation vm .OP_GREATER
  | .OP_LESS => binaryOperation vm .OP_LESS
  | .OP_PRINT =>
    match pop vm with
    | none => .undefined
    | some (back, vm1) => .next { vm1 with stdout := vm1.stdout ++ [back] }
  | .OP_POP_BACK =>
    match pop vm with
    | none => .undefined
    | some (_, vm1) => .next vm1
  | .OP_DEFINE_GLOBAL_VAR =>
    match readName vm with
    | none => .undefined
    | some (name, vm1) =>
      match findGlobal vm1.vmGlobals name with
      | some _ => .halt .RUNTIME_ERROR (runtimeError vm1 ("Variable '" ++ name ++ "' is already defined."))
      | none =>
        match pop vm1 with
        | none => .undefined
        | some (back, vm2) => .next { vm2 with vmGlobals := setGlobal vm2.vmGlobals name back }
  | .OP_GET_GLOBAL_VAR =>
    match readName vm with
    | none => .undefined
    | some (name, vm1) =>
      match findGlobal vm1.vmGlobals name with
      | none => .halt .RUNTIME_ERROR (runtimeError vm1 ("Undefined variable '" ++ name ++ "'."))
      | some value => .next (push vm1 value)
  | .OP_SET_GLOBAL_VAR =>
    match readName vm with
    | none => .undefined
    | some (name, vm1) =>
      match findGlobal vm1.vmGlobals name with
      | none => .halt .RUNTIME_ERROR (runtimeError vm1 ("Undefined variable '" ++ name ++ "'."))
      | some _ =>
        match vm1.vmStack.getLast? with
        | none => .undefined
        | some back => .next { vm1 with vmGlobals := setGlobal vm1.vmGlobals name back }
  | .OP_GET_LOCAL_VAR =>
    match readByte vm with
    | none => .undefined
    | some (slot, vm1) =>
      match vm1.vmStack[slot]? with
      | none => .undefined
      | some v => .next (push vm1 v)
  | .OP_SET_LOCAL_VAR =>
    match readByte vm with
    | none => .undefined
    | some (slot, vm1) =>
      match vm1.vmStack.getLast? with
      | none => .undefined
      | some back =>
        if slot < vm1.vmStack.length then
          .next { vm1 with vmStack := vm1.vmStack.set slot back }
        else .undefined
  | .OP_JUMP =>
    match readShort vm with
    | none => .undefined
    | some (offset, vm1) => .next { vm1 with IP := vm1.IP + offset }
  | .OP_JUMP_IF_FALSE =>
    match readShort vm with
    | none => .undefined
    | some (offset, vm1) =>
      match peek vm1 0 with
      | .thrown => .thrown vm1
      | .undefined => .undefined
      | .value v =>
        if isBooleanFalse v then .next { vm1 with IP := vm1.IP + offset }
        else .next vm1
  | .OP_LOOP =>
    match readShort vm with
    | none => .undefined
    | some (offset, vm1) =>
      if offset ≤ vm1.IP then .next { vm1 with IP := vm1.IP - offset }
      else .undefined
  | .None => .next vm

/-- One turn of the loop of `run`: fetch a byte and dispatch on it. A byte
that is no `case` label falls through the `switch`. -/
def step (vm : VirtualMachine) : Step :=
  match readByte vm with
  | none => .undefined
  | some (instruction, vm1) =>
    match OPCode.ofByte instruction with
    | none => .next vm1
    | some op => execute vm1 op

end VirtualMachine

/-- How a call of `run` ends. -/
inductive RunResult where
  /-- `run` returned the result, in the given state. -/
  | done (result : InterpretResult) (vm : VirtualMachine)
  /-- An exception left `run`. -/
  | thrown (vm : VirtualMachine)
  /-- The source does not define the behaviour. -/
  | undefined
  /-- The fuel of the model ran out. -/
  | outOfFuel
  deriving DecidableEq

namespace VirtualMachine

/-- The dispatch loop of `run`, with a bound on the number of turns. -/
def runLoop : Nat → VirtualMachine → RunResult
  | 0, _ => .outOfFuel
  | n + 1, vm =>
    match step vm with
    | .next vm1 => runLoop n vm1
    | .halt r vm1 => .done r vm1
    | .thrown vm1 => .thrown vm1
    | .undefined => .undefined

/-- `VirtualMachine::run`: the instruction pointer is set to the start of the
code of `compiler.currentChunk`, then the loop runs. -/
def run (fuel : Nat) (vm : VirtualMachine) : RunResult :=
  runLoop fuel { vm with IP := 0 }

/-- A newly constructed virtual machine. -/
def new : VirtualMachine :=
  { compiler := Compiler.new, IP := 0, vmStack := [], vmGlobals := [], stdout := [], stderr := [] }

/-- `VirtualMachine::interpret`, the source being given as its tokens. The
first fuel bounds the compiler, the second the dispatch loop. A fault of the
compiler model yields `none`. -/
def interpret (fuelC fuelR : Nat) (vm : VirtualMachine) (source : List Token) :
    Option RunResult :=
  match Compiler.compile fuelC vm.compiler source Chunk.empty with
  | .error _ => none
  | .ok (ok, c) =>
    let vm1 := { vm with compiler := c }
    if !ok then
      some (.done .COMPILE_ERROR
        { vm1 with compiler := { c with currentChunk := Chunk.empty } })
    else
      match run fuelR vm1 with
      | .done r vm2 =>
        some (.done r { vm2 with compiler := { vm2.compiler with currentChunk := Chunk.empty } })
      | r => some r

end VirtualMachine

/-! ## Observations and example programs -/

/-- What a call of `compile` shows: the returned boolean, the bytes of the
chunk and the messages of the diagnostics, in order. -/
def Compiler.outcome (r : Except Fault (Bool × Compiler)) :
    Option (Bool × List Nat × List String) :=
  match r with
  | .error _ => none
  | .ok (ok, c) => some (ok, c.currentChunk.data, c.stderr.map Diagnostic.message)

/-- What a call of `interpret` shows when it returns: the result, the values
printed, and the operand stack left behind. -/
def VirtualMachine.observe (r : Option RunResult) :
    Option (InterpretResult × List Value × List Value) :=
  match r with
  | some (.done result vm) => some (result, vm.stdout, vm.vmStack)
  | _ => none

/-- A token on line 1. -/
def tok (type : TokenType) (data : String) : Token :=
  { type := type, data := data, line := 1 }

open TokenType in
/-- The tokens of `a * b = c;`. -/
def srcAssignRightOperand : List Token :=
  [tok T_IDENTIFIER "a", tok T_ASTERISTIC "*", tok T_IDENTIFIER "b", tok T_EQUAL "=",
   tok T_IDENTIFIER "c", tok T_SEMICOLON ";"]

open TokenType in
/-- The tokens of `var a = 10; { var a = a + 1; print(a); } print(a);`. -/
def srcShadow : List Token :=
  [tok T_VAR "var", tok T_IDENTIFIER "a", tok T_EQUAL "=", tok T_NUMERIC "10",
   tok T_SEMICOLON ";",
   tok T_LEFT_BRACES "\x7b",
   tok T_VAR "var", tok T_IDENTIFIER "a", tok T_EQUAL "=", tok T_IDENTIFIER "a",
   tok T_PLUS "+", tok T_NUMERIC "1", tok T_SEMICOLON ";",
   tok T_PRINT "print", tok T_LEFT_PARENTHESIS "(", tok T_IDENTIFIER "a",
   tok T_RIGHT_PARENTHESIS ")", tok T_SEMICOLON ";",
   tok T_RIGHT_BRACES "\x7d",
   tok T_PRINT "print", tok T_LEFT_PARENTHESIS "(", tok T_IDENTIFIER "a",
   tok T_RIGHT_PARENTHESIS ")", tok T_SEMICOLON ";"]

/-- A machine about to execute `JUMP_IF_FALSE 0x01 0x00` at code position 0,
with `false` on top of the operand stack. -/
def vmJumpIfFalse : VirtualMachine :=
  { VirtualMachine.new with
    compiler :=
      { Compiler.new with
        currentChunk :=
          { data := [OPCode.OP_JUMP_IF_FALSE.toByte, 1, 0], constantPool := [],
            lines := [1, 1, 1] } }
    vmStack := [.bool false] }

/-- A machine whose instruction pointer is at the bytes `0x01 0x00`. -/
def vmShort : VirtualMachine :=
  { VirtualMachine.new with
    compiler :=
      { Compiler.new with
        currentChunk := { data := [1, 0], constantPool := [], lines := [1, 1] } } }

open TokenType in
/-- The tokens of `if (false) if (false) { true; ... true; }` with 122
statements `true;`: the code of the inner `if` statement is 253 bytes long, so
the outer `JUMP_IF_FALSE` gets the offset 257. -/
def srcLongThen : List Token :=
  [tok T_IF "if", tok T_LEFT_PARENTHESIS "(", tok T_FALSE "false",
   tok T_RIGHT_PARENTHESIS ")",
   tok T_IF "if", tok T_LEFT_PARENTHESIS "(", tok T_FALSE "false",
   tok T_RIGHT_PARENTHESIS ")", tok T_LEFT_BRACES "\x7b"]
  ++ (List.replicate 122 [tok T_TRUE "true", tok T_SEMICOLON ";"]).flatten
  ++ [tok T_RIGHT_BRACES "\x7d"]

open TokenType in
/-- The tokens of `var x = x;`. -/
def srcSelfInitGlobal : List Token :=
  [tok T_VAR "var", tok T_IDENTIFIER "x", tok T_EQUAL "=", tok T_IDENTIFIER "x",
   tok T_SEMICOLON ";"]

open TokenType in
/-- The tokens of `{ var x = x; }`. -/
def srcSelfInitLocal : List Token :=
  [tok T_LEFT_BRACES "\x7b"] ++ srcSelfInitGlobal ++ [tok T_RIGHT_BRACES "\x7d"]

open TokenType in
/-- The tokens of `{ var x = 1; var x = 2; }`. -/
def srcRedeclare : List Token :=
  [tok T_LEFT_BRACES "\x7b",
   tok T_VAR "var", tok T_IDENTIFIER "x", tok T_EQUAL "=", tok T_NUMERIC "1", tok T_SEMICOLON ";",
   tok T_VAR "var", tok T_IDENTIFIER "x", tok T_EQUAL "=", tok T_NUMERIC "2", tok T_SEMICOLON ";",
   tok T_RIGHT_BRACES "\x7d"]

open TokenType in
/-- The tokens of `{ var x = 1; { var x = 2; } }`. -/
def srcRedeclareInner : List Token :=
  [tok T_LEFT_BRACES "\x7b",
   tok T_VAR "var", tok T_IDENTIFIER "x", tok T_EQUAL "=", tok T_NUMERIC "1", tok T_SEMICOLON ";",
   tok T_LEFT_BRACES "\x7b",
   tok T_VAR "var", tok T_IDENTIFIER "x", tok T_EQUAL "=", tok T_NUMERIC "2", tok T_SEMICOLON ";",
   tok T_RIGHT_BRACES "\x7d", tok T_RIGHT_BRACES "\x7d"]

open TokenType in
/-- The tokens of `{ 1 = 2; var x = 1; var x = 2; }`. -/
def srcRedeclareAfterError : List Token :=
  [tok T_LEFT_BRACES "\x7b",
   tok T_NUMERIC "1", tok T_EQUAL "=", tok T_NUMERIC "2", tok T_SEMICOLON ";",
   tok T_VAR "var", tok T_IDENTIFIER "x", tok T_EQUAL "=", tok T_NUMERIC "1", tok T_SEMICOLON ";",
   tok T_VAR "var", tok T_IDENTIFIER "x", tok T_EQUAL "=", tok T_NUMERIC "2", tok T_SEMICOLON ";",
   tok T_RIGHT_BRACES "\x7d"]

/-- The shape of the locals stack between declarations: every local is
initialized at a depth between 1 and the scope depth, and the depths do not
decrease towards the top of the stack. -/
def LocalStack.settled (ls : LocalStack) : Prop :=
  (∀ l ∈ ls.locals, 1 ≤ l.depth ∧ l.depth ≤ (ls.scopeDepth : Int)) ∧
  ls.locals.Pairwise (fun a b => a.depth ≤ b.depth)

instance (ls : LocalStack) : Decidable ls.settled := by
  unfold LocalStack.settled
  infer_instance

/-- Whether a local of this name has been declared in the current scope. -/
def LocalStack.declaredInScope (ls : LocalStack) (name : Token) : Bool :=
  ls.locals.any (fun l => name.same l.name && decide (l.depth = (ls.scopeDepth : Int)))

/-- The message of `declareVariable`. -/
def msgAlreadyExists : String :=
  "A variable assigned to this name already exists in this scope"

namespace Compiler

/-- What the statement routines keep: the stack is settled and the scope
depth is the one of the given stack. -/
def Keeps (ls : LocalStack) (c' : Compiler) : Prop :=
  c'.localStack.settled ∧ c'.localStack.scopeDepth = ls.scopeDepth

/-- The calls of a routine behave: expression routines leave the locals stack
as it is, the other routines keep it settled, provided the scope depth and
the fuel `bound` together stay below `2 ^ 32`. -/
structure CallOK (call : Call) (bound : Nat) : Prop where
  expr : ∀ (r : Routine) (c c' : Compiler), r.isExpr = true → call r c = .ok c' →
    c'.localStack = c.localStack
  stmt : ∀ (r : Routine) (c c' : Compiler), r.isExpr = false →
    c.localStack.scopeDepth + bound < 4294967296 → c.localStack.settled →
    call r c = .ok c' → Keeps c.localStack c'

end Compiler

/-- A compiler inside one block, in which the local `x` is declared and
initialized, that has just consumed the name `x` of a second declaration; the
current token is `=`. -/
def cSecondDeclaration : Compiler :=
  { Compiler.new with
    parser :=
      { previous := tok .T_IDENTIFIER "x", current := tok .T_EQUAL "=",
        errorFound := false, panicMode := false }
    localStack := { locals := [{ name := tok .T_IDENTIFIER "x", depth := 1 }], scopeDepth := 1 } }

/-- The compiler `cSecondDeclaration` after an earlier error: panic mode is on. -/
def cSecondDeclarationPanic : Compiler :=
  { cSecondDeclaration with
    parser := { cSecondDeclaration.parser with errorFound := true, panicMode := true }
    stderr := [{ token := tok .T_NUMERIC "2", message := "Invalid assignment target." }] }

/-- A compiler that has emitted `JUMP_IF_FALSE 0xFF 0xFF` and then `POP` and
`TRUE` into an empty chunk. -/
def cJumpPending : Compiler :=
  Compiler.emitOp
    (Compiler.emitOp (Compiler.emitJump Compiler.new OPCode.OP_JUMP_IF_FALSE.toByte).1
      .OP_POP_BACK) .OP_TRUE

/-- A compiler that has emitted `TRUE` and `POP` into an empty chunk. -/
def cLoopBody : Compiler :=
  Compiler.emitOp (Compiler.emitOp Compiler.new .OP_TRUE) .OP_POP_BACK

open TokenType in
/-- The tokens of `1 + true;`. -/
def srcOnePlusTrue : List Token :=
  [tok T_NUMERIC "1", tok T_PLUS "+", tok T_TRUE "true", tok T_SEMICOLON ";"]

/-- A machine at the start of the two code bytes `op 0`, whose constant 0 is
the string `x`, with the given operand stack and globals. -/
def vmAt (op : OPCode) (stack : List Value) (globals : List (String × Value)) :
    VirtualMachine :=
  { VirtualMachine.new with
    compiler :=
      { Compiler.new with
        currentChunk :=
          { data := [op.toByte, 0], constantPool := [.str "x"], lines := [1, 1] } }
    vmStack := stack
    vmGlobals := globals }

open TokenType in
/-- The tokens of `for (var i = 0; i < 3; i = i + 1) print(i);`. -/
def srcFor : List Token :=
  [tok T_FOR "for", tok T_LEFT_PARENTHESIS "(", tok T_VAR "var", tok T_IDENTIFIER "i",
   tok T_EQUAL "=", tok T_NUMERIC "0", tok T_SEMICOLON ";",
   tok T_IDENTIFIER "i", tok T_LESS "<", tok T_NUMERIC "3", tok T_SEMICOLON ";",
   tok T_IDENTIFIER "i", tok T_EQUAL "=", tok T_IDENTIFIER "i", tok T_PLUS "+",
   tok T_NUMERIC "1", tok T_RIGHT_PARENTHESIS ")",
   tok T_PRINT "print", tok T_LEFT_PARENTHESIS "(", tok T_IDENTIFIER "i",
   tok T_RIGHT_PARENTHESIS ")", tok T_SEMICOLON ";"]

/-- A compiler at the end of an inner block: the local `a` belongs to the
enclosing block (depth 1), the locals `b` and `c` to the inner one (depth 2). -/
def cInnerBlock : Compiler :=
  { Compiler.new with
    parser :=
      { previous := tok .T_RIGHT_BRACES "\x7d", current := tok .T_RIGHT_BRACES "\x7d",
        errorFound := false, panicMode := false }
    localStack :=
      { locals := [{ name := tok .T_IDENTIFIER "a", depth := 1 },
                   { name := tok .T_IDENTIFIER "b", depth := 2 },
                   { name := tok .T_IDENTIFIER "c", depth := 2 }]
        scopeDepth := 2 } }

/-- The message of `resolveLocal`. -/
def msgOwnInitializer : String :=
  "Unable to read local variable in its own initializer."

/-- A compiler inside one block, after `var x = x` of a block: an
outer local `x` is initialized, the local `x` being declared is on the stack
with depth -1, the identifier `x` of the initializer has just been consumed
and the current token is `;`. -/
def cOwnInitializer : Compiler :=
  { Compiler.new with
    parser :=
      { previous := tok .T_IDENTIFIER "x", current := tok .T_SEMICOLON ";",
        errorFound := false, panicMode := false }
    localStack :=
      { locals := [{ name := tok .T_IDENTIFIER "x", depth := 1 },
                   { name := tok .T_IDENTIFIER "y", depth := 1 },
                   { name := tok .T_IDENTIFIER "x", depth := -1 }]
        scopeDepth := 1 } }

/-- The compiler `cOwnInitializer` after an earlier error: panic mode is on. -/
def cOwnInitializerPanic : Compiler :=
  { cOwnInitializer with
    parser := { cOwnInitializer.parser with errorFound := true, panicMode := true }
    stderr := [{ token := tok .T_NUMERIC "2", message := "Invalid assignment target." }] }

namespace Compiler

/-- A property of compiler states that depends neither on the chunk nor on the
locals, and that `handleErrorToken` and `advance` keep. -/
structure Stable (P : Compiler → Prop) : Prop where
  report : ∀ (c : Compiler) (t : Token) (m : String), P c → P (handleErrorToken c t m)
  frame : ∀ (c c' : Compiler), P c → c'.lexer = c.lexer → c'.parser = c.parser →
    c'.stderr = c.stderr → P c'
  step : ∀ (c : Compiler), P c → P (advance c)

/-- What a compiler has reported since its diagnostics were `base`: nothing,
and `errorFound` is clear; or exactly one diagnostic, and `errorFound` and
panic mode are set. -/
def Reports (base : List Diagnostic) (c : Compiler) : Prop :=
  (c.stderr = base ∧ c.parser.errorFound = false) ∨
  (∃ d, c.stderr = base ++ [d] ∧ c.parser.errorFound = true ∧ c.parser.panicMode = true)

end Compiler

deriving instance DecidableEq for Except

open TokenType in
/-- The tokens of `))`: no expression starts at the first `)`, and none at the
second one either. -/
def srcTwoParens : List Token :=
  [tok T_RIGHT_PARENTHESIS ")", tok T_RIGHT_PARENTHESIS ")"]

/-- The compiler after `compile` has returned false for `))`: `errorFound` and
panic mode are set and one diagnostic has been written. -/
def cAfterError : Compiler :=
  { lexer := []
    parser := { previous := eofToken, current := eofToken, errorFound := true, panicMode := true }
    currentChunk := { data := [16, 16, 1], constantPool := [], lines := [1, 1, 0] }
    localStack := { locals := [], scopeDepth := 0 }
    stderr := [{ token := tok .T_RIGHT_PARENTHESIS ")", message := "Expected expression" }] }

/-- The compiler `cAfterError` after a second call of `compile`, for
`1 + true;`, has returned true. -/
def cRecompiled : Compiler :=
  { lexer := []
    parser := { previous := eofToken, current := eofToken, errorFound := false, panicMode := false }
    currentChunk :=
      { data := [2, 0, 9, 4, 16, 1], constantPool := [.number 1], lines := [1, 1, 1, 1, 1, 0] }
    localStack := { locals := [], scopeDepth := 0 }
    stderr := [{ token := tok .T_RIGHT_PARENTHESIS ")", message := "Expected expression" }] }

namespace Compiler

end Compiler

namespace Compiler

/-- The input a compiler has still to consume: two for every token the lexer
has yet to deliver, and one for a current token that is not `T_EOF`. -/
def pending (c : Compiler) : Nat :=
  2 * c.lexer.length + (if c.parser.current.type = .T_EOF then 0 else 1)

/-- How many calls a routine can make, one inside the other, before a token is
consumed. -/
def Routine.rank : Routine → Nat
  | .parsePrecedence _ | .infixLoop _ _ | .namedVariable _ _ => 0
  | .expression | .unary _ | .binary _ | .andRule _ | .orRule _ | .variableFn _ => 1
  | .statementExpression | .statementPrint | .grouping | .variableDeclaration => 2
  | .statement | .invoke _ _ => 3
  | .declaration | .statementIf | .statementWhile | .statementFor => 4
  | .scopeBlock => 5

/-- The routines that consume a token whenever they are entered with a current
token other than `T_EOF`. -/
def Routine.consumes : Routine → Bool
  | .declaration | .statement | .statementExpression | .expression
  | .parsePrecedence _ => true
  | _ => false

end Compiler

open TokenType in
/-- The tokens of `a == b < c;`. -/
def srcEqualLess : List Token :=
  [tok T_IDENTIFIER "a", tok T_EQUAL_EQUAL "==", tok T_IDENTIFIER "b", tok T_LESS "<",
   tok T_IDENTIFIER "c", tok T_SEMICOLON ";"]

open TokenType in
/-- The tokens of `a != b < c;`. -/
def srcNotEqualLess : List Token :=
  [tok T_IDENTIFIER "a", tok T_EXCLAMATION_EQUAL "!=", tok T_IDENTIFIER "b", tok T_LESS "<",
   tok T_IDENTIFIER "c", tok T_SEMICOLON ";"]

/-- The opcodes the specification lists for each binary operator token. -/
def specBinaryCode : TokenType → List OPCode
  | .T_PLUS => [.OP_ADD]
  | .T_MINUS => [.OP_SUB]
  | .T_ASTERISTIC => [.OP_MULT]
  | .T_SLASH => [.OP_DIV]
  | .T_EQUAL_EQUAL => [.OP_EQUAL]
  | .T_EXCLAMATION_EQUAL => [.OP_EQUAL, .OP_NOT]
  | .T_GREATER => [.OP_GREATER]
  | .T_GREATER_EQUAL => [.OP_LESS, .OP_NOT]
  | .T_LESS => [.OP_LESS]
  | .T_LESS_EQUAL => [.OP_GREATER, .OP_NOT]
  | _ => []

/-- The opcodes the specification lists for each unary operator token. -/
def specUnaryCode : TokenType → List OPCode
  | .T_MINUS => [.OP_NEGATE]
  | .T_EXCLAMATION => [.OP_NOT]
  | _ => []

/-- A machine with the given operand stack. -/
def vmStacked (stack : List Value) : VirtualMachine :=
  { VirtualMachine.new with vmStack := stack }

/-! ## The disassembler -/

namespace Disassembler

/-- Whether a value fits the type `int`; arithmetic on `int` that leaves the
range is undefined. -/
def fitsInt (x : Int) : Bool := decide (-2147483648 ≤ x) && decide (x < 2147483648)

/-- The value of `(int)offset` for an `unsigned int offset`. -/
def toSigned (offset : Nat) : Int :=
  if offset % 4294967296 < 2147483648 then ((offset % 4294967296 : Nat) : Int)
  else ((offset % 4294967296 : Nat) : Int) - 4294967296

/-- The operand `chunk.data[index]` with an index of type `int`: a read outside the
vector is undefined. -/
def readData (chunk : Chunk) (index : Int) : Option Nat :=
  if 0 ≤ index then chunk.data[index.toNat]? else none

/-- The operand `chunk.lines[index]` with an index of type `int`. -/
def readLine (chunk : Chunk) (index : Int) : Option Nat :=
  if 0 ≤ index then chunk.lines[index.toNat]? else none

/-- The statement `return offset + k;` of a function that returns `unsigned int`,
for an `int offset`. -/
def returnOffset (offset : Int) (k : Nat) : Option Nat :=
  if fitsInt (offset + k) then some (Compiler.toUnsigned (offset + k)) else none

/-- `Disassembler::simpleInstruction`: the offset returned. What is printed
is left out, here and below. -/
def simpleInstruction (_code : Nat) (offset : Int) : Option Nat :=
  returnOffset offset 1

/-- `Disassembler::constantInstruction`: reads `chunk.data[++offset]` and the
constant it indexes, and returns `offset + 1` for the incremented offset. -/
def constantInstruction (_code : Nat) (chunk : Chunk) (offset : Int) : Option Nat :=
  if fitsInt (offset + 1) then
    match readData chunk (offset + 1) with
    | none => none
    | some constant =>
      match chunk.constantPool[constant]? with
      | none => none
      | some _ => returnOffset (offset + 1) 1
  else none

/-- `Disassembler::byteInstruction`: reads `chunk.data[offset + 1]`. -/
def byteInstruction (_code : Nat) (chunk : Chunk) (offset : Int) : Option Nat :=
  if fitsInt (offset + 1) then
    match readData chunk (offset + 1) with
    | none => none
    | some _ => returnOffset offset 2
  else none

/-- `Disassembler::jumpInstruction`: reads `chunk.data[offset + 1]` and
`chunk.data[offset + 2]`. -/
def jumpInstruction (_code : Nat) (_sign : Int) (chunk : Chunk) (offset : Int) :
    Option Nat :=
  if fitsInt (offset + 2) then
    match readData chunk (offset + 1), readData chunk (offset + 2) with
    | some _, some _ => returnOffset offset 3
    | _, _ => none
  else none

/-- `Disassembler::disassembleInstruction`: the offset returned, or `none`
where the behaviour is undefined. -/
def disassembleInstruction (chunk : Chunk) (offset : Int) : Option Nat :=
  match readData chunk offset with
  | none => none
  | some instruction =>
    match readLine chunk offset with
    | none => none
    | some _ =>
      match OPCode.ofByte instruction with
      | some .None => simpleInstruction instruction offset
      | some .OP_RETURN => simpleInstruction instruction offset
      | some .OP_CONSTANT => constantInstruction instruction chunk offset
      | some .OP_NEGATE => simpleInstruction instruction offset
      | some .OP_ADD => simpleInstruction instruction offset
      | some .OP_SUB => simpleInstruction instruction offset
      | some .OP_MULT => simpleInstruction instruction offset
      | some .OP_DIV => simpleInstruction instruction offset
      | some .OP_NONE => simpleInstruction instruction offset
      | some .OP_TRUE => simpleInstruction instruction offset
      | some .OP_FALSE => simpleInstruction instruction offset
      | some .OP_NOT => simpleInstruction instruction offset
      | some .OP_EQUAL => simpleInstruction instruction offset
      | some .OP_LESS => simpleInstruction instruction offset
      | some .OP_GREATER => simpleInstruction instruction offset
      | some .OP_PRINT => simpleInstruction instruction offset
      | some .OP_POP_BACK => simpleInstruction instruction offset
      | some .OP_DEFINE_GLOBAL_VAR => constantInstruction instruction chunk offset
      | some .OP_GET_GLOBAL_VAR => constantInstruction instruction chunk offset
      | some .OP_SET_GLOBAL_VAR => constantInstruction instruction chunk offset
      | some .OP_SET_LOCAL_VAR => byteInstruction instruction chunk offset
      | some .OP_GET_LOCAL_VAR => byteInstruction instruction chunk offset
      | some .OP_JUMP => jumpInstruction instruction 1 chunk offset
      | some .OP_JUMP_IF_FALSE => jumpInstruction instruction 1 chunk offset
      | some .OP_LOOP => jumpInstruction instruction (-1) chunk offset
      | none => returnOffset offset 1

/-- How a call of `disassemble` ends. -/
inductive Trace where
  /-- The loop ended; the offsets it visited, in order. -/
  | done (visited : List Nat)
  /-- The source does not define the behaviour. -/
  | undefined
  /-- The fuel of the model ran out. -/
  | outOfFuel
  deriving DecidableEq

/-- The loop of `Disassembler::disassemble`, with a bound on the number of
turns; `visited` holds the offsets of the turns made so far. -/
def disassembleLoop : Nat → Chunk → Nat → List Nat → Trace
  | 0, _, _, _ => .outOfFuel
  | fuel + 1, array, offset, visited =>
    if offset < array.data.length then
      match disassembleInstruction array (toSigned offset) with
      | none => .undefined
      | some next => disassembleLoop fuel array next (visited ++ [offset])
    else .done visited

/-- `Disassembler::disassemble`. -/
def disassemble (fuel : Nat) (array : Chunk) : Trace :=
  disassembleLoop fuel array 0 []

end Disassembler

/-- The length of the instruction that starts with a byte, as the
specification tabulates it: one-byte operand for `CONSTANT`, the global and the
local instructions, two-byte operand for the jumps, none otherwise. -/
def instructionLength (byte : Nat) : Nat :=
  match OPCode.ofByte byte with
  | some .OP_CONSTANT | some .OP_DEFINE_GLOBAL_VAR | some .OP_GET_GLOBAL_VAR
  | some .OP_SET_GLOBAL_VAR | some .OP_SET_LOCAL_VAR | some .OP_GET_LOCAL_VAR => 2
  | some .OP_JUMP | some .OP_JUMP_IF_FALSE | some .OP_LOOP => 3
  | _ => 1

/-- Whether the instruction that starts with a byte has a constant for its
operand. -/
def hasConstantOperand (byte : Nat) : Bool :=
  match OPCode.ofByte byte with
  | some .OP_CONSTANT | some .OP_DEFINE_GLOBAL_VAR | some .OP_GET_GLOBAL_VAR
  | some .OP_SET_GLOBAL_VAR => true
  | _ => false

/-- Whether a byte is the opcode of a jump instruction. -/
def isJump (byte : Nat) : Bool :=
  match OPCode.ofByte byte with
  | some .OP_JUMP | some .OP_JUMP_IF_FALSE | some .OP_LOOP => true
  | _ => false

/-- A chunk whose code is `CONSTANT 0` and whose constant pool is empty. -/
def chunkNoConstant : Chunk :=
  { data := [OPCode.OP_CONSTANT.toByte, 0], constantPool := [], lines := [1, 1] }

/-- A chunk whose code is the single byte `JUMP`, without its operand. -/
def chunkCutOff : Chunk :=
  { data := [OPCode.OP_JUMP.toByte], constantPool := [], lines := [1] }

/-- The chunk that `1 + true;` compiles to: `CONSTANT 0, TRUE, ADD, POP,
RETURN`. -/
def chunkOnePlusTrue : Chunk :=
  { data := [2, 0, 9, 4, 16, 1], constantPool := [.number 1], lines := [1, 1, 1, 1, 1, 0] }

/-- The state in which a turn of the loop of `run` ends, where the source
defines one. -/
def Step.endState : Step → Option VirtualMachine
  | .next vm => some vm
  | .halt _ vm => some vm
  | .thrown vm => some vm
  | .undefined => none

/-- A newly constructed machine whose compiler holds the given chunk. -/
def vmOn (chunk : Chunk) : VirtualMachine :=
  { VirtualMachine.new with compiler := { Compiler.new with currentChunk := chunk } }

/-! ## Theorems -/

/-- C1 (the code departs from the claim): `a * b = c;` compiles without any
diagnostic and `compile` returns true. The identifier `b`, parsed as the right
operand of `*` at precedence above `ASSIGNMENT`, still takes the `=`: the code
is `GET_GLOBAL a, GET_GLOBAL c, SET_GLOBAL b, MULT, POP, RETURN`. -/
theorem compile_assign_right_operand :
    Compiler.outcome (Compiler.compile 100 Compiler.new srcAssignRightOperand Chunk.empty)
      = some (true,
          [OPCode.OP_GET_GLOBAL_VAR.toByte, 0, OPCode.OP_GET_GLOBAL_VAR.toByte, 2,
           OPCode.OP_SET_GLOBAL_VAR.toByte, 1, OPCode.OP_MULT.toByte,
           OPCode.OP_POP_BACK.toByte, OPCode.OP_RETURN.toByte],
          []) := by
  decide!

/-- C2 (counterexample): compiling
`var a = 10; { var a = a + 1; print(a); } print(a);` does not succeed:
`compile` returns false. -/
theorem shadow_compile_fails :
    (Compiler.outcome (Compiler.compile 100 Compiler.new srcShadow Chunk.empty)).map Prod.fst
      = some false := by
  decide!

/-- C2 (amended): for `var a = 10; { var a = a + 1; print(a); } print(a);`
the compiler reports exactly one diagnostic, "Unable to read local variable in
its own initializer.", and `interpret` returns `COMPILE_ERROR` having printed
nothing. -/
theorem shadow_is_compile_error :
    (Compiler.outcome (Compiler.compile 100 Compiler.new srcShadow Chunk.empty)).map
        (fun r => r.2.2)
      = some ["Unable to read local variable in its own initializer."]
    ∧ VirtualMachine.observe (VirtualMachine.interpret 100 100 VirtualMachine.new srcShadow)
      = some (.COMPILE_ERROR, [], []) := by
  decide!

/-- C3 (the code departs from the claim): executing `JUMP_IF_FALSE` with the
operand bytes `0x01 0x00` (offset 256) at position 0, with `false` on top of
the stack, leaves the stack and the globals as they are but sets the
instruction pointer to 3, not to 0 + 3 + 256. -/
theorem jump_if_false_drops_high_byte :
    VirtualMachine.step vmJumpIfFalse = .next { vmJumpIfFalse with IP := 3 } := by
  decide!

/-- C4 (the code departs from the claim): on the bytes `0x01 0x00`, `readShort`
returns 0, not 256; the instruction pointer advances by 2. -/
theorem readShort_drops_high_byte :
    VirtualMachine.readShort vmShort = some (0, { vmShort with IP := 2 }) := by
  decide!

/-- C5 (the code departs from the claim):
`if (false) if (false) { true; ... true; }` compiles without error and `run`
returns `OK`, yet the operand stack then still holds the condition `false` of
the outer `if`: its `JUMP_IF_FALSE` has the offset 257, of which the machine
uses 1, so the `POP` at the jump target is never executed. -/
theorem long_then_leaves_condition :
    (Compiler.outcome (Compiler.compile 1000 Compiler.new srcLongThen Chunk.empty)).map
        (fun r => (r.1, r.2.1.take 5, r.2.1.length, r.2.2))
      = some (true,
          [OPCode.OP_FALSE.toByte, OPCode.OP_JUMP_IF_FALSE.toByte, 1, 1,
           OPCode.OP_POP_BACK.toByte],
          263, [])
    ∧ VirtualMachine.observe (VirtualMachine.interpret 1000 1000 VirtualMachine.new srcLongThen)
      = some (.OK, [], [.bool false]) := by
  decide!

/-- C8 (counterexample): `var x = x;` compiles: `compile` returns true and
reports nothing. -/
theorem self_init_global_compiles :
    Compiler.outcome (Compiler.compile 100 Compiler.new srcSelfInitGlobal Chunk.empty)
      = some (true,
          [OPCode.OP_GET_GLOBAL_VAR.toByte, 1, OPCode.OP_DEFINE_GLOBAL_VAR.toByte, 0,
           OPCode.OP_RETURN.toByte],
          []) := by
  decide!

/-- C8 (amended): at top level `var x = x;` is no compile error; `interpret`
returns `RUNTIME_ERROR` (the global `x` is read before it is defined). Inside
a block, `{ var x = x; }`, the compiler reports "Unable to read local variable
in its own initializer." and `interpret` returns `COMPILE_ERROR`. -/
theorem self_init_local_is_compile_error :
    VirtualMachine.observe
        (VirtualMachine.interpret 100 100 VirtualMachine.new srcSelfInitGlobal)
      = some (.RUNTIME_ERROR, [], [])
    ∧ (Compiler.outcome
          (Compiler.compile 100 Compiler.new srcSelfInitLocal Chunk.empty)).map
        (fun r => (r.1, r.2.2))
      = some (false, ["Unable to read local variable in its own initializer."])
    ∧ VirtualMachine.observe
        (VirtualMachine.interpret 100 100 VirtualMachine.new srcSelfInitLocal)
      = some (.COMPILE_ERROR, [], []) := by
  decide!


/-! ### Emission lemmas -/

namespace Compiler

theorem handleError_chunk (c : Compiler) (m : String) :
    (handleErrorAtCurrentToken c m).currentChunk = c.currentChunk := by
  unfold handleErrorAtCurrentToken handleErrorToken
  split <;> rfl

theorem handleError_idem (c : Compiler) (m : String) :
    handleErrorAtCurrentToken (handleErrorAtCurrentToken c m) m
      = handleErrorAtCurrentToken c m := by
  unfold handleErrorAtCurrentToken handleErrorToken
  by_cases h : c.parser.panicMode = true <;> simp [h]

theorem emitByte_data (c : Compiler) (b : Nat) :
    (emitByte c b).currentChunk.data = c.currentChunk.data ++ [b % 256] := rfl

theorem emitJump_site (c : Compiler) (instruction : Nat) :
    (emitJump c instruction).2 = (c.currentChunk.data.length : Int) + 1 := by
  simp only [emitJump, emitByte_data, List.length_append, List.length_singleton]
  push_cast
  omega

theorem emitJump_length (c : Compiler) (instruction : Nat) :
    (emitJump c instruction).1.currentChunk.data.length
      = c.currentChunk.data.length + 3 := by
  simp only [emitJump, emitByte_data, List.length_append, List.length_singleton]

theorem patchJump_data (c : Compiler) (offset : Int) :
    (patchJump c offset).currentChunk.data
      = (c.currentChunk.data.set offset.toNat
            ((((c.currentChunk.data.length : Int) - offset - 2) / 256 % 256).toNat)).set
          (offset + 1).toNat
          ((((c.currentChunk.data.length : Int) - offset - 2) % 256).toNat) := by
  unfold patchJump
  simp only
  split <;> simp [handleError_chunk]

theorem emitLoop_data (c : Compiler) (loopStart : Int) :
    (emitLoop c loopStart).currentChunk.data
      = c.currentChunk.data ++
          [OPCode.OP_LOOP.toByte % 256,
           ((((c.currentChunk.data.length : Int) + 1 - loopStart + 2) / 256 % 256).toNat) % 256,
           ((((c.currentChunk.data.length : Int) + 1 - loopStart + 2) % 256).toNat) % 256] := by
  unfold emitLoop
  simp only [emitOp]
  split <;>
    simp [emitByte_data, handleError_chunk, List.append_assoc]

end Compiler

/-- C6: if `s` is the patch site returned by `emitJump` on `c` and
`patchJump s` is called later in a state `c2` whose code (of length `t`) still
holds the jump instruction, with `t - s - 2 ≤ 0xFFFF`, then the bytes at `s`
and `s + 1` become `hi` and `lo` with `t = s + 2 + (256 * hi + lo)`, the
length of the code is unchanged, and so is every other byte. -/
theorem patchJump_offset (c c2 : Compiler) (instruction : Nat) (s : Int)
    (hs : s = (Compiler.emitJump c instruction).2)
    (hlen : (Compiler.emitJump c instruction).1.currentChunk.data.length
              ≤ c2.currentChunk.data.length)
    (hfit : (c2.currentChunk.data.length : Int) - s - 2 ≤ 0xFFFF) :
    ∃ hi lo : Nat,
      (Compiler.patchJump c2 s).currentChunk.data[s.toNat]? = some hi ∧
      (Compiler.patchJump c2 s).currentChunk.data[s.toNat + 1]? = some lo ∧
      hi < 256 ∧ lo < 256 ∧
      (c2.currentChunk.data.length : Int) = s + 2 + ((256 * hi + lo : Nat) : Int) ∧
      (Compiler.patchJump c2 s).currentChunk.data.length = c2.currentChunk.data.length ∧
      ∀ i : Nat, i ≠ s.toNat → i ≠ s.toNat + 1 →
        (Compiler.patchJump c2 s).currentChunk.data[i]? = c2.currentChunk.data[i]? := by
  rw [Compiler.emitJump_site] at hs
  rw [Compiler.emitJump_length] at hlen
  have h1 : s.toNat = c.currentChunk.data.length + 1 := by omega
  have h2 : (s + 1).toNat = c.currentChunk.data.length + 2 := by omega
  refine ⟨((((c2.currentChunk.data.length : Int) - s - 2) / 256 % 256).toNat),
    ((((c2.currentChunk.data.length : Int) - s - 2) % 256).toNat), ?_, ?_, ?_, ?_, ?_, ?_, ?_⟩
  · rw [Compiler.patchJump_data, h1, h2, List.getElem?_set_ne (by omega),
      List.getElem?_set_self (by omega)]
  · rw [Compiler.patchJump_data, h1, h2, List.getElem?_set_self (by simp; omega)]
  · omega
  · omega
  · omega
  · rw [Compiler.patchJump_data]; simp
  · intro i hi1 hi2
    rw [Compiler.patchJump_data, h1, h2, List.getElem?_set_ne (by omega),
      List.getElem?_set_ne (by omega)]

/-- C6 at a concrete input: the jump emitted into an empty chunk has patch
site 1; patched when the code is 5 bytes long, its operand becomes `0, 2`. -/
theorem patchJump_offset_witness :
    (1 : Int) = (Compiler.emitJump Compiler.new OPCode.OP_JUMP_IF_FALSE.toByte).2 ∧
    (Compiler.emitJump Compiler.new OPCode.OP_JUMP_IF_FALSE.toByte).1.currentChunk.data.length
      ≤ cJumpPending.currentChunk.data.length ∧
    (cJumpPending.currentChunk.data.length : Int) - 1 - 2 ≤ 0xFFFF ∧
    ∃ hi lo : Nat,
      (Compiler.patchJump cJumpPending 1).currentChunk.data[(1 : Int).toNat]? = some hi ∧
      (Compiler.patchJump cJumpPending 1).currentChunk.data[(1 : Int).toNat + 1]? = some lo ∧
      hi < 256 ∧ lo < 256 ∧
      (cJumpPending.currentChunk.data.length : Int) = 1 + 2 + ((256 * hi + lo : Nat) : Int) ∧
      (Compiler.patchJump cJumpPending 1).currentChunk.data.length
        = cJumpPending.currentChunk.data.length ∧
      ∀ i : Nat, i ≠ (1 : Int).toNat → i ≠ (1 : Int).toNat + 1 →
        (Compiler.patchJump cJumpPending 1).currentChunk.data[i]?
          = cJumpPending.currentChunk.data[i]? :=
  ⟨by decide, by decide, by decide,
    patchJump_offset Compiler.new cJumpPending OPCode.OP_JUMP_IF_FALSE.toByte 1
      (by decide) (by decide) (by decide)⟩

/-- C7: for `loopStart` not greater than the code length, `emitLoop` appends
exactly the three bytes `LOOP, hi, lo` at `loop_site` (the former code length);
if the distance `loop_site + 3 - loopStart` fits in 16 bits, the offset
`256 * hi + lo` is positive and `loopStart = loop_site + 3 - offset`. -/
theorem emitLoop_offset (c : Compiler) (loopStart : Int)
    (h : loopStart ≤ (c.currentChunk.data.length : Int)) :
    ∃ hi lo : Nat,
      (Compiler.emitLoop c loopStart).currentChunk.data
        = c.currentChunk.data ++ [OPCode.OP_LOOP.toByte, hi, lo] ∧
      hi < 256 ∧ lo < 256 ∧
      ((c.currentChunk.data.length : Int) + 3 - loopStart ≤ 0xFFFF →
        loopStart = (c.currentChunk.data.length : Int) + 3 - ((256 * hi + lo : Nat) : Int) ∧
        0 < 256 * hi + lo) := by
  refine ⟨((((c.currentChunk.data.length : Int) + 1 - loopStart + 2) / 256 % 256).toNat) % 256,
    ((((c.currentChunk.data.length : Int) + 1 - loopStart + 2) % 256).toNat) % 256, ?_, ?_, ?_, ?_⟩
  · rw [Compiler.emitLoop_data]; rfl
  · omega
  · omega
  · intro hfit
    omega

/-- C7 at a concrete input: a loop back to position 0 emitted after two bytes
of code. -/
theorem emitLoop_offset_witness :
    (0 : Int) ≤ (cLoopBody.currentChunk.data.length : Int) ∧
    ∃ hi lo : Nat,
      (Compiler.emitLoop cLoopBody 0).currentChunk.data
        = cLoopBody.currentChunk.data ++ [OPCode.OP_LOOP.toByte, hi, lo] ∧
      hi < 256 ∧ lo < 256 ∧
      ((cLoopBody.currentChunk.data.length : Int) + 3 - 0 ≤ 0xFFFF →
        (0 : Int) = (cLoopBody.currentChunk.data.length : Int) + 3 - ((256 * hi + lo : Nat) : Int) ∧
        0 < 256 * hi + lo) :=
  ⟨by decide, emitLoop_offset cLoopBody 0 (by decide)⟩

/-! ### Declaring and resolving locals -/

namespace Compiler

theorem declareLoop_eq (name : Token) (sd : Nat) (L : List LocalVar)
    (hr : ∀ l ∈ L, 1 ≤ l.depth ∧ l.depth ≤ (sd : Int))
    (hs : L.Pairwise (fun a b => b.depth ≤ a.depth)) (c : Compiler) :
    declareLoop name sd L c
      = if L.any (fun l => name.same l.name && decide (l.depth = (sd : Int))) then
          handleErrorAtCurrentToken c msgAlreadyExists
        else c := by
  induction L generalizing c with
  | nil => simp [declareLoop]
  | cons v rest ih =>
    have hv := hr v (List.mem_cons_self _ _)
    have hrest : ∀ l ∈ rest, 1 ≤ l.depth ∧ l.depth ≤ (sd : Int) :=
      fun l hl => hr l (List.mem_cons_of_mem _ hl)
    rw [List.pairwise_cons] at hs
    unfold declareLoop
    by_cases hlt : v.depth < (sd : Int)
    · have hne : v.depth ≠ -1 := by omega
      have hnone : (v :: rest).any
          (fun l => name.same l.name && decide (l.depth = (sd : Int))) = false := by
        rw [List.any_eq_false]
        intro l hl
        have : l.depth ≤ v.depth := by
          rcases List.mem_cons.1 hl with rfl | hl
          · exact le_refl _
          · exact hs.1 l hl
        have : l.depth ≠ (sd : Int) := by omega
        simp [this]
      simp [hlt, hne, hnone]
    · have heq : v.depth = (sd : Int) := by omega
      have hcond : ¬ (v.depth ≠ -1 ∧ v.depth < (sd : Int)) := fun h => hlt h.2
      rw [if_neg hcond]
      by_cases hsame : name.same v.name = true
      · rw [if_pos hsame, ih hrest hs.2]
        simp only [List.any_cons, hsame, heq, decide_True, Bool.and_self, Bool.true_or, if_true]
        split
        · exact handleError_idem c _
        · rfl
      · rw [if_neg hsame, ih hrest hs.2]
        simp [List.any_cons, hsame]

theorem declareVariable_eq (c : Compiler) (hwf : c.localStack.settled)
    (hd : 0 < c.localStack.scopeDepth) :
    declareVariable c
      = addLocal
          (if c.localStack.declaredInScope c.parser.previous then
             handleErrorAtCurrentToken c msgAlreadyExists
           else c)
          c.parser.previous := by
  unfold declareVariable
  rw [if_neg (by omega)]
  simp only
  rw [declareLoop_eq _ _ _ (fun l hl => hwf.1 l (List.mem_reverse.1 hl))
    (List.pairwise_reverse.2 hwf.2)]
  simp [LocalStack.declaredInScope]

theorem matchToken_snd_of_false (c : Compiler) (t : TokenType)
    (h : (matchToken c t).1 = false) : (matchToken c t).2 = c := by
  unfold matchToken at h ⊢
  split
  · rfl
  · rename_i hc
    rw [if_neg hc] at h
    cases h

theorem resolveLoop_spec (name : Token) (L : List LocalVar) (c : Compiler) (i : Int)
    (h : (resolveLoop name L c).2 = i) (hi : i ≠ -1) :
    0 ≤ i ∧ i < (L.length : Int) ∧
    (∃ l, L.reverse[i.toNat]? = some l ∧ name.same l.name = true) ∧
    ∀ (j : Nat) (l : LocalVar), i.toNat < j → L.reverse[j]? = some l →
      name.same l.name = false := by
  induction L generalizing c with
  | nil => simp [resolveLoop] at h; omega
  | cons v rest ih =>
    unfold resolveLoop at h
    by_cases hsame : name.same v.name = true
    · rw [if_pos hsame] at h
      simp only at h
      subst h
      refine ⟨by omega, by simp, ⟨v, ?_, hsame⟩, ?_⟩
      · simp [List.getElem?_append_right]
      · intro j l hj hl
        have : (v :: rest).reverse.length ≤ j := by simp at hj ⊢; omega
        rw [List.getElem?_eq_none this] at hl
        cases hl
    · rw [if_neg hsame] at h
      obtain ⟨h0, h1, ⟨l, hl, hls⟩, h3⟩ := ih c h
      have hlt : i.toNat < rest.reverse.length := by simp; omega
      refine ⟨h0, by simp; omega, ⟨l, ?_, hls⟩, ?_⟩
      · rw [List.reverse_cons, List.getElem?_append_left hlt]; exact hl
      · intro j l' hj hl'
        rw [List.reverse_cons] at hl'
        by_cases hjl : j < rest.reverse.length
        · rw [List.getElem?_append_left hjl] at hl'
          exact h3 j l' hj hl'
        · rw [List.getElem?_append_right (by omega)] at hl'
          have hj0 : j - rest.reverse.length = 0 ∨ 0 < j - rest.reverse.length := by omega
          rcases hj0 with hj0 | hj0
          · rw [hj0] at hl'
            simp at hl'
            subst hl'
            simpa using hsame
          · rw [List.getElem?_eq_none (by simp only [List.length_singleton]; omega)] at hl'
            cases hl'

end Compiler

/-- C9 (counterexample): in panic mode a redeclaration in the same scope is
not reported. In the state `cSecondDeclarationPanic` the local `x` is declared
in the current scope, yet `declareVariable` writes no diagnostic; and compiling
`{ 1 = 2; var x = 1; var x = 2; }` reports "Invalid assignment target." only. -/
theorem redeclare_unreported_in_panic :
    cSecondDeclarationPanic.localStack.settled
    ∧ 0 < cSecondDeclarationPanic.localStack.scopeDepth
    ∧ cSecondDeclarationPanic.localStack.declaredInScope
        cSecondDeclarationPanic.parser.previous = true
    ∧ (Compiler.declareVariable cSecondDeclarationPanic).stderr = cSecondDeclarationPanic.stderr
    ∧ (Compiler.outcome
          (Compiler.compile 100 Compiler.new srcRedeclareAfterError Chunk.empty)).map
        (fun r => (r.1, r.2.2))
      = some (false, ["Invalid assignment target."]) := by
  decide!

/-- C9 (amended): in every state with a settled locals stack (the states in
which declarations are compiled, see `Compiler.compile_settled`) and a scope
depth above 0, `declareVariable` writes the diagnostic "A variable assigned to this
name already exists in this scope" (at the current token) and sets
`errorFound` exactly when the compiler is not in panic mode and a local of
that name is declared in the current scope; otherwise it writes nothing and
leaves `errorFound` as it is. A local of the same name in an enclosing scope
does not count. `{ var x = 1; var x = 2; }` fails to compile with that
diagnostic and `{ var x = 1; { var x = 2; } }` compiles. -/
theorem declareVariable_reports (c : Compiler) (hwf : c.localStack.settled)
    (hd : 0 < c.localStack.scopeDepth) :
    (Compiler.declareVariable c).stderr
      = (if c.parser.panicMode = false
            ∧ c.localStack.declaredInScope c.parser.previous = true then
          c.stderr ++ [{ token := c.parser.current, message := msgAlreadyExists }]
         else c.stderr)
    ∧ (Compiler.declareVariable c).parser.errorFound
      = (c.parser.errorFound
          || (!c.parser.panicMode && c.localStack.declaredInScope c.parser.previous))
    ∧ (Compiler.outcome (Compiler.compile 100 Compiler.new srcRedeclare Chunk.empty)).map
        (fun r => (r.1, r.2.2))
      = some (false, [msgAlreadyExists])
    ∧ (Compiler.outcome
          (Compiler.compile 100 Compiler.new srcRedeclareInner Chunk.empty)).map
        (fun r => (r.1, r.2.2))
      = some (true, []) := by
  refine ⟨?_, ?_, by decide!, by decide!⟩
  · rw [Compiler.declareVariable_eq c hwf hd]
    unfold Compiler.addLocal Compiler.handleErrorAtCurrentToken Compiler.handleErrorToken
    cases hdecl : c.localStack.declaredInScope c.parser.previous <;>
      cases hp : c.parser.panicMode <;> simp
  · rw [Compiler.declareVariable_eq c hwf hd]
    unfold Compiler.addLocal Compiler.handleErrorAtCurrentToken Compiler.handleErrorToken
    cases hdecl : c.localStack.declaredInScope c.parser.previous <;>
      cases hp : c.parser.panicMode <;> simp

/-- C9 (amended) at a concrete input: the second declaration of `x` in one
block, outside panic mode. -/
theorem declareVariable_reports_witness :
    cSecondDeclaration.localStack.settled
    ∧ 0 < cSecondDeclaration.localStack.scopeDepth
    ∧ (Compiler.declareVariable cSecondDeclaration).stderr
      = (if cSecondDeclaration.parser.panicMode = false
            ∧ cSecondDeclaration.localStack.declaredInScope
                cSecondDeclaration.parser.previous = true then
          cSecondDeclaration.stderr
            ++ [{ token := cSecondDeclaration.parser.current, message := msgAlreadyExists }]
         else cSecondDeclaration.stderr) :=
  ⟨by decide, by decide,
    (declareVariable_reports cSecondDeclaration (by decide) (by decide)).1⟩

namespace Compiler


/-! ### The locals stack is a frame of the expression routines -/

theorem bind_eq_ok {α β : Type} (x : Except Fault α) (f : α → Except Fault β) (b : β) :
    (x >>= f) = .ok b ↔ ∃ a, x = .ok a ∧ f a = .ok b := by
  cases x with
  | error e => simp [bind, Except.bind]
  | ok a => simp [bind, Except.bind]

@[simp] theorem handleErrorToken_localStack (c : Compiler) (t : Token) (m : String) :
    (handleErrorToken c t m).localStack = c.localStack := by
  unfold handleErrorToken; split <;> rfl

@[simp] theorem handleError_localStack (c : Compiler) (m : String) :
    (handleErrorAtCurrentToken c m).localStack = c.localStack := by
  unfold handleErrorAtCurrentToken; simp

@[simp] theorem advanceLoop_localStack (c : Compiler) (ts : List Token) :
    (advanceLoop c ts).localStack = c.localStack := by
  induction ts generalizing c with
  | nil => rfl
  | cons t ts ih =>
    unfold advanceLoop
    simp only
    split
    · rfl
    · rw [ih]; simp

@[simp] theorem advance_localStack (c : Compiler) : (advance c).localStack = c.localStack := by
  unfold advance; simp

@[simp] theorem matchToken_localStack (c : Compiler) (t : TokenType) :
    (matchToken c t).2.localStack = c.localStack := by
  unfold matchToken; split <;> simp

@[simp] theorem eat_localStack (c : Compiler) (t : TokenType) (m : String) :
    (eat c t m).localStack = c.localStack := by
  unfold eat; split <;> simp

@[simp] theorem emitByte_localStack (c : Compiler) (b : Nat) :
    (emitByte c b).localStack = c.localStack := rfl

@[simp] theorem emitOp_localStack (c : Compiler) (op : OPCode) :
    (emitOp c op).localStack = c.localStack := rfl

@[simp] theorem emitJump_localStack (c : Compiler) (i : Nat) :
    (emitJump c i).1.localStack = c.localStack := rfl

@[simp] theorem emitLoop_localStack (c : Compiler) (l : Int) :
    (emitLoop c l).localStack = c.localStack := by
  unfold emitLoop; simp only; split <;> simp

@[simp] theorem patchJump_localStack (c : Compiler) (o : Int) :
    (patchJump c o).localStack = c.localStack := by
  unfold patchJump; simp only; split <;> simp

theorem emitConstant_localStack (c c' : Compiler) (v : Value)
    (h : emitConstant c v = .ok c') : c'.localStack = c.localStack := by
  unfold emitConstant at h
  simp only at h
  split at h
  · cases h
  · cases h; rfl

theorem identifierConstant_localStack (c : Compiler) (name : Token) (r : Compiler × Nat)
    (h : identifierConstant c name = .ok r) : r.1.localStack = c.localStack := by
  unfold identifierConstant at h
  split at h
  · cases h
  · cases h; rfl

@[simp] theorem resolveLoop_localStack (name : Token) (L : List LocalVar) (c : Compiler) :
    (resolveLoop name L c).1.localStack = c.localStack := by
  induction L generalizing c with
  | nil => rfl
  | cons v rest ih =>
    unfold resolveLoop
    split
    · simp only; split <;> simp
    · exact ih c

@[simp] theorem resolveLocal_localStack (c : Compiler) (name : Token) :
    (resolveLocal c name).1.localStack = c.localStack := by
  unfold resolveLocal; simp

@[simp] theorem literalType_localStack (c : Compiler) (b : Bool) :
    (literalType c b).localStack = c.localStack := by
  unfold literalType; split <;> rfl

@[simp] theorem unaryEmit_localStack (c : Compiler) (t : TokenType) :
    (unaryEmit c t).localStack = c.localStack := by
  unfold unaryEmit; split <;> rfl

@[simp] theorem binaryEmit_localStack (c : Compiler) (t : TokenType) :
    (binaryEmit c t).localStack = c.localStack := by
  unfold binaryEmit; split <;> rfl


@[simp] theorem condMatch_localStack (b : Bool) (c : Compiler) (t : TokenType) :
    (if b = true then matchToken c t else (false, c)).2.localStack = c.localStack := by
  cases b <;> simp

theorem pure_eq_ok {α : Type} (a b : α) : (pure a : Except Fault α) = .ok b ↔ a = b := by
  show Except.ok a = Except.ok b ↔ a = b
  simp

theorem exec_expr_frame (n : Nat) :
    ∀ (r : Routine) (c c' : Compiler), r.isExpr = true → exec n r c = .ok c' →
      c'.localStack = c.localStack := by
  induction n with
  | zero => intro r c c' _ h; cases h
  | succ n ih =>
    intro r c c' hr h
    cases r <;> simp only [Routine.isExpr] at hr <;> try (cases hr)
    · -- expression
      exact ih _ _ _ (by rfl) h
    · -- grouping
      simp only [exec, dispatch, grouping, bind_eq_ok, pure_eq_ok] at h
      obtain ⟨c1, h1, rfl⟩ := h
      simp [ih _ _ _ (by rfl) h1]
    · -- unary
      simp only [exec, dispatch, unary, bind_eq_ok, pure_eq_ok] at h
      obtain ⟨c1, h1, rfl⟩ := h
      simp [ih _ _ _ (by rfl) h1]
    · -- binary
      simp only [exec, dispatch, binary, bind_eq_ok, pure_eq_ok] at h
      obtain ⟨c1, h1, rfl⟩ := h
      simp [ih _ _ _ (by rfl) h1]
    · -- andRule
      simp only [exec, dispatch, andRule, bind_eq_ok, pure_eq_ok] at h
      obtain ⟨c1, h1, rfl⟩ := h
      simp [ih _ _ _ (by rfl) h1]
    · -- orRule
      simp only [exec, dispatch, orRule, bind_eq_ok, pure_eq_ok] at h
      obtain ⟨c1, h1, rfl⟩ := h
      simp [ih _ _ _ (by rfl) h1]
    · -- variableFn
      exact ih _ _ _ (by rfl) h
    · -- namedVariable
      rename_i name canAssign
      simp only [exec, dispatch, namedVariable, bind_eq_ok] at h
      obtain ⟨y, hy, h⟩ := h
      have hyl : y.1.localStack = c.localStack := by
        split at hy
        · rw [pure_eq_ok] at hy; subst hy; simp
        · simp only [bind_eq_ok, pure_eq_ok] at hy
          obtain ⟨d, hd, rfl⟩ := hy
          simp [identifierConstant_localStack _ _ _ hd]
      generalize hm : (if canAssign = true then matchToken y.1 TokenType.T_EQUAL
        else (false, y.1)) = m at h
      have hml : m.2.localStack = c.localStack := by
        rw [← hm, condMatch_localStack, hyl]
      split at h
      · simp only [bind_eq_ok, pure_eq_ok] at h
        obtain ⟨c3, h3, rfl⟩ := h
        simp [ih _ _ _ (by rfl) h3, hml]
      · rw [pure_eq_ok] at h; subst h; simp [hml]
    · -- invoke
      rename_i fn argument
      simp only [exec, dispatch, invoke] at h
      cases fn <;> simp only at h
      · exact ih _ _ _ (by rfl) h
      · exact ih _ _ _ (by rfl) h
      · exact ih _ _ _ (by rfl) h
      · exact ih _ _ _ (by rfl) h
      · unfold string at h; exact emitConstant_localStack _ _ _ h
      · unfold numeric at h; exact emitConstant_localStack _ _ _ h
      · rw [pure_eq_ok] at h; subst h; simp
      · exact ih _ _ _ (by rfl) h
      · exact ih _ _ _ (by rfl) h
    · -- infixLoop
      rename_i precedence canAssign
      simp only [exec, dispatch, infixLoop] at h
      split at h
      · split at h
        · cases h
        · rw [bind_eq_ok] at h
          obtain ⟨c2, h2, h3⟩ := h
          rw [ih _ _ _ (by rfl) h3, ih _ _ _ (by rfl) h2]
          simp
      · rw [pure_eq_ok] at h; subst h; rfl
    · -- parsePrecedence
      rename_i precedence
      simp only [exec, dispatch, parsePrecedence] at h
      split at h
      · rw [pure_eq_ok] at h; subst h; simp
      · simp only [bind_eq_ok] at h
        obtain ⟨c2, h2, c3, h3, h⟩ := h
        have e2 := ih _ _ _ (by rfl) h2
        have e3 := ih _ _ _ (by rfl) h3
        generalize hm : (if decide (precedence ≤ P_ASSIGNMENT) = true then
            matchToken c3 TokenType.T_EQUAL else (false, c3)) = m at h
        have hml : m.2.localStack = c.localStack := by
          rw [← hm, condMatch_localStack, e3, e2, advance_localStack]
        split at h
        · rw [pure_eq_ok] at h; subst h; simp [hml]
        · rw [pure_eq_ok] at h; subst h; simp [hml]


/-! ### The locals stack stays settled across statements -/

@[simp] theorem declareLoop_localStack (name : Token) (sd : Nat) (L : List LocalVar)
    (c : Compiler) : (declareLoop name sd L c).localStack = c.localStack := by
  induction L generalizing c with
  | nil => rfl
  | cons v rest ih =>
    unfold declareLoop
    split
    · rfl
    · split
      · rw [ih]; simp
      · exact ih c

theorem declareVariable_localStack (c : Compiler) :
    (declareVariable c).localStack
      = if c.localStack.scopeDepth = 0 then c.localStack
        else { locals := c.localStack.locals ++ [{ name := c.parser.previous, depth := -1 }]
               scopeDepth := c.localStack.scopeDepth } := by
  unfold declareVariable
  split
  · rfl
  · simp [addLocal]

theorem markInitialized_append (c : Compiler) (xs : List LocalVar) (l : LocalVar) (sd : Nat)
    (h : c.localStack = { locals := xs ++ [l], scopeDepth := sd }) :
    (markInitialized c).localStack
      = { locals := xs ++ [{ l with depth := (sd : Int) }], scopeDepth := sd } := by
  unfold markInitialized
  rw [h]
  simp

theorem settled_push (ls : LocalStack) (name : Token) (hs : ls.settled)
    (hd : 0 < ls.scopeDepth) :
    LocalStack.settled
      { locals := ls.locals ++ [{ name := name, depth := (ls.scopeDepth : Int) }]
        scopeDepth := ls.scopeDepth } := by
  refine ⟨?_, ?_⟩
  · intro l hl
    simp only [List.mem_append, List.mem_singleton] at hl
    rcases hl with hl | rfl
    · exact hs.1 l hl
    · simp only; omega
  · simp only [List.pairwise_append, List.pairwise_singleton, List.mem_singleton, true_and]
    refine ⟨hs.2, ?_⟩
    intro a ha b hb
    subst hb
    exact (hs.1 a ha).2

theorem settled_startScope (c : Compiler) (hs : c.localStack.settled)
    (hb : c.localStack.scopeDepth + 1 < 4294967296) :
    (startScope c).localStack.settled
    ∧ (startScope c).localStack.scopeDepth = c.localStack.scopeDepth + 1 := by
  have hd : (startScope c).localStack.scopeDepth = c.localStack.scopeDepth + 1 := by
    show (c.localStack.scopeDepth + 1) % 4294967296 = _
    omega
  refine ⟨⟨?_, hs.2⟩, hd⟩
  intro l hl
  have := hs.1 l hl
  rw [hd]
  push_cast
  omega

theorem endScopeLoop_fst (d : Nat) (L : List LocalVar) (c : Compiler) :
    (endScopeLoop d L c).1 = L.dropWhile (fun l => decide (toUnsigned l.depth > d)) := by
  induction L generalizing c with
  | nil => rfl
  | cons v rest ih =>
    unfold endScopeLoop
    split
    · rename_i hv
      rw [ih, List.dropWhile_cons_of_pos (by simpa using hv)]
    · rename_i hv
      rw [List.dropWhile_cons_of_neg (by simpa using hv)]

theorem dropWhile_depth_le (d : Nat) (L : List LocalVar)
    (hr : ∀ l ∈ L, 1 ≤ l.depth ∧ l.depth ≤ (d : Int) + 1)
    (hp : L.Pairwise (fun a b => b.depth ≤ a.depth)) (hd : d + 1 < 4294967296) :
    ∀ x ∈ L.dropWhile (fun l => decide (toUnsigned l.depth > d)), x.depth ≤ (d : Int) := by
  induction L with
  | nil => intro x hx; cases hx
  | cons v rest ih =>
    rw [List.pairwise_cons] at hp
    by_cases hv : toUnsigned v.depth > d
    · rw [List.dropWhile_cons_of_pos (by simpa using hv)]
      exact ih (fun l hl => hr l (List.mem_cons_of_mem _ hl)) hp.2
    · rw [List.dropWhile_cons_of_neg (by simpa using hv)]
      have hvb := hr v (List.mem_cons_self _ _)
      have hvd : v.depth ≤ (d : Int) := by
        unfold toUnsigned at hv
        omega
      intro x hx
      rcases List.mem_cons.1 hx with rfl | hx
      · exact hvd
      · exact le_trans (hp.1 x hx) hvd

theorem settled_endScope (c : Compiler) (d : Nat) (hs : c.localStack.settled)
    (hd : c.localStack.scopeDepth = d + 1) (hb : d + 1 < 4294967296) :
    (endScope c).localStack.settled ∧ (endScope c).localStack.scopeDepth = d := by
  have hdepth : (c.localStack.scopeDepth + 4294967295) % 4294967296 = d := by omega
  have hloc : (endScope c).localStack
      = { locals := (c.localStack.locals.reverse.dropWhile
            (fun l => decide (toUnsigned l.depth > d))).reverse
          scopeDepth := d } := by
    unfold endScope
    simp only [hdepth, endScopeLoop_fst]
  rw [hloc]
  have hr : ∀ l ∈ c.localStack.locals.reverse, 1 ≤ l.depth ∧ l.depth ≤ (d : Int) + 1 := by
    intro l hl
    have := hs.1 l (List.mem_reverse.1 hl)
    rw [hd] at this
    push_cast at this
    exact this
  have hp : c.localStack.locals.reverse.Pairwise (fun a b => b.depth ≤ a.depth) :=
    List.pairwise_reverse.2 hs.2
  have hsub := List.dropWhile_sublist (fun l => decide (toUnsigned l.depth > d))
    (l := c.localStack.locals.reverse)
  refine ⟨⟨?_, ?_⟩, rfl⟩
  · intro l hl
    have hl' := List.mem_reverse.1 hl
    exact ⟨(hr l (hsub.subset hl')).1, dropWhile_depth_le d _ hr hp hb l hl'⟩
  · exact List.pairwise_reverse.2 (hp.sublist hsub)


theorem variableDeclaration_keeps (call : Call) (n : Nat) (hc : CallOK call n)
    (c c' : Compiler) (hs : c.localStack.settled)
    (h : variableDeclaration call c = .ok c') : Keeps c.localStack c' := by
  unfold variableDeclaration at h
  rw [bind_eq_ok] at h
  obtain ⟨⟨c1, gv⟩, h1, h⟩ := h
  simp only at h
  -- the stack after `parseVariable`
  have hc1 : c1.localStack
      = (declareVariable (eat c .T_IDENTIFIER "Expected a variable name")).localStack := by
    unfold parseVariable at h1
    simp only at h1
    split at h1
    · cases h1; rfl
    · exact identifierConstant_localStack _ _ _ h1
  -- the stack after the initializer
  have h2 : ∃ c2, c2.localStack = c1.localStack ∧
      c' = defineVariable (eat c2 .T_SEMICOLON "Expected ';' after expression") gv := by
    split at h
    · simp only [bind_eq_ok, pure_eq_ok] at h
      obtain ⟨c2, h2, rfl⟩ := h
      exact ⟨c2, by rw [hc.expr _ _ _ (by rfl) h2]; simp, rfl⟩
    · simp only [bind_eq_ok, pure_eq_ok] at h
      obtain ⟨c2, rfl, rfl⟩ := h
      exact ⟨_, by simp, rfl⟩
  obtain ⟨c2, hc2, rfl⟩ := h2
  rw [declareVariable_localStack] at hc1
  simp only [eat_localStack] at hc1
  unfold defineVariable
  simp only [eat_localStack, hc2]
  by_cases hd : c.localStack.scopeDepth = 0
  · rw [if_pos hd] at hc1
    have : ¬ c1.localStack.scopeDepth > 0 := by rw [hc1]; omega
    rw [if_neg this]
    refine ⟨?_, ?_⟩
    · simp only [emitByte_localStack, emitOp_localStack, eat_localStack, hc2, hc1]
      exact hs
    · simp only [emitByte_localStack, emitOp_localStack, eat_localStack, hc2, hc1]
  · rw [if_neg hd] at hc1
    have : c1.localStack.scopeDepth > 0 := by rw [hc1]; simp only; omega
    rw [if_pos this]
    have hc3 : (eat c2 TokenType.T_SEMICOLON "Expected ';' after expression").localStack
        = { locals := c.localStack.locals
              ++ [{ name := (eat c TokenType.T_IDENTIFIER "Expected a variable name").parser.previous,
                    depth := -1 }]
            scopeDepth := c.localStack.scopeDepth } := by
      rw [eat_localStack, hc2, hc1]
    rw [Keeps, markInitialized_append _ _ _ _ hc3]
    exact ⟨settled_push c.localStack _ hs (by omega), rfl⟩

theorem block_keeps (call : Call) (n : Nat) (hc : CallOK call n) (c c1 : Compiler)
    (hb : c.localStack.scopeDepth + (n + 1) < 4294967296) (hs : c.localStack.settled)
    (h1 : call .scopeBlock (startScope c) = .ok c1) : Keeps c.localStack (endScope c1) := by
  obtain ⟨hss, hsd⟩ := settled_startScope c hs (by omega)
  obtain ⟨h1s, h1d⟩ := hc.stmt _ _ _ (by rfl) (by omega) hss h1
  exact settled_endScope c1 _ h1s (by rw [h1d, hsd]) (by omega)


theorem keeps_of_frame {c c' : Compiler} (h : c'.localStack = c.localStack)
    (hs : c.localStack.settled) : Keeps c.localStack c' :=
  ⟨h ▸ hs, by rw [h]⟩

theorem CallOK.stmt_at {call : Call} {n : Nat} (hc : CallOK call n) (r : Routine)
    (c x c' : Compiler) (hr : r.isExpr = false) (hx : x.localStack = c.localStack)
    (hb : c.localStack.scopeDepth + n < 4294967296) (hs : c.localStack.settled)
    (h : call r x = .ok c') : Keeps c.localStack c' := by
  have := hc.stmt r x c' hr (by rw [hx]; omega) (hx ▸ hs) h
  rwa [hx] at this

theorem statement_keeps (call : Call) (n : Nat) (hc : CallOK call n) (c c' : Compiler)
    (hb : c.localStack.scopeDepth + (n + 1) < 4294967296) (hs : c.localStack.settled)
    (h : statement call c = .ok c') : Keeps c.localStack c' := by
  unfold statement at h
  simp only at h
  split at h
  · exact hc.stmt_at _ c _ c' (by rfl) (by simp) (by omega) hs h
  · split at h
    · exact hc.stmt_at _ c _ c' (by rfl) (by simp) (by omega) hs h
    · split at h
      · exact hc.stmt_at _ c _ c' (by rfl) (by simp) (by omega) hs h
      · split at h
        · exact hc.stmt_at _ c _ c' (by rfl) (by simp) (by omega) hs h
        · split at h
          · simp only [bind_eq_ok, pure_eq_ok] at h
            obtain ⟨c1, h1, rfl⟩ := h
            generalize hx : (matchToken (matchToken (matchToken (matchToken (matchToken c
              TokenType.T_PRINT).2 TokenType.T_IF).2 TokenType.T_WHILE).2 TokenType.T_FOR).2
              TokenType.T_LEFT_BRACES).2 = x at h1
            have hxl : x.localStack = c.localStack := by rw [← hx]; simp
            have := block_keeps call n hc x c1 (by rw [hxl]; exact hb) (hxl ▸ hs) h1
            rwa [hxl] at this
          · exact hc.stmt_at _ c _ c' (by rfl) (by simp) (by omega) hs h

theorem scopeBlock_keeps (call : Call) (n : Nat) (hc : CallOK call n) (c c' : Compiler)
    (hb : c.localStack.scopeDepth + (n + 1) < 4294967296) (hs : c.localStack.settled)
    (h : scopeBlock call c = .ok c') : Keeps c.localStack c' := by
  unfold scopeBlock at h
  split at h
  · rw [bind_eq_ok] at h
    obtain ⟨c1, h1, h2⟩ := h
    obtain ⟨h1s, h1d⟩ := hc.stmt _ _ _ (by rfl) (by omega) hs h1
    obtain ⟨h2s, h2d⟩ := hc.stmt _ _ _ (by rfl) (by rw [h1d]; omega) h1s h2
    exact ⟨h2s, by rw [h2d, h1d]⟩
  · rw [pure_eq_ok] at h; subst h
    exact keeps_of_frame (by simp) hs

theorem statementExpression_keeps (call : Call) (n : Nat) (hc : CallOK call n)
    (c c' : Compiler) (hs : c.localStack.settled)
    (h : statementExpression call c = .ok c') : Keeps c.localStack c' := by
  simp only [statementExpression, bind_eq_ok, pure_eq_ok] at h
  obtain ⟨c1, h1, rfl⟩ := h
  exact keeps_of_frame (by simp [hc.expr _ _ _ (by rfl) h1]) hs

theorem statementPrint_keeps (call : Call) (n : Nat) (hc : CallOK call n)
    (c c' : Compiler) (hs : c.localStack.settled)
    (h : statementPrint call c = .ok c') : Keeps c.localStack c' := by
  simp only [statementPrint, bind_eq_ok, pure_eq_ok] at h
  obtain ⟨c1, h1, rfl⟩ := h
  exact keeps_of_frame (by simp [hc.expr _ _ _ (by rfl) h1]) hs

theorem statementWhile_keeps (call : Call) (n : Nat) (hc : CallOK call n) (c c' : Compiler)
    (hb : c.localStack.scopeDepth + (n + 1) < 4294967296) (hs : c.localStack.settled)
    (h : statementWhile call c = .ok c') : Keeps c.localStack c' := by
  simp only [statementWhile, bind_eq_ok, pure_eq_ok] at h
  obtain ⟨c2, h2, c6, h6, rfl⟩ := h
  have e2 : c2.localStack = c.localStack := by simp [hc.expr _ _ _ (by rfl) h2]
  obtain ⟨h6s, h6d⟩ := hc.stmt_at _ c _ c6 (by rfl) (by simp [e2]) (by omega) hs h6
  exact ⟨by simpa using h6s, by simpa using h6d⟩


theorem declaration_keeps (call : Call) (n : Nat) (hc : CallOK call n) (c c' : Compiler)
    (hb : c.localStack.scopeDepth + (n + 1) < 4294967296) (hs : c.localStack.settled)
    (h : declaration call c = .ok c') : Keeps c.localStack c' := by
  unfold declaration at h
  simp only at h
  split at h
  · exact hc.stmt_at _ c _ c' (by rfl) (by simp) (by omega) hs h
  · exact hc.stmt_at _ c _ c' (by rfl) (by simp) (by omega) hs h

theorem statementIf_keeps (call : Call) (n : Nat) (hc : CallOK call n) (c c' : Compiler)
    (hb : c.localStack.scopeDepth + (n + 1) < 4294967296) (hs : c.localStack.settled)
    (h : statementIf call c = .ok c') : Keeps c.localStack c' := by
  unfold statementIf at h
  simp only [bind_eq_ok] at h
  obtain ⟨c2, h2, c6, h6, h⟩ := h
  have e2 : c2.localStack = c.localStack := by simp [hc.expr _ _ _ (by rfl) h2]
  obtain ⟨h6s, h6d⟩ := hc.stmt_at _ c _ c6 (by rfl) (by simp [e2]) (by omega) hs h6
  generalize hm : matchToken (emitOp (patchJump (emitJump c6 OPCode.OP_JUMP.toByte).1
      (emitJump (eat c2 TokenType.T_RIGHT_PARENTHESIS "Expected a ')'")
        OPCode.OP_JUMP_IF_FALSE.toByte).2) OPCode.OP_POP_BACK) TokenType.T_ELSE = m at h
  have hml : m.2.localStack = c6.localStack := by rw [← hm]; simp
  split at h
  · simp only [bind_eq_ok, pure_eq_ok] at h
    obtain ⟨y, hy, rfl⟩ := h
    obtain ⟨hys, hyd⟩ := hc.stmt _ _ _ (by rfl) (by rw [hml, h6d]; omega) (hml ▸ h6s) hy
    exact ⟨by simpa using hys, by simp [hyd, hml, h6d]⟩
  · simp only [bind_eq_ok, pure_eq_ok] at h
    obtain ⟨y, rfl, rfl⟩ := h
    exact ⟨by simpa [hml] using h6s, by simp [hml, h6d]⟩


theorem statementFor_keeps (call : Call) (n : Nat) (hc : CallOK call n) (c c' : Compiler)
    (hb : c.localStack.scopeDepth + (n + 1) < 4294967296) (hs : c.localStack.settled)
    (h : statementFor call c = .ok c') : Keeps c.localStack c' := by
  obtain ⟨hss, hsd⟩ := settled_startScope c hs (by omega)
  unfold statementFor at h
  simp only [bind_eq_ok, pure_eq_ok] at h
  obtain ⟨c2, h2, ⟨c3, exit⟩, h3, ⟨c4, loopStart⟩, h4, c5, h5, rfl⟩ := h
  simp only at h3 h4 h5 ⊢
  -- the initializer clause
  have k2 : Keeps (startScope c).localStack c2 := by
    split at h2
    · rw [pure_eq_ok] at h2; subst h2
      exact keeps_of_frame (by simp) hss
    · split at h2
      · refine hc.stmt_at _ (startScope c) _ c2 (by rfl) (by simp) (by rw [hsd]; omega) hss h2
      · refine hc.stmt_at _ (startScope c) _ c2 (by rfl) (by simp) (by rw [hsd]; omega) hss h2
  -- the condition clause
  have e3 : c3.localStack = c2.localStack := by
    split at h3
    · simp only [bind_eq_ok, pure_eq_ok, Prod.mk.injEq] at h3
      obtain ⟨d1, hd1, rfl, _⟩ := h3
      simp [hc.expr _ _ _ (by rfl) hd1]
    · simp only [pure_eq_ok, Prod.mk.injEq] at h3
      obtain ⟨rfl, _⟩ := h3
      simp
  -- the increment clause
  have e4 : c4.localStack = c3.localStack := by
    split at h4
    · simp only [bind_eq_ok, pure_eq_ok, Prod.mk.injEq] at h4
      obtain ⟨d2, hd2, rfl, _⟩ := h4
      simp [hc.expr _ _ _ (by rfl) hd2]
    · simp only [pure_eq_ok, Prod.mk.injEq] at h4
      obtain ⟨rfl, _⟩ := h4
      simp
  -- the body
  have k4 : Keeps (startScope c).localStack c4 := by
    rw [Keeps, e4, e3]; exact k2
  obtain ⟨h5s, h5d⟩ := hc.stmt _ _ _ (by rfl) (by rw [k4.2, hsd]; omega) k4.1 h5
  have k7 : ∀ x : Compiler, x.localStack = c5.localStack →
      Keeps c.localStack (endScope x) := by
    intro x hx
    exact settled_endScope x _ (hx ▸ h5s) (by rw [hx, h5d, k4.2, hsd]) (by omega)
  split
  · exact k7 _ (by simp)
  · exact k7 _ (by simp)

theorem exec_callOK (n : Nat) : CallOK (exec n) n := by
  induction n with
  | zero =>
    exact ⟨fun r c c' _ h => (by cases h), fun r c c' _ _ _ h => (by cases h)⟩
  | succ n ih =>
    refine ⟨exec_expr_frame (n + 1), ?_⟩
    intro r c c' hr hb hs h
    cases r <;> simp only [Routine.isExpr] at hr <;> try (cases hr)
    · exact declaration_keeps _ n ih c c' hb hs h
    · exact variableDeclaration_keeps _ n ih c c' hs h
    · exact statement_keeps _ n ih c c' hb hs h
    · exact scopeBlock_keeps _ n ih c c' hb hs h
    · exact statementExpression_keeps _ n ih c c' hs h
    · exact statementPrint_keeps _ n ih c c' hs h
    · exact statementIf_keeps _ n ih c c' hb hs h
    · exact statementWhile_keeps _ n ih c c' hb hs h
    · exact statementFor_keeps _ n ih c c' hb hs h

theorem compileLoop_keeps (n : Nat) :
    ∀ (c c' : Compiler), c.localStack.scopeDepth + n < 4294967296 → c.localStack.settled →
      compileLoop n c = .ok c' → Keeps c.localStack c' := by
  induction n with
  | zero => intro c c' _ _ h; cases h
  | succ n ih =>
    intro c c' hb hs h
    unfold compileLoop at h
    simp only at h
    split at h
    · rw [pure_eq_ok] at h; subst h
      exact keeps_of_frame (by simp) hs
    · rw [bind_eq_ok] at h
      obtain ⟨c1, h1, h2⟩ := h
      obtain ⟨h1s, h1d⟩ := (exec_callOK n).stmt_at _ c _ c1 (by rfl) (by simp) (by omega) hs h1
      obtain ⟨h2s, h2d⟩ := ih c1 c' (by rw [h1d]; omega) h1s h2
      exact ⟨h2s, by rw [h2d, h1d]⟩

/-- Compiling keeps the locals stack settled: if `compile` is entered with a
settled stack (as in a new compiler) and returns, the stack is settled again
and the scope depth is the one at entry. The same holds for every statement
routine (`exec_callOK`), so every declaration is compiled in a settled state. -/
theorem compile_settled (fuel : Nat) (c : Compiler) (source : List Token) (chunk : Chunk)
    (r : Bool × Compiler) (hs : c.localStack.settled)
    (hb : c.localStack.scopeDepth + fuel < 4294967296)
    (h : compile fuel c source chunk = .ok r) :
    r.2.localStack.settled ∧ r.2.localStack.scopeDepth = c.localStack.scopeDepth := by
  unfold compile at h
  simp only [bind_eq_ok, pure_eq_ok] at h
  obtain ⟨c4, h4, rfl⟩ := h
  have := compileLoop_keeps fuel _ c4 (by simpa using hb) (by simpa using hs) h4
  simpa [Keeps, finish] using this

end Compiler

/-! ### Reading jump operands -/

namespace VirtualMachine

/-- What `readShort` does on any two bytes: it returns the second one. -/
theorem readShort_low_byte (vm : VirtualMachine) (hi lo : Nat)
    (h0 : vm.chunk.data[vm.IP]? = some hi) (h1 : vm.chunk.data[vm.IP + 1]? = some lo)
    (hlo : lo < 256) :
    readShort vm = some (lo, { vm with IP := vm.IP + 2 }) := by
  unfold readShort
  rw [h0, h1]
  have e : hi <<< 8 ||| lo = 2 ^ 8 * hi + lo := by
    rw [Nat.shiftLeft_eq, Nat.mul_comm]
    exact (Nat.mul_add_lt_is_or (by omega) hi).symm
  have e3 : (2 ^ 8 * hi + lo) % 65536 % 256 = lo := by omega
  simp only [e, e3]

/-- What `JUMP_IF_FALSE hi lo` does with `v` on top of the stack: the stack and
the globals are left alone, and the instruction pointer moves past the
instruction and, when `v` is falsey, `lo` bytes further. -/
theorem jumpIfFalse_low_byte (vm : VirtualMachine) (hi lo : Nat) (v : Value)
    (hop : vm.chunk.data[vm.IP]? = some OPCode.OP_JUMP_IF_FALSE.toByte)
    (h0 : vm.chunk.data[vm.IP + 1]? = some hi) (h1 : vm.chunk.data[vm.IP + 2]? = some lo)
    (hlo : lo < 256) (hv : vm.vmStack.getLast? = some v) :
    step vm = .next { vm with IP := vm.IP + 3 + (if isBooleanFalse v then lo else 0) } := by
  have hne : vm.vmStack ≠ [] := by
    intro h; rw [h] at hv; cases hv
  have hlen : 0 < vm.vmStack.length := List.length_pos.2 hne
  have hpeek : peek { vm with IP := vm.IP + 1 + 2 } 0 = .value v := by
    unfold peek
    simp only
    rw [if_neg (by omega), if_pos hlen]
    have : vm.vmStack[vm.vmStack.length - 1 - 0]? = some v := by
      rw [List.getLast?_eq_getElem?] at hv
      simpa using hv
    rw [this]
  unfold step readByte
  rw [hop]
  simp only
  have hrs := readShort_low_byte { vm with IP := vm.IP + 1 } hi lo h0 h1 hlo
  show (match OPCode.ofByte OPCode.OP_JUMP_IF_FALSE.toByte with
        | none => Step.next { vm with IP := vm.IP + 1 }
        | some op => execute { vm with IP := vm.IP + 1 } op) = _
  show execute { vm with IP := vm.IP + 1 } .OP_JUMP_IF_FALSE = _
  unfold execute
  rw [hrs]
  simp only
  rw [hpeek]
  simp only
  split <;> rfl

end VirtualMachine


/-! ### Single instructions of the virtual machine -/

namespace VirtualMachine

theorem ofByte_toByte (op : OPCode) : OPCode.ofByte op.toByte = some op := by
  cases op <;> rfl

theorem step_eq_execute (vm : VirtualMachine) (op : OPCode)
    (h : vm.chunk.data[vm.IP]? = some op.toByte) :
    step vm = execute { vm with IP := vm.IP + 1 } op := by
  simp only [step, readByte, h, ofByte_toByte]

theorem pop_append (vm : VirtualMachine) (rest : List Value) (v : Value)
    (h : vm.vmStack = rest ++ [v]) :
    pop vm = some (v, { vm with vmStack := rest }) := by
  simp [pop, h]

theorem readName_eq (vm : VirtualMachine) (idx : Nat) (n : String)
    (hi : vm.chunk.data[vm.IP]? = some idx)
    (hn : vm.chunk.constantPool[idx]? = some (.str n)) :
    readName vm = some (n, { vm with IP := vm.IP + 1 }) := by
  have hn1 : (chunk { vm with IP := vm.IP + 1 }).constantPool[idx]? = some (.str n) := hn
  simp only [readName, readConstant, readByte, hi, hn1, getStringObject]

theorem findGlobal_setGlobal_same (g : List (String × Value)) (n : String) (v : Value) :
    findGlobal (setGlobal g n v) n = some v := by
  induction g with
  | nil => simp [setGlobal, findGlobal]
  | cons kv rest ih =>
    unfold setGlobal
    by_cases h : kv.1 = n
    · simp [h, findGlobal]
    · simp only [h, if_false, findGlobal, List.find?_cons, decide_False] at ih ⊢
      exact ih

theorem findGlobal_setGlobal_other (g : List (String × Value)) (n m : String) (v : Value)
    (hm : m ≠ n) : findGlobal (setGlobal g n v) m = findGlobal g m := by
  have h2 : ¬ n = m := fun e => hm e.symm
  induction g with
  | nil => simp [setGlobal, findGlobal, h2]
  | cons kv rest ih =>
    unfold setGlobal
    by_cases h : kv.1 = n
    · have h1 : ¬ kv.1 = m := fun e => hm (e.symm.trans h)
      rw [if_pos h]
      simp [findGlobal, h1, h2]
    · rw [if_neg h]
      by_cases h1 : kv.1 = m
      · simp [findGlobal, h1]
      · simp only [findGlobal, List.find?_cons, h1, decide_False] at ih ⊢
        exact ih

theorem binaryOperation_eq (vm : VirtualMachine) (op : OPCode) (rest : List Value)
    (a b : Value) (hs : vm.vmStack = rest ++ [a, b]) :
    binaryOperation vm op =
      match applyBinary op a b with
      | some r => .next { vm with vmStack := rest ++ [r] }
      | none => .undefined := by
  have h1 : pop vm = some (b, { vm with vmStack := rest ++ [a] }) :=
    pop_append vm (rest ++ [a]) b (by simp [hs])
  have h2 : pop { vm with vmStack := rest ++ [a] } = some (a, { vm with vmStack := rest }) :=
    pop_append _ rest a rfl
  simp only [binaryOperation, h1, h2]
  cases applyBinary op a b <;> rfl

end VirtualMachine

/-- C11 (as stated, refuted): `1 + true;` compiles to `CONSTANT 0, TRUE, ADD,
POP, RETURN`, and interpreting it does not return RUNTIME_ERROR: `run`
executes `ADD` on the number 1 and `true`, where `binaryOperation` applies the
operator of `Value` without any check, and the source defines no result. -/
theorem one_plus_true_no_runtime_error :
    Compiler.outcome (Compiler.compile 100 Compiler.new srcOnePlusTrue Chunk.empty)
      = some (true, [2, 0, 9, 4, 16, 1], [])
    ∧ VirtualMachine.interpret 100 100 VirtualMachine.new srcOnePlusTrue
      = some .undefined := by
  decide!

/-- C11 (amended): executing ADD, SUB, MUL, DIV, GREATER or LESS with `a` and
`b` on top of the stack never ends `run` with RUNTIME_ERROR (nor with any other
result): the two operands are popped, and where the operator of `Value` has a
result it is pushed and `run` goes on with the next instruction. When the
operands are not both numbers (and, for ADD, not both strings) the outcome is
whatever the operator of `Value` does, which the source leaves open. -/
theorem binary_step_never_halts (vm : VirtualMachine) (op : OPCode) (rest : List Value)
    (a b : Value)
    (hop : op ∈ [OPCode.OP_ADD, .OP_SUB, .OP_MULT, .OP_DIV, .OP_GREATER, .OP_LESS])
    (hc : vm.chunk.data[vm.IP]? = some op.toByte)
    (hs : vm.vmStack = rest ++ [a, b]) :
    (vm.step =
      match VirtualMachine.applyBinary op a b with
      | some r => .next { vm with IP := vm.IP + 1, vmStack := rest ++ [r] }
      | none => .undefined)
    ∧ (∀ (r : InterpretResult) (vm1 : VirtualMachine), vm.step ≠ .halt r vm1)
    ∧ ((∀ x y, ¬ (a = .number x ∧ b = .number y)) →
       (op = .OP_ADD → ∀ s t, ¬ (a = .str s ∧ b = .str t)) →
       vm.step = .undefined) := by
  have hstep : vm.step = VirtualMachine.binaryOperation { vm with IP := vm.IP + 1 } op := by
    rw [VirtualMachine.step_eq_execute vm op hc]
    simp only [List.mem_cons, List.mem_singleton, List.not_mem_nil, or_false] at hop
    rcases hop with h | h | h | h | h | h <;> subst h <;> rfl
  have hbin := VirtualMachine.binaryOperation_eq { vm with IP := vm.IP + 1 } op rest a b hs
  rw [hbin] at hstep
  refine ⟨hstep, ?_, ?_⟩
  · intro r vm1 h
    rw [hstep] at h
    cases hb : VirtualMachine.applyBinary op a b <;> rw [hb] at h <;> cases h
  · intro hnum hstr
    rw [hstep]
    have : VirtualMachine.applyBinary op a b = none := by
      simp only [List.mem_cons, List.mem_singleton, List.not_mem_nil, or_false] at hop
      cases a <;> cases b <;>
        first
        | (exfalso; exact hnum _ _ ⟨rfl, rfl⟩)
        | (rcases hop with h | h | h | h | h | h <;> subst h <;>
            first
            | rfl
            | (exfalso; exact hstr rfl _ _ ⟨rfl, rfl⟩))
    rw [this]

/-- Witness of C11 (amended): `ADD` at the start of the code, with the number 1
and `true` on the stack. -/
theorem binary_step_never_halts_witness :
    (vmAt .OP_ADD [.number 1, .bool true] []).step = .undefined :=
  (binary_step_never_halts (vmAt .OP_ADD [.number 1, .bool true] []) .OP_ADD []
    (.number 1) (.bool true) (by decide) rfl rfl).2.2
    (fun _ _ h => by cases h.2) (fun _ _ _ h => by cases h.1)

/-- C12 (as stated, refuted): `DEFINE_GLOBAL` for the name `x`, which is not
yet a global, on an empty operand stack: `vmStack.back()` has nothing to read
and the source defines no outcome, so no global gets "the former top". -/
theorem defineGlobal_empty_stack :
    VirtualMachine.findGlobal (vmAt .OP_DEFINE_GLOBAL_VAR [] []).vmGlobals "x" = none
    ∧ (vmAt .OP_DEFINE_GLOBAL_VAR [] []).step = .undefined := by
  decide!

/-- C12 (amended): executing DEFINE_GLOBAL for a name `n`. If `n` is already a
key of the globals, `run` halts with RUNTIME_ERROR: the case hands
`runtimeError` the state with globals and operand stack untouched, so the
globals are as before, and `runtimeError` discards the operand stack.
Otherwise, on a non-empty operand stack, `globals[n]` becomes the former top
of the stack, that value is popped and every other global is unchanged; on an
empty operand stack the source defines no outcome. -/
theorem defineGlobal_step (vm : VirtualMachine) (idx : Nat) (n : String)
    (hc : vm.chunk.data[vm.IP]? = some OPCode.OP_DEFINE_GLOBAL_VAR.toByte)
    (hi : vm.chunk.data[vm.IP + 1]? = some idx)
    (hn : vm.chunk.constantPool[idx]? = some (.str n)) :
    (VirtualMachine.findGlobal vm.vmGlobals n ≠ none →
      ∃ vm1, vm.step = .halt .RUNTIME_ERROR vm1
        ∧ vm1 = VirtualMachine.runtimeError { vm with IP := vm.IP + 2 }
            ("Variable '" ++ n ++ "' is already defined.")
        ∧ vm1.vmGlobals = vm.vmGlobals ∧ vm1.vmStack = [])
    ∧ (VirtualMachine.findGlobal vm.vmGlobals n = none →
        ∀ rest top, vm.vmStack = rest ++ [top] →
          ∃ vm1, vm.step = .next vm1
            ∧ vm1.vmStack = rest
            ∧ VirtualMachine.findGlobal vm1.vmGlobals n = some top
            ∧ ∀ m, m ≠ n →
                VirtualMachine.findGlobal vm1.vmGlobals m
                  = VirtualMachine.findGlobal vm.vmGlobals m)
    ∧ (VirtualMachine.findGlobal vm.vmGlobals n = none → vm.vmStack = [] →
        vm.step = .undefined) := by
  have hstep := VirtualMachine.step_eq_execute vm .OP_DEFINE_GLOBAL_VAR hc
  have hname := VirtualMachine.readName_eq { vm with IP := vm.IP + 1 } idx n hi hn
  refine ⟨?_, ?_, ?_⟩
  · intro hk
    cases hf : VirtualMachine.findGlobal vm.vmGlobals n with
    | none => exact absurd hf hk
    | some v =>
      refine ⟨VirtualMachine.runtimeError { vm with IP := vm.IP + 1 + 1 }
        ("Variable '" ++ n ++ "' is already defined."), ?_, rfl, rfl, rfl⟩
      rw [hstep]
      simp only [VirtualMachine.execute, hname, hf]
  · intro hf rest top hs
    have hp := VirtualMachine.pop_append { vm with IP := vm.IP + 1 + 1 } rest top hs
    refine ⟨{ vm with
              IP := vm.IP + 1 + 1
              vmStack := rest
              vmGlobals := VirtualMachine.setGlobal vm.vmGlobals n top }, ?_, rfl, ?_, ?_⟩
    · rw [hstep]
      simp only [VirtualMachine.execute, hname, hf, hp]
    · exact VirtualMachine.findGlobal_setGlobal_same _ _ _
    · intro m hm
      exact VirtualMachine.findGlobal_setGlobal_other _ _ _ _ hm
  · intro hf hs
    have hp : VirtualMachine.pop { vm with IP := vm.IP + 1 + 1 } = none := by
      simp [VirtualMachine.pop, hs]
    rw [hstep]
    simp only [VirtualMachine.execute, hname, hf, hp]

/-- Witness of C12 (amended): `DEFINE_GLOBAL` for `x` with the number 1 on the
stack, first with only the global `y` defined, then with `x` defined already:
`run` halts with RUNTIME_ERROR, `x` keeps its value and the stack is
discarded. -/
theorem defineGlobal_step_witness :
    (∃ vm1, (vmAt .OP_DEFINE_GLOBAL_VAR [.number 1] [("y", .none)]).step = .next vm1
      ∧ vm1.vmStack = []
      ∧ VirtualMachine.findGlobal vm1.vmGlobals "x" = some (.number 1)
      ∧ ∀ m, m ≠ "x" →
          VirtualMachine.findGlobal vm1.vmGlobals m
            = VirtualMachine.findGlobal [("y", .none)] m)
    ∧ (∃ vm1,
        (vmAt .OP_DEFINE_GLOBAL_VAR [.number 1] [("x", .none)]).step
          = .halt .RUNTIME_ERROR vm1
        ∧ vm1.vmGlobals = [("x", .none)] ∧ vm1.vmStack = []) :=
  ⟨(defineGlobal_step (vmAt .OP_DEFINE_GLOBAL_VAR [.number 1] [("y", .none)]) 0 "x"
      rfl rfl rfl).2.1 (by decide) [] (.number 1) rfl,
    match (defineGlobal_step (vmAt .OP_DEFINE_GLOBAL_VAR [.number 1] [("x", .none)]) 0 "x"
      rfl rfl rfl).1 (by decide) with
    | ⟨vm1, h1, _, h3, h4⟩ => ⟨vm1, h1, h3, h4⟩⟩

/-- C13: executing SET_GLOBAL for a name `n` on a non-empty operand stack. If
`n` is a key of the globals, `globals[n]` becomes the top of the stack, the
operand stack is as before and every other global is unchanged. If `n` is not
a key of the globals, `run` halts with RUNTIME_ERROR, and the globals are as
before: no global is created. The case hands `runtimeError` the state with
globals and operand stack untouched, and `runtimeError` discards the stack. -/
theorem setGlobal_step (vm : VirtualMachine) (idx : Nat) (n : String) (rest : List Value)
    (top : Value)
    (hc : vm.chunk.data[vm.IP]? = some OPCode.OP_SET_GLOBAL_VAR.toByte)
    (hi : vm.chunk.data[vm.IP + 1]? = some idx)
    (hn : vm.chunk.constantPool[idx]? = some (.str n))
    (hs : vm.vmStack = rest ++ [top]) :
    (VirtualMachine.findGlobal vm.vmGlobals n ≠ none →
      ∃ vm1, vm.step = .next vm1
        ∧ vm1.vmStack = vm.vmStack
        ∧ VirtualMachine.findGlobal vm1.vmGlobals n = some top
        ∧ ∀ m, m ≠ n →
            VirtualMachine.findGlobal vm1.vmGlobals m
              = VirtualMachine.findGlobal vm.vmGlobals m)
    ∧ (VirtualMachine.findGlobal vm.vmGlobals n = none →
        ∃ vm1, vm.step = .halt .RUNTIME_ERROR vm1
          ∧ vm1 = VirtualMachine.runtimeError { vm with IP := vm.IP + 2 }
              ("Undefined variable '" ++ n ++ "'.")
          ∧ vm1.vmGlobals = vm.vmGlobals ∧ vm1.vmStack = []) := by
  have hstep := VirtualMachine.step_eq_execute vm .OP_SET_GLOBAL_VAR hc
  have hname := VirtualMachine.readName_eq { vm with IP := vm.IP + 1 } idx n hi hn
  refine ⟨?_, ?_⟩
  · intro hk
    cases hf : VirtualMachine.findGlobal vm.vmGlobals n with
    | none => exact absurd hf hk
    | some v =>
      have hl : vm.vmStack.getLast? = some top := by simp [hs]
      refine ⟨{ vm with
                IP := vm.IP + 1 + 1
                vmGlobals := VirtualMachine.setGlobal vm.vmGlobals n top }, ?_, rfl, ?_, ?_⟩
      · rw [hstep]
        simp only [VirtualMachine.execute, hname, hf, hl]
      · exact VirtualMachine.findGlobal_setGlobal_same _ _ _
      · intro m hm
        exact VirtualMachine.findGlobal_setGlobal_other _ _ _ _ hm
  · intro hf
    refine ⟨VirtualMachine.runtimeError { vm with IP := vm.IP + 1 + 1 }
      ("Undefined variable '" ++ n ++ "'."), ?_, rfl, rfl, rfl⟩
    rw [hstep]
    simp only [VirtualMachine.execute, hname, hf]

/-- Witness of C13: `SET_GLOBAL` for `x`, a global that holds `None`, with the
number 1 on the stack. -/
theorem setGlobal_step_witness :
    ∃ vm1, (vmAt .OP_SET_GLOBAL_VAR [.number 1] [("x", .none)]).step = .next vm1
      ∧ vm1.vmStack = [.number 1]
      ∧ VirtualMachine.findGlobal vm1.vmGlobals "x" = some (.number 1)
      ∧ ∀ m, m ≠ "x" →
          VirtualMachine.findGlobal vm1.vmGlobals m
            = VirtualMachine.findGlobal [("x", .none)] m :=
  (setGlobal_step (vmAt .OP_SET_GLOBAL_VAR [.number 1] [("x", .none)]) 0 "x" []
    (.number 1) rfl rfl rfl rfl).1 (by decide)

/-- C14: `isBooleanFalse v` holds exactly when `v` is `None` or the boolean
`false`; every number (0 included) and every string (the empty one included)
is truthy; and NOT, with `v` on top of the stack, pops `v` and pushes the
boolean `isBooleanFalse v`. -/
theorem not_step (vm : VirtualMachine) (rest : List Value) (v : Value)
    (hc : vm.chunk.data[vm.IP]? = some OPCode.OP_NOT.toByte)
    (hs : vm.vmStack = rest ++ [v]) :
    (VirtualMachine.isBooleanFalse v = true ↔ v = .none ∨ v = .bool false)
    ∧ (∀ d, VirtualMachine.isBooleanFalse (.number d) = false)
    ∧ (∀ s, VirtualMachine.isBooleanFalse (.str s) = false)
    ∧ vm.step = .next { vm with
        IP := vm.IP + 1
        vmStack := rest ++ [.bool (VirtualMachine.isBooleanFalse v)] } := by
  refine ⟨?_, fun _ => rfl, fun _ => rfl, ?_⟩
  · cases v with
    | none => simp [VirtualMachine.isBooleanFalse]
    | bool b => cases b <;> simp [VirtualMachine.isBooleanFalse]
    | number d => simp [VirtualMachine.isBooleanFalse]
    | str s => simp [VirtualMachine.isBooleanFalse]
  · rw [VirtualMachine.step_eq_execute vm .OP_NOT hc]
    have hp := VirtualMachine.pop_append { vm with IP := vm.IP + 1 } rest v hs
    simp only [VirtualMachine.execute, hp, VirtualMachine.push]

/-- Witness of C14: `NOT` with the number 0 on top of the stack pushes `false`. -/
theorem not_step_witness :
    (vmAt .OP_NOT [.none, .number 0] []).step
      = .next { vmAt .OP_NOT [.none, .number 0] [] with
          IP := 1
          vmStack := [.none, .bool false] } :=
  (not_step (vmAt .OP_NOT [.none, .number 0] []) [.none] (.number 0) rfl rfl).2.2.2

/-- C16: `for (var i = 0; i < 3; i = i + 1) print(i);` compiles without a
diagnostic to `CONSTANT 0` (the local `i`, slot 0), the condition `GET_LOCAL 0,
CONSTANT 1, LESS`, `JUMP_IF_FALSE` to the exit, `POP`, `JUMP` to the body, the
increment `GET_LOCAL 0, CONSTANT 2, ADD, SET_LOCAL 0, POP` with its `LOOP` back
to the condition, the body `GET_LOCAL 0, PRINT` with its `LOOP` back to the
increment, and at the exit `POP` for the condition and `POP` for the local.
Interpreting it returns OK, prints 0, 1, 2 in that order and leaves the operand
stack empty. -/
theorem for_loop_prints_0_1_2 :
    Compiler.outcome (Compiler.compile 100 Compiler.new srcFor Chunk.empty)
      = some (true,
          [2, 0, 21, 0, 2, 1, 13, 23, 0, 21, 16, 22, 0, 11, 21, 0, 2, 2, 4, 20, 0, 16,
           24, 0, 23, 21, 0, 15, 24, 0, 17, 16, 16, 1], [])
    ∧ VirtualMachine.observe (VirtualMachine.interpret 100 200 VirtualMachine.new srcFor)
      = some (.OK, [.number 0, .number 1, .number 2], []) := by
  decide!


/-! ### Leaving a scope -/

namespace Compiler

theorem endScopeLoop_data (d : Nat) (L : List LocalVar) (c : Compiler) :
    (endScopeLoop d L c).2.currentChunk.data
      = c.currentChunk.data ++
          List.replicate
            (L.length - (L.dropWhile (fun l => decide (toUnsigned l.depth > d))).length)
            OPCode.OP_POP_BACK.toByte := by
  induction L generalizing c with
  | nil => simp [endScopeLoop]
  | cons v rest ih =>
    unfold endScopeLoop
    split
    · rename_i hv
      rw [ih, List.dropWhile_cons_of_pos (by simpa using hv)]
      have hle := (List.dropWhile_sublist (fun l => decide (toUnsigned l.depth > d))
        (l := rest)).length_le
      have hk : (v :: rest).length
          - (List.dropWhile (fun l => decide (toUnsigned l.depth > d)) rest).length
          = (rest.length
              - (List.dropWhile (fun l => decide (toUnsigned l.depth > d)) rest).length) + 1 := by
        simp only [List.length_cons]
        omega
      rw [hk, List.replicate_succ]
      have hb : OPCode.OP_POP_BACK.toByte % 256 = OPCode.OP_POP_BACK.toByte := by decide
      simp [emitOp, emitByte_data, hb]
    · rename_i hv
      rw [List.dropWhile_cons_of_neg (by simpa using hv)]
      simp

theorem dropWhile_eq_filter (d : Nat) (L : List LocalVar)
    (hr : ∀ l ∈ L, 1 ≤ l.depth ∧ l.depth ≤ (d : Int) + 1)
    (hp : L.Pairwise (fun a b => b.depth ≤ a.depth)) (hd : d + 1 < 4294967296) :
    L.dropWhile (fun l => decide (toUnsigned l.depth > d))
      = L.filter (fun l => decide (l.depth ≤ (d : Int))) := by
  induction L with
  | nil => rfl
  | cons v rest ih =>
    rw [List.pairwise_cons] at hp
    have hvb := hr v (List.mem_cons_self _ _)
    by_cases hv : toUnsigned v.depth > d
    · rw [List.dropWhile_cons_of_pos (by simpa using hv),
        ih (fun l hl => hr l (List.mem_cons_of_mem _ hl)) hp.2]
      have hvd : ¬ v.depth ≤ (d : Int) := by
        unfold toUnsigned at hv
        omega
      rw [List.filter_cons_of_neg (by simpa using hvd)]
    · rw [List.dropWhile_cons_of_neg (by simpa using hv)]
      have hvd : v.depth ≤ (d : Int) := by
        unfold toUnsigned at hv
        omega
      rw [List.filter_cons_of_pos (by simpa using hvd)]
      congr 1
      symm
      rw [List.filter_eq_self]
      intro x hx
      simpa using le_trans (hp.1 x hx) hvd

end Compiler

/-- C19: in a compiler state as it is between declarations inside at least one
scope (the locals initialized at depths from 1 to the scope depth, not
decreasing towards the top), `endScope` decrements the scope depth, keeps
exactly the locals whose depth does not exceed the new scope depth, in their
order, and appends to the code one `POP` per local removed and nothing else. -/
theorem endScope_removes_inner_locals (c : Compiler) (d : Nat)
    (hs : c.localStack.settled) (hd : c.localStack.scopeDepth = d + 1)
    (hb : d + 1 < 4294967296) :
    (Compiler.endScope c).localStack.scopeDepth = d
    ∧ (Compiler.endScope c).localStack.locals
        = c.localStack.locals.filter (fun l => decide (l.depth ≤ (d : Int)))
    ∧ (Compiler.endScope c).currentChunk.data
        = c.currentChunk.data ++
            List.replicate
              (c.localStack.locals.filter (fun l => decide ((d : Int) < l.depth))).length
              OPCode.OP_POP_BACK.toByte := by
  have hdepth : (c.localStack.scopeDepth + 4294967295) % 4294967296 = d := by omega
  have hr : ∀ l ∈ c.localStack.locals.reverse, 1 ≤ l.depth ∧ l.depth ≤ (d : Int) + 1 := by
    intro l hl
    have := hs.1 l (List.mem_reverse.1 hl)
    rw [hd] at this
    push_cast at this
    exact this
  have hp : c.localStack.locals.reverse.Pairwise (fun a b => b.depth ≤ a.depth) :=
    List.pairwise_reverse.2 hs.2
  have hdw := Compiler.dropWhile_eq_filter d _ hr hp hb
  refine ⟨?_, ?_, ?_⟩
  · show (c.localStack.scopeDepth + 4294967295) % 4294967296 = d
    exact hdepth
  · show (Compiler.endScopeLoop ((c.localStack.scopeDepth + 4294967295) % 4294967296)
        c.localStack.locals.reverse c).1.reverse = _
    rw [hdepth, Compiler.endScopeLoop_fst, hdw, List.filter_reverse, List.reverse_reverse]
  · show (Compiler.endScopeLoop ((c.localStack.scopeDepth + 4294967295) % 4294967296)
        c.localStack.locals.reverse c).2.currentChunk.data = _
    have hlen := List.length_eq_length_filter_add (l := c.localStack.locals.reverse)
      (fun l => decide (l.depth ≤ (d : Int)))
    have hneg : (c.localStack.locals.reverse.filter
          (fun l => !decide (l.depth ≤ (d : Int)))).length
        = (c.localStack.locals.filter (fun l => decide ((d : Int) < l.depth))).length := by
      have hf : c.localStack.locals.filter (fun l => !decide (l.depth ≤ (d : Int)))
          = c.localStack.locals.filter (fun l => decide ((d : Int) < l.depth)) :=
        List.filter_congr (fun x _ => by
          by_cases h : x.depth ≤ (d : Int)
          · have h2 : ¬ ((d : Int) < x.depth) := not_lt.2 h
            simp only [h, h2, decide_True, decide_False, Bool.not_true]
          · have h2 : (d : Int) < x.depth := not_le.1 h
            simp only [h, h2, decide_True, decide_False, Bool.not_false])
      rw [List.filter_reverse, List.length_reverse, hf]
    have hcount : c.localStack.locals.reverse.length
          - (c.localStack.locals.reverse.filter (fun l => decide (l.depth ≤ (d : Int)))).length
        = (c.localStack.locals.filter (fun l => decide ((d : Int) < l.depth))).length := by
      omega
    rw [hdepth, Compiler.endScopeLoop_data, hdw, hcount]

/-- Witness of C19: at the end of the inner block of `cInnerBlock` the two
locals of depth 2 are removed, the local of depth 1 stays, and two `POP` bytes
are emitted. -/
theorem endScope_removes_inner_locals_witness :
    (Compiler.endScope cInnerBlock).localStack.scopeDepth = 1
    ∧ (Compiler.endScope cInnerBlock).localStack.locals
        = [{ name := tok .T_IDENTIFIER "a", depth := 1 }]
    ∧ (Compiler.endScope cInnerBlock).currentChunk.data = [16, 16] :=
  endScope_removes_inner_locals cInnerBlock 1 (by decide) rfl (by norm_num)


/-! ### Resolving a name -/

namespace Compiler

theorem resolveLoop_none (name : Token) (L : List LocalVar) (c : Compiler)
    (h : ∀ l ∈ L, name.same l.name = false) : resolveLoop name L c = (c, -1) := by
  induction L with
  | nil => rfl
  | cons v rest ih =>
    unfold resolveLoop
    have hv := h v (List.mem_cons_self _ _)
    rw [if_neg (by simp [hv])]
    exact ih (fun l hl => h l (List.mem_cons_of_mem _ hl))

theorem resolveLoop_found (name : Token) (L : List LocalVar) (c : Compiler)
    (h : ¬ ∀ l ∈ L, name.same l.name = false) :
    ∃ l, L.reverse[((resolveLoop name L c).2).toNat]? = some l
      ∧ (resolveLoop name L c).2 ≠ -1
      ∧ (resolveLoop name L c).1
          = if l.depth = -1 then
              handleErrorAtCurrentToken c
                "Unable to read local variable in its own initializer."
            else c := by
  induction L with
  | nil => exact absurd (fun l hl => by cases hl) h
  | cons v rest ih =>
    unfold resolveLoop
    by_cases hsame : name.same v.name = true
    · rw [if_pos hsame]
      refine ⟨v, ?_, ?_, rfl⟩
      · simp [List.getElem?_append_right]
      · simp only [ne_eq]
        omega
    · rw [if_neg hsame]
      have hrest : ¬ ∀ l ∈ rest, name.same l.name = false := by
        intro hall
        apply h
        intro l hl
        rcases List.mem_cons.1 hl with rfl | hl
        · simpa using hsame
        · exact hall l hl
      obtain ⟨l, hl, hne, hst⟩ := ih hrest
      refine ⟨l, ?_, hne, hst⟩
      obtain ⟨h0, h1, -, -⟩ := resolveLoop_spec name rest c _ rfl hne
      have hlt : ((resolveLoop name rest c).2).toNat < rest.reverse.length := by
        simp; omega
      rw [List.reverse_cons, List.getElem?_append_left hlt]
      exact hl

end Compiler

/-- C20 (as stated, refuted): in panic mode `resolveLocal` records nothing.
In `cOwnInitializerPanic` the innermost local named `x` (slot 2) has depth -1,
`resolveLocal` returns 2, and no diagnostic is written. -/
theorem resolveLocal_unreported_in_panic :
    (Compiler.resolveLocal cOwnInitializerPanic (tok .T_IDENTIFIER "x")).2 = 2
    ∧ cOwnInitializerPanic.localStack.locals[2]?
        = some { name := tok .T_IDENTIFIER "x", depth := -1 }
    ∧ (Compiler.resolveLocal cOwnInitializerPanic (tok .T_IDENTIFIER "x")).1.stderr
        = cOwnInitializerPanic.stderr := by
  decide!

/-- C20 (amended): `resolveLocal` returns -1, and changes nothing, when no local
has the name; otherwise it returns the greatest index `i` whose local has the
name, and it records "Unable to read local variable in its own initializer."
(at the current token) exactly when that local has depth -1 and the compiler
is not in panic mode. -/
theorem resolveLocal_innermost (c : Compiler) (name : Token) :
    ((∀ l ∈ c.localStack.locals, name.same l.name = false) →
      Compiler.resolveLocal c name = (c, -1))
    ∧ ((¬ ∀ l ∈ c.localStack.locals, name.same l.name = false) →
      ∃ (i : Nat) (l : LocalVar),
        (Compiler.resolveLocal c name).2 = (i : Int)
        ∧ c.localStack.locals[i]? = some l
        ∧ name.same l.name = true
        ∧ (∀ (j : Nat) (l1 : LocalVar), i < j → c.localStack.locals[j]? = some l1 →
            name.same l1.name = false)
        ∧ (Compiler.resolveLocal c name).1.stderr
            = (if l.depth = -1 ∧ c.parser.panicMode = false then
                c.stderr ++ [{ token := c.parser.current, message := msgOwnInitializer }]
               else c.stderr)) := by
  refine ⟨?_, ?_⟩
  · intro h
    exact Compiler.resolveLoop_none name _ c
      (fun l hl => h l (List.mem_reverse.1 hl))
  · intro h
    have h1 : ¬ ∀ l ∈ c.localStack.locals.reverse, name.same l.name = false :=
      fun hall => h (fun l hl => hall l (List.mem_reverse.2 hl))
    obtain ⟨l, hl, hne, hst⟩ := Compiler.resolveLoop_found name _ c h1
    obtain ⟨h0, -, ⟨l2, hl2, hs2⟩, hgt⟩ :=
      Compiler.resolveLoop_spec name _ c _ rfl hne
    rw [List.reverse_reverse] at hl hl2
    rw [hl] at hl2
    cases hl2
    refine ⟨((Compiler.resolveLoop name c.localStack.locals.reverse c).2).toNat, l,
      ?_, hl, hs2, ?_, ?_⟩
    · show (Compiler.resolveLoop name c.localStack.locals.reverse c).2 = _
      omega
    · intro j l1 hj hl1
      refine hgt j l1 hj ?_
      rw [List.reverse_reverse]
      exact hl1
    · show (Compiler.resolveLoop name c.localStack.locals.reverse c).1.stderr = _
      rw [hst]
      by_cases hd : l.depth = -1
      · by_cases hpm : c.parser.panicMode = true
        · simp [hd, hpm, Compiler.handleErrorAtCurrentToken, Compiler.handleErrorToken]
        · simp at hpm
          simp [hd, hpm, Compiler.handleErrorAtCurrentToken, Compiler.handleErrorToken,
            msgOwnInitializer]
      · simp [hd]

/-- Witness of C20 (amended): in `cOwnInitializer` the name `x` resolves to the
innermost local `x`, slot 2, whose depth is -1, and the error is recorded. -/
theorem resolveLocal_innermost_witness :
    ∃ (i : Nat) (l : LocalVar),
      (Compiler.resolveLocal cOwnInitializer (tok .T_IDENTIFIER "x")).2 = (i : Int)
      ∧ cOwnInitializer.localStack.locals[i]? = some l
      ∧ (tok .T_IDENTIFIER "x").same l.name = true
      ∧ (∀ (j : Nat) (l1 : LocalVar), i < j →
          cOwnInitializer.localStack.locals[j]? = some l1 →
          (tok .T_IDENTIFIER "x").same l1.name = false)
      ∧ (Compiler.resolveLocal cOwnInitializer (tok .T_IDENTIFIER "x")).1.stderr
          = (if l.depth = -1 ∧ cOwnInitializer.parser.panicMode = false then
              cOwnInitializer.stderr
                ++ [{ token := cOwnInitializer.parser.current, message := msgOwnInitializer }]
             else cOwnInitializer.stderr) :=
  (resolveLocal_innermost cOwnInitializer (tok .T_IDENTIFIER "x")).2
    (fun h => by
      have := h { name := tok .T_IDENTIFIER "x", depth := 1 } (by decide)
      revert this
      decide)


/-! ### What every routine keeps of the error state -/

namespace Compiler

/-- A property that depends only on the diagnostics written and on the two
flags of the parser, and that `handleErrorToken` keeps, is stable. -/
theorem Stable.of_flags {P : Compiler → Prop}
    (report : ∀ (c : Compiler) (t : Token) (m : String), P c → P (handleErrorToken c t m))
    (flags : ∀ (c c' : Compiler), P c → c'.stderr = c.stderr →
      c'.parser.errorFound = c.parser.errorFound →
      c'.parser.panicMode = c.parser.panicMode → P c') : Stable P := by
  refine ⟨report, fun c c' h _ hp hs => flags c c' h hs (by rw [hp]) (by rw [hp]), ?_⟩
  have hloop : ∀ (ts : List Token) (c : Compiler), P c → P (advanceLoop c ts) := by
    intro ts
    induction ts with
    | nil => intro c h; exact flags _ _ h rfl rfl rfl
    | cons t ts ih =>
      intro c h
      unfold advanceLoop
      simp only
      split
      · exact flags _ _ h rfl rfl rfl
      · exact ih _ (report _ _ _ (flags _ _ h rfl rfl rfl))
  intro c h
  exact hloop _ _ (flags _ _ h rfl rfl rfl)

theorem reports_stable (base : List Diagnostic) : Stable (Reports base) := by
  refine Stable.of_flags ?_ ?_
  · intro c t m h
    unfold handleErrorToken
    by_cases hp : c.parser.panicMode = true
    · rw [if_pos hp]; exact h
    · rw [if_neg hp]
      rcases h with ⟨hs, _⟩ | ⟨d, _, _, hpm⟩
      · exact Or.inr ⟨_, by rw [← hs], rfl, rfl⟩
      · exact absurd hpm hp
  · intro c c' h hs he hp
    rcases h with ⟨h1, h2⟩ | ⟨d, h1, h2, h3⟩
    · exact Or.inl ⟨hs.trans h1, he.trans h2⟩
    · exact Or.inr ⟨d, hs.trans h1, he.trans h2, hp.trans h3⟩

namespace Stable

variable {P : Compiler → Prop}

theorem handleError (hP : Stable P) {c : Compiler} (m : String) (h : P c) :
    P (handleErrorAtCurrentToken c m) :=
  hP.report _ _ _ h

theorem advance (hP : Stable P) {c : Compiler} (h : P c) : P (Compiler.advance c) :=
  hP.step _ h

theorem matchToken (hP : Stable P) {c : Compiler} (t : TokenType) (h : P c) :
    P (Compiler.matchToken c t).2 := by
  unfold Compiler.matchToken
  split
  · exact h
  · exact hP.advance h

theorem condMatch (hP : Stable P) {c : Compiler} (b : Bool) (t : TokenType) (h : P c) :
    P (if b = true then Compiler.matchToken c t else (false, c)).2 := by
  cases b
  · exact h
  · exact hP.matchToken t h

theorem eat (hP : Stable P) {c : Compiler} (t : TokenType) (m : String) (h : P c) :
    P (Compiler.eat c t m) := by
  unfold Compiler.eat
  split
  · exact hP.advance h
  · exact hP.handleError _ h

theorem emitByte (hP : Stable P) {c : Compiler} (b : Nat) (h : P c) :
    P (Compiler.emitByte c b) :=
  hP.frame _ _ h rfl rfl rfl

theorem emitOp (hP : Stable P) {c : Compiler} (op : OPCode) (h : P c) :
    P (Compiler.emitOp c op) :=
  hP.frame _ _ h rfl rfl rfl

theorem emitJump (hP : Stable P) {c : Compiler} (i : Nat) (h : P c) :
    P (Compiler.emitJump c i).1 :=
  hP.frame _ _ h rfl rfl rfl

theorem emitLoop (hP : Stable P) {c : Compiler} (l : Int) (h : P c) :
    P (Compiler.emitLoop c l) := by
  unfold Compiler.emitLoop
  simp only
  split
  · exact hP.emitByte _ (hP.emitByte _ (hP.handleError _ (hP.emitOp _ h)))
  · exact hP.emitByte _ (hP.emitByte _ (hP.emitOp _ h))

theorem patchJump (hP : Stable P) {c : Compiler} (o : Int) (h : P c) :
    P (Compiler.patchJump c o) := by
  unfold Compiler.patchJump
  simp only
  split
  · exact hP.frame _ _ (hP.handleError _ h) rfl rfl rfl
  · exact hP.frame _ _ h rfl rfl rfl

theorem finish (hP : Stable P) {c : Compiler} (h : P c) : P (Compiler.finish c) :=
  hP.emitOp _ h

theorem startScope (hP : Stable P) {c : Compiler} (h : P c) : P (Compiler.startScope c) :=
  hP.frame _ _ h rfl rfl rfl

theorem endScopeLoop (hP : Stable P) (d : Nat) (L : List LocalVar) :
    ∀ {c : Compiler}, P c → P (Compiler.endScopeLoop d L c).2 := by
  induction L with
  | nil => intro c h; exact h
  | cons v rest ih =>
    intro c h
    unfold Compiler.endScopeLoop
    split
    · exact ih (hP.emitOp _ h)
    · exact h

theorem endScope (hP : Stable P) {c : Compiler} (h : P c) : P (Compiler.endScope c) :=
  hP.frame _ _ (hP.endScopeLoop _ _ h) rfl rfl rfl

theorem declareLoop (hP : Stable P) (name : Token) (sd : Nat) (L : List LocalVar) :
    ∀ {c : Compiler}, P c → P (Compiler.declareLoop name sd L c) := by
  induction L with
  | nil => intro c h; exact h
  | cons v rest ih =>
    intro c h
    unfold Compiler.declareLoop
    split
    · exact h
    · split
      · exact ih (hP.handleError _ h)
      · exact ih h

theorem declareVariable (hP : Stable P) {c : Compiler} (h : P c) :
    P (Compiler.declareVariable c) := by
  unfold Compiler.declareVariable
  split
  · exact h
  · exact hP.frame _ _ (hP.declareLoop _ _ _ h) rfl rfl rfl

theorem markInitialized (hP : Stable P) {c : Compiler} (h : P c) :
    P (Compiler.markInitialized c) := by
  unfold Compiler.markInitialized
  split
  · exact h
  · exact hP.frame _ _ h rfl rfl rfl

theorem defineVariable (hP : Stable P) {c : Compiler} (g : Nat) (h : P c) :
    P (Compiler.defineVariable c g) := by
  unfold Compiler.defineVariable
  split
  · exact hP.markInitialized h
  · exact hP.emitByte _ (hP.emitOp _ h)

theorem resolveLoop (hP : Stable P) (name : Token) (L : List LocalVar) :
    ∀ {c : Compiler}, P c → P (Compiler.resolveLoop name L c).1 := by
  induction L with
  | nil => intro c h; exact h
  | cons v rest ih =>
    intro c h
    unfold Compiler.resolveLoop
    split
    · simp only
      split
      · exact hP.handleError _ h
      · exact h
    · exact ih h

theorem resolveLocal (hP : Stable P) {c : Compiler} (name : Token) (h : P c) :
    P (Compiler.resolveLocal c name).1 :=
  hP.resolveLoop _ _ h

theorem literalType (hP : Stable P) {c : Compiler} (b : Bool) (h : P c) :
    P (Compiler.literalType c b) := by
  unfold Compiler.literalType
  split <;> first | exact hP.emitOp _ h | exact h

theorem unaryEmit (hP : Stable P) {c : Compiler} (t : TokenType) (h : P c) :
    P (Compiler.unaryEmit c t) := by
  unfold Compiler.unaryEmit
  split <;> first | exact hP.emitOp _ h | exact h

theorem binaryEmit (hP : Stable P) {c : Compiler} (t : TokenType) (h : P c) :
    P (Compiler.binaryEmit c t) := by
  unfold Compiler.binaryEmit
  split <;> first | exact hP.emitOp _ (hP.emitOp _ h) | exact hP.emitOp _ h | exact h

theorem emitConstant (hP : Stable P) {c c' : Compiler} {v : Value} (h : P c)
    (he : Compiler.emitConstant c v = .ok c') : P c' := by
  unfold Compiler.emitConstant at he
  simp only at he
  split at he
  · cases he
  · cases he
    exact hP.frame _ _ h rfl rfl rfl

theorem identifierConstant (hP : Stable P) {c : Compiler} {name : Token} {r : Compiler × Nat}
    (h : P c) (he : Compiler.identifierConstant c name = .ok r) : P r.1 := by
  unfold Compiler.identifierConstant at he
  split at he
  · cases he
  · cases he
    exact hP.frame _ _ h rfl rfl rfl

theorem parseVariable (hP : Stable P) {c : Compiler} {m : String} {r : Compiler × Nat}
    (h : P c) (he : Compiler.parseVariable c m = .ok r) : P r.1 := by
  unfold Compiler.parseVariable at he
  simp only at he
  split at he
  · cases he
    exact hP.declareVariable (hP.eat _ _ h)
  · exact hP.identifierConstant (hP.declareVariable (hP.eat _ _ h)) he

end Stable

end Compiler


namespace Compiler

namespace Stable

variable {P : Compiler → Prop}

theorem variableDeclaration (hP : Stable P) {call : Call}
    (hc : ∀ r c c', P c → call r c = .ok c' → P c') {c c' : Compiler} (h0 : P c)
    (h : Compiler.variableDeclaration call c = .ok c') : P c' := by
  unfold Compiler.variableDeclaration at h
  rw [bind_eq_ok] at h
  obtain ⟨⟨c1, gv⟩, h1, h⟩ := h
  simp only [bind_eq_ok, pure_eq_ok] at h
  obtain ⟨c2, h2, rfl⟩ := h
  have p1 : P c1 := hP.parseVariable h0 h1
  have p2 : P c2 := by
    split at h2
    · exact hc _ _ _ (hP.matchToken _ p1) h2
    · rw [pure_eq_ok] at h2; subst h2
      exact hP.emitOp _ (hP.matchToken _ p1)
  exact hP.defineVariable _ (hP.eat _ _ p2)

theorem statement (hP : Stable P) {call : Call}
    (hc : ∀ r c c', P c → call r c = .ok c' → P c') {c c' : Compiler} (h0 : P c)
    (h : Compiler.statement call c = .ok c') : P c' := by
  unfold Compiler.statement at h
  simp only at h
  have p1 := hP.matchToken .T_PRINT h0
  have p2 := hP.matchToken .T_IF p1
  have p3 := hP.matchToken .T_WHILE p2
  have p4 := hP.matchToken .T_FOR p3
  have p5 := hP.matchToken .T_LEFT_BRACES p4
  split at h
  · exact hc _ _ _ p1 h
  · split at h
    · exact hc _ _ _ p2 h
    · split at h
      · exact hc _ _ _ p3 h
      · split at h
        · exact hc _ _ _ p4 h
        · split at h
          · simp only [bind_eq_ok, pure_eq_ok] at h
            obtain ⟨c1, h1, rfl⟩ := h
            exact hP.endScope (hc _ _ _ (hP.startScope p5) h1)
          · exact hc _ _ _ p5 h

theorem statementIf (hP : Stable P) {call : Call}
    (hc : ∀ r c c', P c → call r c = .ok c' → P c') {c c' : Compiler} (h0 : P c)
    (h : Compiler.statementIf call c = .ok c') : P c' := by
  unfold Compiler.statementIf at h
  simp only [bind_eq_ok] at h
  obtain ⟨c2, h2, c6, h6, h⟩ := h
  have p2 : P c2 := hc _ _ _ (hP.eat _ _ h0) h2
  have p6 : P c6 := hc _ _ _ (hP.emitOp _ (hP.emitJump _ (hP.eat _ _ p2))) h6
  have p9 := hP.matchToken .T_ELSE
    (hP.emitOp .OP_POP_BACK (hP.patchJump
      (Compiler.emitJump (Compiler.eat c2 TokenType.T_RIGHT_PARENTHESIS "Expected a ')'")
        OPCode.OP_JUMP_IF_FALSE.toByte).2
      (hP.emitJump OPCode.OP_JUMP.toByte p6)))
  split at h
  · simp only [bind_eq_ok, pure_eq_ok] at h
    obtain ⟨y, hy, rfl⟩ := h
    exact hP.patchJump _ (hc _ _ _ p9 hy)
  · simp only [bind_eq_ok, pure_eq_ok] at h
    obtain ⟨y, rfl, rfl⟩ := h
    exact hP.patchJump _ p9

theorem statementWhile (hP : Stable P) {call : Call}
    (hc : ∀ r c c', P c → call r c = .ok c' → P c') {c c' : Compiler} (h0 : P c)
    (h : Compiler.statementWhile call c = .ok c') : P c' := by
  simp only [Compiler.statementWhile, bind_eq_ok, pure_eq_ok] at h
  obtain ⟨c2, h2, c6, h6, rfl⟩ := h
  have p2 : P c2 := hc _ _ _ (hP.eat _ _ h0) h2
  have p6 : P c6 := hc _ _ _ (hP.emitOp _ (hP.emitJump _ (hP.eat _ _ p2))) h6
  exact hP.emitOp _ (hP.patchJump _ (hP.emitLoop _ p6))

theorem statementFor (hP : Stable P) {call : Call}
    (hc : ∀ r c c', P c → call r c = .ok c' → P c') {c c' : Compiler} (h0 : P c)
    (h : Compiler.statementFor call c = .ok c') : P c' := by
  unfold Compiler.statementFor at h
  simp only [bind_eq_ok, pure_eq_ok] at h
  obtain ⟨c2, h2, ⟨c3, exit⟩, h3, ⟨c4, loopStart⟩, h4, c5, h5, rfl⟩ := h
  simp only at h3 h4 h5 ⊢
  have p1 := hP.matchToken .T_SEMICOLON (hP.eat .T_LEFT_PARENTHESIS "Expected a '('"
    (hP.startScope h0))
  have p2 : P c2 := by
    split at h2
    · rw [pure_eq_ok] at h2; subst h2; exact p1
    · split at h2
      · exact hc _ _ _ (hP.matchToken _ p1) h2
      · exact hc _ _ _ (hP.matchToken _ p1) h2
  have p3 : P c3 := by
    split at h3
    · simp only [bind_eq_ok, pure_eq_ok, Prod.mk.injEq] at h3
      obtain ⟨d1, hd1, rfl, _⟩ := h3
      exact hP.emitOp _ (hP.emitJump _ (hP.eat _ _ (hc _ _ _ (hP.matchToken _ p2) hd1)))
    · simp only [pure_eq_ok, Prod.mk.injEq] at h3
      obtain ⟨rfl, _⟩ := h3
      exact hP.matchToken _ p2
  have p4 : P c4 := by
    split at h4
    · simp only [bind_eq_ok, pure_eq_ok, Prod.mk.injEq] at h4
      obtain ⟨d2, hd2, rfl, _⟩ := h4
      exact hP.patchJump _ (hP.emitLoop _ (hP.eat _ _ (hP.emitOp _
        (hc _ _ _ (hP.emitJump _ (hP.matchToken _ p3)) hd2))))
    · simp only [pure_eq_ok, Prod.mk.injEq] at h4
      obtain ⟨rfl, _⟩ := h4
      exact hP.matchToken _ p3
  have p5 : P c5 := hc _ _ _ p4 h5
  split
  · exact hP.endScope (hP.emitOp _ (hP.patchJump _ (hP.emitLoop _ p5)))
  · exact hP.endScope (hP.emitLoop _ p5)

theorem namedVariable (hP : Stable P) {call : Call}
    (hc : ∀ r c c', P c → call r c = .ok c' → P c') {name : Token} {canAssign : Bool}
    {c c' : Compiler} (h0 : P c)
    (h : Compiler.namedVariable call name canAssign c = .ok c') : P c' := by
  simp only [Compiler.namedVariable, bind_eq_ok] at h
  obtain ⟨y, hy, h⟩ := h
  have py : P y.1 := by
    split at hy
    · rw [pure_eq_ok] at hy; subst hy
      exact hP.resolveLocal _ h0
    · simp only [bind_eq_ok, pure_eq_ok] at hy
      obtain ⟨d, hd, rfl⟩ := hy
      exact hP.identifierConstant (hP.resolveLocal _ h0) hd
  have pm := hP.condMatch canAssign .T_EQUAL py
  generalize hm : (if canAssign = true then Compiler.matchToken y.1 TokenType.T_EQUAL
    else (false, y.1)) = m at h pm
  split at h
  · simp only [bind_eq_ok, pure_eq_ok] at h
    obtain ⟨c3, h3, rfl⟩ := h
    exact hP.emitByte _ (hP.emitOp _ (hc _ _ _ pm h3))
  · rw [pure_eq_ok] at h; subst h
    exact hP.emitByte _ (hP.emitOp _ pm)

theorem infixLoop (hP : Stable P) {call : Call}
    (hc : ∀ r c c', P c → call r c = .ok c' → P c') {precedence : Precedence}
    {canAssign : Bool} {c c' : Compiler} (h0 : P c)
    (h : Compiler.infixLoop call precedence canAssign c = .ok c') : P c' := by
  simp only [Compiler.infixLoop] at h
  split at h
  · split at h
    · cases h
    · rw [bind_eq_ok] at h
      obtain ⟨c2, h2, h3⟩ := h
      exact hc _ _ _ (hc _ _ _ (hP.advance h0) h2) h3
  · rw [pure_eq_ok] at h; subst h; exact h0

theorem parsePrecedence (hP : Stable P) {call : Call}
    (hc : ∀ r c c', P c → call r c = .ok c' → P c') {precedence : Precedence}
    {c c' : Compiler} (h1 : P (Compiler.advance c))
    (h : Compiler.parsePrecedence call precedence c = .ok c') : P c' := by
  simp only [Compiler.parsePrecedence] at h
  split at h
  · rw [pure_eq_ok] at h; subst h
    exact hP.handleError _ h1
  · simp only [bind_eq_ok] at h
    obtain ⟨c2, h2, c3, h3, h⟩ := h
    have p3 : P c3 := hc _ _ _ (hc _ _ _ h1 h2) h3
    have pm := hP.condMatch (decide (precedence ≤ P_ASSIGNMENT)) .T_EQUAL p3
    generalize hm : (if decide (precedence ≤ P_ASSIGNMENT) = true then
        Compiler.matchToken c3 TokenType.T_EQUAL else (false, c3)) = m at h pm
    split at h
    · rw [pure_eq_ok] at h; subst h; exact hP.handleError _ pm
    · rw [pure_eq_ok] at h; subst h; exact pm

theorem invoke (hP : Stable P) {call : Call}
    (hc : ∀ r c c', P c → call r c = .ok c' → P c') (fn : ParseFn) (argument : Bool)
    {c c' : Compiler} (h0 : P c)
    (h : Compiler.invoke call fn argument c = .ok c') : P c' := by
  unfold Compiler.invoke at h
  cases fn <;> simp only at h
  · exact hc _ _ _ h0 h
  · exact hc _ _ _ h0 h
  · exact hc _ _ _ h0 h
  · exact hc _ _ _ h0 h
  · exact hP.emitConstant h0 h
  · exact hP.emitConstant h0 h
  · rw [pure_eq_ok] at h; subst h; exact hP.literalType _ h0
  · exact hc _ _ _ h0 h
  · exact hc _ _ _ h0 h

/-- Every routine keeps a stable property. -/
theorem exec (hP : Stable P) (n : Nat) :
    ∀ (r : Routine) (c c' : Compiler), P c → Compiler.exec n r c = .ok c' → P c' := by
  induction n with
  | zero => intro r c c' _ h; cases h
  | succ n ih =>
    intro r c c' h0 h
    cases r
    · -- declaration
      simp only [Compiler.exec, dispatch, declaration] at h
      split at h
      · exact ih _ _ _ (hP.matchToken _ h0) h
      · exact ih _ _ _ (hP.matchToken _ h0) h
    · exact hP.variableDeclaration ih h0 h
    · exact hP.statement ih h0 h
    · -- expression
      exact ih _ _ _ h0 h
    · -- grouping
      simp only [Compiler.exec, dispatch, grouping, bind_eq_ok, pure_eq_ok] at h
      obtain ⟨c1, h1, rfl⟩ := h
      exact hP.eat _ _ (ih _ _ _ h0 h1)
    · -- scopeBlock
      simp only [Compiler.exec, dispatch, scopeBlock] at h
      split at h
      · rw [bind_eq_ok] at h
        obtain ⟨c1, h1, h2⟩ := h
        exact ih _ _ _ (ih _ _ _ h0 h1) h2
      · rw [pure_eq_ok] at h; subst h
        exact hP.eat _ _ h0
    · -- statementExpression
      simp only [Compiler.exec, dispatch, statementExpression, bind_eq_ok, pure_eq_ok] at h
      obtain ⟨c1, h1, rfl⟩ := h
      exact hP.emitOp _ (hP.eat _ _ (ih _ _ _ h0 h1))
    · -- statementPrint
      simp only [Compiler.exec, dispatch, statementPrint, bind_eq_ok, pure_eq_ok] at h
      obtain ⟨c1, h1, rfl⟩ := h
      exact hP.emitOp _ (hP.eat _ _ (hP.eat _ _ (ih _ _ _ (hP.eat _ _ h0) h1)))
    · exact hP.statementIf ih h0 h
    · exact hP.statementWhile ih h0 h
    · exact hP.statementFor ih h0 h
    · -- unary
      simp only [Compiler.exec, dispatch, unary, bind_eq_ok, pure_eq_ok] at h
      obtain ⟨c1, h1, rfl⟩ := h
      exact hP.unaryEmit _ (ih _ _ _ h0 h1)
    · -- binary
      simp only [Compiler.exec, dispatch, binary, bind_eq_ok, pure_eq_ok] at h
      obtain ⟨c1, h1, rfl⟩ := h
      exact hP.binaryEmit _ (ih _ _ _ h0 h1)
    · -- andRule
      simp only [Compiler.exec, dispatch, andRule, bind_eq_ok, pure_eq_ok] at h
      obtain ⟨c1, h1, rfl⟩ := h
      exact hP.patchJump _ (ih _ _ _ (hP.emitOp _ (hP.emitJump _ h0)) h1)
    · -- orRule
      simp only [Compiler.exec, dispatch, orRule, bind_eq_ok, pure_eq_ok] at h
      obtain ⟨c1, h1, rfl⟩ := h
      exact hP.patchJump _
        (ih _ _ _ (hP.emitOp _ (hP.patchJump _ (hP.emitJump _ (hP.emitJump _ h0)))) h1)
    · -- variableFn
      exact ih _ _ _ h0 h
    · exact hP.namedVariable ih h0 h
    · rename_i fn argument
      exact hP.invoke ih fn argument h0 h
    · exact hP.infixLoop ih h0 h
    · exact hP.parsePrecedence ih (hP.advance h0) h

theorem compileLoop (hP : Stable P) (n : Nat) :
    ∀ (c c' : Compiler), P c → Compiler.compileLoop n c = .ok c' → P c' := by
  induction n with
  | zero => intro c c' _ h; cases h
  | succ n ih =>
    intro c c' h0 h
    unfold Compiler.compileLoop at h
    simp only at h
    split at h
    · rw [pure_eq_ok] at h; subst h
      exact hP.matchToken _ h0
    · rw [bind_eq_ok] at h
      obtain ⟨c1, h1, h2⟩ := h
      exact ih _ _ (hP.exec n _ _ _ (hP.matchToken _ h0) h1) h2

end Stable

/-- What `compile` reports: on return, either nothing has been added to the
diagnostics and the result is true, or exactly one diagnostic has been added,
panic mode is set and the result is false. -/
theorem compile_reports (fuel : Nat) (c : Compiler) (source : List Token) (chunk : Chunk)
    (r : Bool × Compiler) (h : compile fuel c source chunk = .ok r) :
    (r.2.stderr = c.stderr ∧ r.1 = true) ∨
    (∃ d, r.2.stderr = c.stderr ++ [d] ∧ r.1 = false ∧ r.2.parser.panicMode = true) := by
  unfold compile at h
  simp only [bind_eq_ok, pure_eq_ok] at h
  obtain ⟨c4, h4, rfl⟩ := h
  have hP := reports_stable c.stderr
  have h3 : Reports c.stderr
      (advance { lexer := source, parser := { c.parser with errorFound := false, panicMode := false },
                 currentChunk := chunk, localStack := c.localStack, stderr := c.stderr }) :=
    hP.advance (Or.inl ⟨rfl, rfl⟩)
  have h5 := hP.finish (hP.compileLoop fuel _ _ h3 h4)
  rcases h5 with ⟨hs, he⟩ | ⟨d, hs, he, hp⟩
  · exact Or.inl ⟨hs, by simp [he]⟩
  · exact Or.inr ⟨d, hs, by simp [he], hp⟩

end Compiler


/-! ### Chains of binary operators -/

namespace Compiler

theorem handleError_view (c : Compiler) (m : String) :
    (handleErrorAtCurrentToken c m).parser.current = c.parser.current
    ∧ (handleErrorAtCurrentToken c m).parser.previous = c.parser.previous
    ∧ (handleErrorAtCurrentToken c m).lexer = c.lexer := by
  unfold handleErrorAtCurrentToken handleErrorToken
  split <;> exact ⟨rfl, rfl, rfl⟩

end Compiler


namespace Compiler

end Compiler


namespace Compiler

end Compiler


namespace Compiler

end Compiler

namespace Compiler

theorem pending_advanceLoop (ts : List Token) :
    ∀ c : Compiler, (advanceLoop c ts).pending ≤ 2 * ts.length - 1 := by
  induction ts with
  | nil => intro c; simp [advanceLoop, pending, eofToken]
  | cons t ts ih =>
    intro c
    unfold advanceLoop
    simp only
    split
    · simp only [pending, List.length_cons]
      split <;> omega
    · refine le_trans (ih _) ?_
      simp only [List.length_cons]
      omega

theorem pending_advance_le (c : Compiler) : (advance c).pending ≤ c.pending := by
  have := pending_advanceLoop c.lexer
    { c with parser := { c.parser with previous := c.parser.current } }
  unfold advance
  unfold pending at this ⊢
  omega

theorem pending_advance_lt (c : Compiler) (h : c.parser.current.type ≠ .T_EOF) :
    (advance c).pending < c.pending := by
  have := pending_advanceLoop c.lexer
    { c with parser := { c.parser with previous := c.parser.current } }
  have hc : c.pending = 2 * c.lexer.length + 1 := by
    unfold pending
    rw [if_neg h]
  unfold advance
  omega

theorem pending_stable (B : Nat) : Stable (fun c => c.pending ≤ B) := by
  refine ⟨?_, ?_, ?_⟩
  · intro c t m h
    have : (handleErrorToken c t m).pending = c.pending := by
      unfold handleErrorToken
      split <;> rfl
    show (handleErrorToken c t m).pending ≤ B
    rw [this]
    exact h
  · intro c c' h hl hp _
    show c'.pending ≤ B
    have : c'.pending = c.pending := by
      unfold pending
      rw [hl, hp]
    rw [this]
    exact h
  · intro c h
    exact le_trans (pending_advance_le c) h

/-- No routine gives input back. -/
theorem exec_pending_le (n : Nat) (r : Routine) (c c' : Compiler)
    (h : exec n r c = .ok c') : c'.pending ≤ c.pending :=
  (pending_stable c.pending).exec n r c c' (le_refl _) h

theorem pending_matchToken_le (c : Compiler) (t : TokenType) :
    (matchToken c t).2.pending ≤ c.pending :=
  (pending_stable c.pending).matchToken t (le_refl _)

theorem pending_matchToken_lt (c : Compiler) (t : TokenType) (ht : t ≠ .T_EOF)
    (h : (matchToken c t).1 = true) : (matchToken c t).2.pending < c.pending := by
  unfold matchToken at h ⊢
  split
  · rename_i hc
    rw [if_pos hc] at h
    cases h
  · rename_i hc
    have hc' : c.parser.current.type = t := by
      by_contra hne
      exact hc hne
    exact pending_advance_lt c (by rw [hc']; exact ht)

theorem pending_eat_le (c : Compiler) (t : TokenType) (m : String) :
    (eat c t m).pending ≤ c.pending :=
  (pending_stable c.pending).eat t m (le_refl _)

end Compiler


namespace Compiler

theorem pending_handleError (c : Compiler) (m : String) :
    (handleErrorAtCurrentToken c m).pending = c.pending := by
  unfold handleErrorAtCurrentToken handleErrorToken
  split <;> rfl

/-- A routine that starts an expression, a statement or a declaration at a
token other than `T_EOF` consumes input. -/
theorem exec_consumes (n : Nat) :
    ∀ (r : Routine) (c c' : Compiler), r.consumes = true →
      c.parser.current.type ≠ .T_EOF → exec n r c = .ok c' → c'.pending < c.pending := by
  induction n with
  | zero => intro r c c' _ _ h; cases h
  | succ n ih =>
    intro r c c' hr hc h
    cases r <;> simp only [Routine.consumes] at hr <;> try (cases hr)
    · -- declaration
      simp only [exec, dispatch, declaration] at h
      split at h
      · rename_i hm
        exact lt_of_le_of_lt (exec_pending_le _ _ _ _ h)
          (pending_matchToken_lt c _ (by decide) hm)
      · rename_i hm
        rw [matchToken_snd_of_false c _ (by simpa using hm)] at h
        exact ih _ _ _ (by rfl) hc h
    · -- statement
      simp only [exec, dispatch, statement] at h
      split at h
      · rename_i hm
        exact lt_of_le_of_lt (exec_pending_le _ _ _ _ h)
          (pending_matchToken_lt c _ (by decide) hm)
      · rename_i hm1
        rw [matchToken_snd_of_false c _ (by simpa using hm1)] at h
        split at h
        · rename_i hm
          exact lt_of_le_of_lt (exec_pending_le _ _ _ _ h)
            (pending_matchToken_lt c _ (by decide) hm)
        · rename_i hm2
          rw [matchToken_snd_of_false c _ (by simpa using hm2)] at h
          split at h
          · rename_i hm
            exact lt_of_le_of_lt (exec_pending_le _ _ _ _ h)
              (pending_matchToken_lt c _ (by decide) hm)
          · rename_i hm3
            rw [matchToken_snd_of_false c _ (by simpa using hm3)] at h
            split at h
            · rename_i hm
              exact lt_of_le_of_lt (exec_pending_le _ _ _ _ h)
                (pending_matchToken_lt c _ (by decide) hm)
            · rename_i hm4
              rw [matchToken_snd_of_false c _ (by simpa using hm4)] at h
              split at h
              · rename_i hm
                simp only [bind_eq_ok, pure_eq_ok] at h
                obtain ⟨c1, h1, rfl⟩ := h
                have e1 := exec_pending_le _ _ _ _ h1
                have e2 : (endScope c1).pending ≤ c1.pending :=
                  (pending_stable c1.pending).endScope (le_refl _)
                have e3 : (startScope (matchToken c .T_LEFT_BRACES).2).pending
                    = (matchToken c .T_LEFT_BRACES).2.pending := rfl
                have e4 := pending_matchToken_lt c _ (by decide) hm
                omega
              · rename_i hm5
                rw [matchToken_snd_of_false c _ (by simpa using hm5)] at h
                exact ih _ _ _ (by rfl) hc h
    · -- expression
      exact ih _ _ _ (by rfl) hc h
    · -- statementExpression
      simp only [exec, dispatch, statementExpression, bind_eq_ok, pure_eq_ok] at h
      obtain ⟨c1, h1, rfl⟩ := h
      have e1 := ih _ _ _ (by rfl) hc h1
      have e2 := pending_eat_le c1 .T_SEMICOLON "Expected ';' after expression"
      have e3 : (emitOp (eat c1 .T_SEMICOLON "Expected ';' after expression")
          .OP_POP_BACK).pending
          = (eat c1 .T_SEMICOLON "Expected ';' after expression").pending := rfl
      omega
    · -- parsePrecedence
      have := (pending_stable (advance c).pending).parsePrecedence
        (fun r x y hx hxy => (pending_stable (advance c).pending).exec n r x y hx hxy)
        (le_refl _) h
      exact lt_of_le_of_lt this (pending_advance_lt c hc)

end Compiler


namespace Compiler

theorem bind_eq_fuel {α β : Type} (x : Except Fault α) (f : α → Except Fault β) :
    (x >>= f) = .error .outOfFuel ↔
      x = .error .outOfFuel ∨ ∃ a, x = .ok a ∧ f a = .error .outOfFuel := by
  cases x with
  | error e => simp [bind, Except.bind]
  | ok a => simp [bind, Except.bind]

theorem pure_ne_error {α : Type} (a : α) (e : Fault) :
    (pure a : Except Fault α) ≠ .error e := by
  intro h
  cases h

theorem push_constant_only_fuel (ch : Chunk) (v : Value) :
    ch.push_constant_only v ≠ .error .outOfFuel := by
  unfold Chunk.push_constant_only
  split <;> (intro h; cases h)

theorem push_constant_fuel (ch : Chunk) (v : Value) (line : Nat) :
    ch.push_constant v line ≠ .error .outOfFuel := by
  unfold Chunk.push_constant
  cases h : ch.push_constant_only v with
  | error e =>
    intro he
    cases he
    exact push_constant_only_fuel ch v h
  | ok ch1 => intro he; cases he

theorem emitConstant_fuel (c : Compiler) (v : Value) :
    emitConstant c v ≠ .error .outOfFuel := by
  unfold emitConstant
  simp only
  cases h : (emitOp c .OP_CONSTANT).currentChunk.push_constant v
      (emitOp c .OP_CONSTANT).parser.previous.line with
  | error e =>
    intro he
    cases he
    exact push_constant_fuel _ _ _ h
  | ok ch1 => intro he; cases he

theorem identifierConstant_fuel (c : Compiler) (name : Token) :
    identifierConstant c name ≠ .error .outOfFuel := by
  unfold identifierConstant
  cases h : c.currentChunk.push_constant_only (.str name.data) with
  | error e =>
    intro he
    cases he
    exact push_constant_only_fuel _ _ h
  | ok ch1 => intro he; cases he

theorem parseVariable_fuel (c : Compiler) (m : String) :
    parseVariable c m ≠ .error .outOfFuel := by
  unfold parseVariable
  simp only
  split
  · intro h; cases h
  · exact identifierConstant_fuel _ _

theorem advanceLoop_previous (ts : List Token) :
    ∀ c : Compiler, (advanceLoop c ts).parser.previous = c.parser.previous := by
  induction ts with
  | nil => intro c; rfl
  | cons t ts ih =>
    intro c
    unfold advanceLoop
    simp only
    split
    · rfl
    · rw [ih]
      exact (handleError_view _ _).2.1

theorem advance_previous (c : Compiler) :
    (advance c).parser.previous = c.parser.current := by
  unfold advance
  rw [advanceLoop_previous]

end Compiler


namespace Compiler

theorem parseVariable_pending (c : Compiler) (m : String) (r : Compiler × Nat)
    (h : parseVariable c m = .ok r) : r.1.pending ≤ c.pending :=
  (pending_stable c.pending).parseVariable (le_refl _) h

theorem pending_startScope (c : Compiler) : (startScope c).pending = c.pending := rfl

theorem pending_emitByte (c : Compiler) (b : Nat) : (emitByte c b).pending = c.pending := rfl

theorem pending_emitOp (c : Compiler) (op : OPCode) : (emitOp c op).pending = c.pending := rfl

theorem pending_emitJump (c : Compiler) (i : Nat) : (emitJump c i).1.pending = c.pending := rfl

theorem pending_emitLoop (c : Compiler) (l : Int) : (emitLoop c l).pending ≤ c.pending :=
  (pending_stable c.pending).emitLoop l (le_refl _)

theorem pending_patchJump (c : Compiler) (o : Int) : (patchJump c o).pending ≤ c.pending :=
  (pending_stable c.pending).patchJump o (le_refl _)

theorem declaration_fuel (n : Nat)
    (ih : ∀ (r : Routine) (c : Compiler), 6 * c.pending + r.rank + 1 ≤ n →
      exec n r c ≠ .error .outOfFuel)
    (c : Compiler) (hb : 6 * c.pending + 4 ≤ n) :
    declaration (exec n) c ≠ .error .outOfFuel := by
  unfold declaration
  simp only
  split
  · rename_i hm
    have := pending_matchToken_lt c .T_VAR (by decide) hm
    exact ih _ _ (by simp only [Routine.rank]; omega)
  · have := pending_matchToken_le c .T_VAR
    exact ih _ _ (by simp only [Routine.rank]; omega)

theorem variableDeclaration_fuel (n : Nat)
    (ih : ∀ (r : Routine) (c : Compiler), 6 * c.pending + r.rank + 1 ≤ n →
      exec n r c ≠ .error .outOfFuel)
    (c : Compiler) (hb : 6 * c.pending + 2 ≤ n) :
    variableDeclaration (exec n) c ≠ .error .outOfFuel := by
  intro h
  unfold variableDeclaration at h
  rw [bind_eq_fuel] at h
  rcases h with h | ⟨⟨c1, gv⟩, h1, h⟩
  · exact parseVariable_fuel _ _ h
  · have p1 := parseVariable_pending _ _ _ h1
    simp only [bind_eq_fuel] at h
    rcases h with h | ⟨c2, h2, h⟩
    · split at h
      · rename_i hm
        have := pending_matchToken_lt c1 .T_EQUAL (by decide) hm
        exact ih _ _ (by simp only [Routine.rank]; simp only at p1; omega) h
      · exact pure_ne_error _ _ h
    · exact pure_ne_error _ _ h

theorem statement_fuel (n : Nat)
    (ih : ∀ (r : Routine) (c : Compiler), 6 * c.pending + r.rank + 1 ≤ n →
      exec n r c ≠ .error .outOfFuel)
    (c : Compiler) (hb : 6 * c.pending + 3 ≤ n) :
    statement (exec n) c ≠ .error .outOfFuel := by
  intro h
  unfold statement at h
  simp only at h
  have q1 := pending_matchToken_le c .T_PRINT
  have q2 := pending_matchToken_le (matchToken c .T_PRINT).2 .T_IF
  have q3 := pending_matchToken_le (matchToken (matchToken c .T_PRINT).2 .T_IF).2 .T_WHILE
  have q4 := pending_matchToken_le
    (matchToken (matchToken (matchToken c .T_PRINT).2 .T_IF).2 .T_WHILE).2 .T_FOR
  have q5 := pending_matchToken_le
    (matchToken (matchToken (matchToken (matchToken c .T_PRINT).2 .T_IF).2 .T_WHILE).2
      .T_FOR).2 .T_LEFT_BRACES
  split at h
  · rename_i hm
    have := pending_matchToken_lt _ _ (by decide) hm
    exact ih _ _ (by simp only [Routine.rank]; omega) h
  · split at h
    · rename_i hm
      have := pending_matchToken_lt _ _ (by decide) hm
      exact ih _ _ (by simp only [Routine.rank]; omega) h
    · split at h
      · rename_i hm
        have := pending_matchToken_lt _ _ (by decide) hm
        exact ih _ _ (by simp only [Routine.rank]; omega) h
      · split at h
        · rename_i hm
          have := pending_matchToken_lt _ _ (by decide) hm
          exact ih _ _ (by simp only [Routine.rank]; omega) h
        · split at h
          · rename_i hm
            have := pending_matchToken_lt _ _ (by decide) hm
            simp only [bind_eq_fuel] at h
            rcases h with h | ⟨c1, _, h⟩
            · exact ih _ _ (by simp only [Routine.rank, pending_startScope]; omega) h
            · exact pure_ne_error _ _ h
          · exact ih _ _ (by simp only [Routine.rank]; omega) h

end Compiler


namespace Compiler

theorem statementIf_fuel (n : Nat)
    (ih : ∀ (r : Routine) (c : Compiler), 6 * c.pending + r.rank + 1 ≤ n →
      exec n r c ≠ .error .outOfFuel)
    (c : Compiler) (hb : 6 * c.pending + 4 ≤ n) :
    statementIf (exec n) c ≠ .error .outOfFuel := by
  intro h
  unfold statementIf at h
  simp only [bind_eq_fuel] at h
  have p1 := pending_eat_le c .T_LEFT_PARENTHESIS "Expected a '('"
  rcases h with h | ⟨c2, h2, h⟩
  · exact ih _ _ (by simp only [Routine.rank]; omega) h
  · have p2 := exec_pending_le _ _ _ _ h2
    have p3 := pending_eat_le c2 .T_RIGHT_PARENTHESIS "Expected a ')'"
    rcases h with h | ⟨c6, h6, h⟩
    · exact ih _ _
        (by simp only [Routine.rank, pending_emitOp, pending_emitJump]; omega) h
    · have p6 := exec_pending_le _ _ _ _ h6
      simp only [pending_emitOp, pending_emitJump] at p6
      rcases h with h | ⟨c10, _, h⟩
      · split at h
        · have p7 := pending_patchJump (emitJump c6 OPCode.OP_JUMP.toByte).1
            (emitJump (eat c2 TokenType.T_RIGHT_PARENTHESIS "Expected a ')'")
              OPCode.OP_JUMP_IF_FALSE.toByte).2
          have p8 := pending_matchToken_le
            (emitOp (patchJump (emitJump c6 OPCode.OP_JUMP.toByte).1
              (emitJump (eat c2 TokenType.T_RIGHT_PARENTHESIS "Expected a ')'")
                OPCode.OP_JUMP_IF_FALSE.toByte).2) .OP_POP_BACK) .T_ELSE
          simp only [pending_emitOp, pending_emitJump] at p7 p8
          exact ih _ _ (by simp only [Routine.rank]; omega) h
        · exact pure_ne_error _ _ h
      · exact pure_ne_error _ _ h

theorem statementWhile_fuel (n : Nat)
    (ih : ∀ (r : Routine) (c : Compiler), 6 * c.pending + r.rank + 1 ≤ n →
      exec n r c ≠ .error .outOfFuel)
    (c : Compiler) (hb : 6 * c.pending + 4 ≤ n) :
    statementWhile (exec n) c ≠ .error .outOfFuel := by
  intro h
  unfold statementWhile at h
  simp only [bind_eq_fuel] at h
  have p1 := pending_eat_le c .T_LEFT_PARENTHESIS "Expected a '('"
  rcases h with h | ⟨c2, h2, h⟩
  · exact ih _ _ (by simp only [Routine.rank]; omega) h
  · have p2 := exec_pending_le _ _ _ _ h2
    have p3 := pending_eat_le c2 .T_RIGHT_PARENTHESIS "Expected a ')'"
    rcases h with h | ⟨c6, _, h⟩
    · exact ih _ _
        (by simp only [Routine.rank, pending_emitOp, pending_emitJump]; omega) h
    · exact pure_ne_error _ _ h

theorem scopeBlock_fuel (n : Nat)
    (ih : ∀ (r : Routine) (c : Compiler), 6 * c.pending + r.rank + 1 ≤ n →
      exec n r c ≠ .error .outOfFuel)
    (c : Compiler) (hb : 6 * c.pending + 5 ≤ n) :
    scopeBlock (exec n) c ≠ .error .outOfFuel := by
  intro h
  unfold scopeBlock at h
  split at h
  · rename_i hcond
    have hne : c.parser.current.type ≠ .T_EOF := by
      simp only [checkToken, Bool.and_eq_true, Bool.not_eq_true', decide_eq_false_iff_not]
        at hcond
      exact hcond.2
    rw [bind_eq_fuel] at h
    rcases h with h | ⟨c1, h1, h⟩
    · exact ih _ _ (by simp only [Routine.rank]; omega) h
    · have p1 := exec_consumes n _ _ _ (by rfl) hne h1
      exact ih _ _ (by simp only [Routine.rank]; omega) h
  · exact pure_ne_error _ _ h

theorem statementExpression_fuel (n : Nat)
    (ih : ∀ (r : Routine) (c : Compiler), 6 * c.pending + r.rank + 1 ≤ n →
      exec n r c ≠ .error .outOfFuel)
    (c : Compiler) (hb : 6 * c.pending + 2 ≤ n) :
    statementExpression (exec n) c ≠ .error .outOfFuel := by
  intro h
  unfold statementExpression at h
  simp only [bind_eq_fuel] at h
  rcases h with h | ⟨c1, _, h⟩
  · exact ih _ _ (by simp only [Routine.rank]; omega) h
  · exact pure_ne_error _ _ h

theorem statementPrint_fuel (n : Nat)
    (ih : ∀ (r : Routine) (c : Compiler), 6 * c.pending + r.rank + 1 ≤ n →
      exec n r c ≠ .error .outOfFuel)
    (c : Compiler) (hb : 6 * c.pending + 2 ≤ n) :
    statementPrint (exec n) c ≠ .error .outOfFuel := by
  intro h
  unfold statementPrint at h
  simp only [bind_eq_fuel] at h
  have p1 := pending_eat_le c .T_LEFT_PARENTHESIS "Expected a '('"
  rcases h with h | ⟨c1, _, h⟩
  · exact ih _ _ (by simp only [Routine.rank]; omega) h
  · exact pure_ne_error _ _ h

theorem grouping_fuel (n : Nat)
    (ih : ∀ (r : Routine) (c : Compiler), 6 * c.pending + r.rank + 1 ≤ n →
      exec n r c ≠ .error .outOfFuel)
    (c : Compiler) (hb : 6 * c.pending + 2 ≤ n) :
    grouping (exec n) c ≠ .error .outOfFuel := by
  intro h
  unfold grouping at h
  simp only [bind_eq_fuel] at h
  rcases h with h | ⟨c1, _, h⟩
  · exact ih _ _ (by simp only [Routine.rank]; omega) h
  · exact pure_ne_error _ _ h

theorem unary_fuel (n : Nat)
    (ih : ∀ (r : Routine) (c : Compiler), 6 * c.pending + r.rank + 1 ≤ n →
      exec n r c ≠ .error .outOfFuel)
    (b : Bool) (c : Compiler) (hb : 6 * c.pending + 1 ≤ n) :
    unary (exec n) b c ≠ .error .outOfFuel := by
  intro h
  unfold unary at h
  simp only [bind_eq_fuel] at h
  rcases h with h | ⟨c1, _, h⟩
  · exact ih _ _ (by simp only [Routine.rank]; omega) h
  · exact pure_ne_error _ _ h

theorem binary_fuel (n : Nat)
    (ih : ∀ (r : Routine) (c : Compiler), 6 * c.pending + r.rank + 1 ≤ n →
      exec n r c ≠ .error .outOfFuel)
    (b : Bool) (c : Compiler) (hb : 6 * c.pending + 1 ≤ n) :
    binary (exec n) b c ≠ .error .outOfFuel := by
  intro h
  unfold binary at h
  simp only [bind_eq_fuel] at h
  rcases h with h | ⟨c1, _, h⟩
  · exact ih _ _ (by simp only [Routine.rank]; omega) h
  · exact pure_ne_error _ _ h

theorem andRule_fuel (n : Nat)
    (ih : ∀ (r : Routine) (c : Compiler), 6 * c.pending + r.rank + 1 ≤ n →
      exec n r c ≠ .error .outOfFuel)
    (b : Bool) (c : Compiler) (hb : 6 * c.pending + 1 ≤ n) :
    andRule (exec n) b c ≠ .error .outOfFuel := by
  intro h
  unfold andRule at h
  simp only [bind_eq_fuel] at h
  rcases h with h | ⟨c1, _, h⟩
  · exact ih _ _
      (by simp only [Routine.rank, pending_emitOp, pending_emitJump]; omega) h
  · exact pure_ne_error _ _ h

theorem orRule_fuel (n : Nat)
    (ih : ∀ (r : Routine) (c : Compiler), 6 * c.pending + r.rank + 1 ≤ n →
      exec n r c ≠ .error .outOfFuel)
    (b : Bool) (c : Compiler) (hb : 6 * c.pending + 1 ≤ n) :
    orRule (exec n) b c ≠ .error .outOfFuel := by
  intro h
  unfold orRule at h
  simp only [bind_eq_fuel] at h
  rcases h with h | ⟨c1, _, h⟩
  · have p := pending_patchJump
      (emitJump (emitJump c OPCode.OP_JUMP_IF_FALSE.toByte).1 OPCode.OP_JUMP.toByte).1
      (emitJump c OPCode.OP_JUMP_IF_FALSE.toByte).2
    simp only [pending_emitJump] at p
    exact ih _ _ (by simp only [Routine.rank, pending_emitOp]; omega) h
  · exact pure_ne_error _ _ h

end Compiler


namespace Compiler

theorem statementFor_fuel (n : Nat)
    (ih : ∀ (r : Routine) (c : Compiler), 6 * c.pending + r.rank + 1 ≤ n →
      exec n r c ≠ .error .outOfFuel)
    (c : Compiler) (hb : 6 * c.pending + 4 ≤ n) :
    statementFor (exec n) c ≠ .error .outOfFuel := by
  intro h
  unfold statementFor at h
  simp only [bind_eq_fuel] at h
  have hP := pending_stable c.pending
  have p1 : (matchToken (eat (startScope c) .T_LEFT_PARENTHESIS "Expected a '('")
      .T_SEMICOLON).2.pending ≤ c.pending :=
    hP.matchToken _ (hP.eat _ _ (hP.startScope (le_refl _)))
  rcases h with h | ⟨c2, h2, h⟩
  · -- the initializer clause
    split at h
    · exact pure_ne_error _ _ h
    · have q := pending_matchToken_le
        (matchToken (eat (startScope c) .T_LEFT_PARENTHESIS "Expected a '('")
          .T_SEMICOLON).2 .T_VAR
      split at h
      · exact ih _ _ (by simp only [Routine.rank]; omega) h
      · exact ih _ _ (by simp only [Routine.rank]; omega) h
  · have p2 : c2.pending ≤ c.pending := by
      split at h2
      · rw [pure_eq_ok] at h2; subst h2; exact p1
      · split at h2
        · exact hP.exec n _ _ _ (hP.matchToken _ p1) h2
        · exact hP.exec n _ _ _ (hP.matchToken _ p1) h2
    rcases h with h | ⟨⟨c3, exit⟩, h3, h⟩
    · -- the condition clause
      split at h
      · simp only [bind_eq_fuel] at h
        rcases h with h | ⟨d1, _, h⟩
        · have q := pending_matchToken_le c2 .T_SEMICOLON
          exact ih _ _ (by simp only [Routine.rank]; omega) h
        · exact pure_ne_error _ _ h
      · exact pure_ne_error _ _ h
    · have p3 : c3.pending ≤ c.pending := by
        split at h3
        · simp only [bind_eq_ok, pure_eq_ok, Prod.mk.injEq] at h3
          obtain ⟨d1, hd1, rfl, _⟩ := h3
          exact hP.emitOp _ (hP.emitJump _ (hP.eat _ _
            (hP.exec n _ _ _ (hP.matchToken _ p2) hd1)))
        · simp only [pure_eq_ok, Prod.mk.injEq] at h3
          obtain ⟨rfl, _⟩ := h3
          exact hP.matchToken _ p2
      simp only at h
      rcases h with h | ⟨⟨c4, loopStart⟩, h4, h⟩
      · -- the increment clause
        split at h
        · simp only [bind_eq_fuel] at h
          rcases h with h | ⟨d2, _, h⟩
          · have q := pending_matchToken_le c3 .T_RIGHT_PARENTHESIS
            exact ih _ _ (by simp only [Routine.rank, pending_emitJump]; omega) h
          · exact pure_ne_error _ _ h
        · exact pure_ne_error _ _ h
      · have p4 : c4.pending ≤ c.pending := by
          split at h4
          · simp only [bind_eq_ok, pure_eq_ok, Prod.mk.injEq] at h4
            obtain ⟨d2, hd2, rfl, _⟩ := h4
            exact hP.patchJump _ (hP.emitLoop _ (hP.eat _ _ (hP.emitOp _
              (hP.exec n _ _ _ (hP.emitJump _ (hP.matchToken _ p3)) hd2))))
          · simp only [pure_eq_ok, Prod.mk.injEq] at h4
            obtain ⟨rfl, _⟩ := h4
            exact hP.matchToken _ p3
        simp only at h
        rcases h with h | ⟨c5, _, h⟩
        · exact ih _ _ (by simp only [Routine.rank]; omega) h
        · exact pure_ne_error _ _ h

theorem namedVariable_fuel (n : Nat)
    (ih : ∀ (r : Routine) (c : Compiler), 6 * c.pending + r.rank + 1 ≤ n →
      exec n r c ≠ .error .outOfFuel)
    (name : Token) (canAssign : Bool) (c : Compiler) (hb : 6 * c.pending ≤ n) :
    namedVariable (exec n) name canAssign c ≠ .error .outOfFuel := by
  intro h
  simp only [namedVariable, bind_eq_fuel] at h
  have hP := pending_stable c.pending
  rcases h with h | ⟨y, hy, h⟩
  · split at h
    · exact pure_ne_error _ _ h
    · rw [bind_eq_fuel] at h
      rcases h with h | ⟨d, _, h⟩
      · exact identifierConstant_fuel _ _ h
      · exact pure_ne_error _ _ h
  · have py : y.1.pending ≤ c.pending := by
      split at hy
      · rw [pure_eq_ok] at hy; subst hy
        exact hP.resolveLocal _ (le_refl _)
      · simp only [bind_eq_ok, pure_eq_ok] at hy
        obtain ⟨d, hd, rfl⟩ := hy
        exact hP.identifierConstant (hP.resolveLocal _ (le_refl _)) hd
    cases canAssign
    · simp only [Bool.false_eq_true, if_false] at h
      exact pure_ne_error _ _ h
    · simp only [if_true] at h
      split at h
      · rename_i hm
        have := pending_matchToken_lt y.1 .T_EQUAL (by decide) hm
        rw [bind_eq_fuel] at h
        rcases h with h | ⟨c3, _, h⟩
        · exact ih _ _ (by simp only [Routine.rank]; omega) h
        · exact pure_ne_error _ _ h
      · exact pure_ne_error _ _ h

theorem invoke_fuel (n : Nat)
    (ih : ∀ (r : Routine) (c : Compiler), 6 * c.pending + r.rank + 1 ≤ n →
      exec n r c ≠ .error .outOfFuel)
    (fn : ParseFn) (argument : Bool) (c : Compiler) (hb : 6 * c.pending + 3 ≤ n) :
    invoke (exec n) fn argument c ≠ .error .outOfFuel := by
  unfold invoke
  cases fn <;> simp only
  · exact ih _ _ (by simp only [Routine.rank]; omega)
  · exact ih _ _ (by simp only [Routine.rank]; omega)
  · exact ih _ _ (by simp only [Routine.rank]; omega)
  · exact ih _ _ (by simp only [Routine.rank]; omega)
  · exact emitConstant_fuel _ _
  · exact emitConstant_fuel _ _
  · exact pure_ne_error _ _
  · exact ih _ _ (by simp only [Routine.rank]; omega)
  · exact ih _ _ (by simp only [Routine.rank]; omega)

theorem rule_not_eof (t : TokenType) :
    ((getParserRule t).infixFn ≠ none ∨ (getParserRule t).prefixFn ≠ none) →
      t ≠ .T_EOF := by
  intro h ht
  subst ht
  rcases h with h | h <;> exact h rfl

theorem infixLoop_fuel (n : Nat)
    (ih : ∀ (r : Routine) (c : Compiler), 6 * c.pending + r.rank + 1 ≤ n →
      exec n r c ≠ .error .outOfFuel)
    (p : Precedence) (canAssign : Bool) (c : Compiler) (hb : 6 * c.pending ≤ n) :
    infixLoop (exec n) p canAssign c ≠ .error .outOfFuel := by
  intro h
  unfold infixLoop at h
  split at h
  · simp only at h
    split at h
    · cases h
    · rename_i fn hfn
      rw [advance_previous] at hfn
      have hne : c.parser.current.type ≠ .T_EOF :=
        rule_not_eof _ (Or.inl (by rw [hfn]; exact fun e => nomatch e))
      have p1 := pending_advance_lt c hne
      rw [bind_eq_fuel] at h
      rcases h with h | ⟨c2, h2, h⟩
      · exact ih _ _ (by simp only [Routine.rank]; omega) h
      · have p2 := exec_pending_le _ _ _ _ h2
        exact ih _ _ (by simp only [Routine.rank]; omega) h
  · exact pure_ne_error _ _ h

theorem parsePrecedence_fuel (n : Nat)
    (ih : ∀ (r : Routine) (c : Compiler), 6 * c.pending + r.rank + 1 ≤ n →
      exec n r c ≠ .error .outOfFuel)
    (p : Precedence) (c : Compiler) (hb : 6 * c.pending ≤ n) :
    parsePrecedence (exec n) p c ≠ .error .outOfFuel := by
  intro h
  simp only [parsePrecedence] at h
  split at h
  · exact pure_ne_error _ _ h
  · rename_i fn hfn
    rw [advance_previous] at hfn
    have hne : c.parser.current.type ≠ .T_EOF :=
      rule_not_eof _ (Or.inr (by rw [hfn]; exact fun e => nomatch e))
    have p1 := pending_advance_lt c hne
    simp only [bind_eq_fuel] at h
    rcases h with h | ⟨c2, h2, h⟩
    · exact ih _ _ (by simp only [Routine.rank]; omega) h
    · have p2 := exec_pending_le _ _ _ _ h2
      rcases h with h | ⟨c3, _, h⟩
      · exact ih _ _ (by simp only [Routine.rank]; omega) h
      · generalize (if decide (p ≤ P_ASSIGNMENT) = true then
            matchToken c3 TokenType.T_EQUAL else (false, c3)) = m at h
        split at h
        · exact pure_ne_error _ _ h
        · exact pure_ne_error _ _ h

/-- With fuel in proportion to the pending input, no routine runs out of fuel. -/
theorem exec_fuel (n : Nat) :
    ∀ (r : Routine) (c : Compiler), 6 * c.pending + r.rank + 1 ≤ n →
      exec n r c ≠ .error .outOfFuel := by
  induction n with
  | zero => intro r c hb; omega
  | succ n ih =>
    intro r c hb
    cases r <;> simp only [Routine.rank] at hb
    · exact declaration_fuel n ih c (by omega)
    · exact variableDeclaration_fuel n ih c (by omega)
    · exact statement_fuel n ih c (by omega)
    · exact ih _ _ (by simp only [Routine.rank]; omega)
    · exact grouping_fuel n ih c (by omega)
    · exact scopeBlock_fuel n ih c (by omega)
    · exact statementExpression_fuel n ih c (by omega)
    · exact statementPrint_fuel n ih c (by omega)
    · exact statementIf_fuel n ih c (by omega)
    · exact statementWhile_fuel n ih c (by omega)
    · exact statementFor_fuel n ih c (by omega)
    · rename_i b; exact unary_fuel n ih b c (by omega)
    · rename_i b; exact binary_fuel n ih b c (by omega)
    · rename_i b; exact andRule_fuel n ih b c (by omega)
    · rename_i b; exact orRule_fuel n ih b c (by omega)
    · exact ih _ _ (by simp only [Routine.rank]; omega)
    · exact namedVariable_fuel n ih _ _ c (by omega)
    · rename_i fn b; exact invoke_fuel n ih fn b c (by omega)
    · exact infixLoop_fuel n ih _ _ c (by omega)
    · exact parsePrecedence_fuel n ih _ c (by omega)

theorem compileLoop_fuel (n : Nat) :
    ∀ c : Compiler, 6 * c.pending + 6 ≤ n → compileLoop n c ≠ .error .outOfFuel := by
  induction n with
  | zero => intro c hb; omega
  | succ n ih =>
    intro c hb h
    unfold compileLoop at h
    simp only at h
    split at h
    · exact pure_ne_error _ _ h
    · rename_i hm
      have e : (matchToken c .T_EOF).2 = c :=
        matchToken_snd_of_false c _ (by simpa using hm)
      have hne : c.parser.current.type ≠ .T_EOF := by
        intro hc
        apply hm
        unfold matchToken
        simp [hc]
      rw [e, bind_eq_fuel] at h
      rcases h with h | ⟨c1, h1, h⟩
      · exact exec_fuel n _ _ (by simp only [Routine.rank]; omega) h
      · have p1 := exec_consumes n _ _ _ (by rfl) hne h1
        exact ih c1 (by omega) h

/-- Termination of `compile`: with fuel of `12` per token of the source plus
`6`, the model of `compile` does not run out of fuel. -/
theorem compile_fuel (fuel : Nat) (c : Compiler) (source : List Token) (chunk : Chunk)
    (hf : 12 * source.length + 6 ≤ fuel) :
    compile fuel c source chunk ≠ .error .outOfFuel := by
  intro h
  unfold compile at h
  simp only [bind_eq_fuel] at h
  rcases h with h | ⟨c4, _, h⟩
  · have key : ∀ x : Compiler, x.lexer = source → 6 * (advance x).pending + 6 ≤ fuel := by
      intro x hx
      have := pending_advanceLoop x.lexer
        { x with parser := { x.parser with previous := x.parser.current } }
      rw [hx] at this
      unfold advance
      rw [hx]
      omega
    exact compileLoop_fuel fuel _ (key _ rfl) h
  · exact pure_ne_error _ _ h

end Compiler


/-! ### The result of `compile` and the diagnostics -/

/-- C15: whatever the tokens, and whatever the error flag, the panic flag and
the diagnostics the compiler has from earlier calls: with fuel of 12 per token
plus 6 the model of `compile` does not run out of fuel, and a call that
returns yields true exactly when no diagnostic was written during the call.
The result is the negation of `errorFound`, which the call clears at entry
and which only a reported diagnostic sets. -/
theorem compile_true_iff_nothing_reported (fuel : Nat) (c : Compiler) (source : List Token)
    (chunk : Chunk) (hf : 12 * source.length + 6 ≤ fuel) :
    Compiler.compile fuel c source chunk ≠ .error .outOfFuel
    ∧ ∀ r : Bool × Compiler, Compiler.compile fuel c source chunk = .ok r →
        (r.1 = true ↔ r.2.stderr = c.stderr)
        ∧ (r.1 = !r.2.parser.errorFound)
        ∧ (∃ extra, r.2.stderr = c.stderr ++ extra) := by
  refine ⟨Compiler.compile_fuel fuel c source chunk hf, ?_⟩
  intro r h
  have hrep := Compiler.compile_reports fuel c source chunk r h
  have herr : r.1 = !r.2.parser.errorFound := by
    unfold Compiler.compile at h
    simp only [Compiler.bind_eq_ok, Compiler.pure_eq_ok] at h
    obtain ⟨c4, _, rfl⟩ := h
    rfl
  rcases hrep with ⟨hs, ht⟩ | ⟨d, hs, hfalse, _⟩
  · exact ⟨⟨fun _ => hs, fun _ => ht⟩, herr, [], by simp [hs]⟩
  · refine ⟨⟨fun ht => ?_, fun he => ?_⟩, herr, [d], hs⟩
    · rw [hfalse] at ht; cases ht
    · rw [hs] at he
      simp at he

/-- Witness of C15: the compiler that has failed on `))` compiles `1 + true;`
and returns true. -/
theorem compile_true_iff_nothing_reported_witness :
    (true = true ↔ cRecompiled.stderr = cAfterError.stderr)
    ∧ (true = !cRecompiled.parser.errorFound)
    ∧ (∃ extra, cRecompiled.stderr = cAfterError.stderr ++ extra) :=
  (compile_true_iff_nothing_reported 100 cAfterError srcOnePlusTrue Chunk.empty
    (by decide)).2 (true, cRecompiled) (by decide!)

/-- C18: with fuel of 12 per token plus 6 the model of `compile` does not run
out of fuel, and a call of `compile` that returns has written at most one
diagnostic; if it has written one, panic mode is set at the end. In panic
mode `handleErrorToken` does nothing, and every routine of the compiler, as
well as the loop of `compile`, entered in panic mode ends in panic mode with
the diagnostics as they were: panic mode stays set and every later error is
dropped. -/
theorem compile_reports_at_most_once (fuel : Nat) (c : Compiler) (source : List Token)
    (chunk : Chunk) (hf : 12 * source.length + 6 ≤ fuel) :
    Compiler.compile fuel c source chunk ≠ .error .outOfFuel
    ∧ (∀ r : Bool × Compiler, Compiler.compile fuel c source chunk = .ok r →
        (r.2.stderr = c.stderr
          ∨ ∃ d, r.2.stderr = c.stderr ++ [d] ∧ r.2.parser.panicMode = true))
    ∧ (∀ (x : Compiler) (t : Token) (m : String), x.parser.panicMode = true →
        Compiler.handleErrorToken x t m = x)
    ∧ (∀ (n : Nat) (rt : Compiler.Routine) (x y : Compiler), x.parser.panicMode = true →
        Compiler.exec n rt x = .ok y →
        y.parser.panicMode = true ∧ y.stderr = x.stderr)
    ∧ (∀ (n : Nat) (x y : Compiler), x.parser.panicMode = true →
        Compiler.compileLoop n x = .ok y →
        y.parser.panicMode = true ∧ y.stderr = x.stderr) := by
  have hpanic : ∀ S : List Diagnostic,
      Compiler.Stable (fun x => x.parser.panicMode = true ∧ x.stderr = S) := by
    intro S
    refine Compiler.Stable.of_flags ?_ ?_
    · intro x t m hx
      unfold Compiler.handleErrorToken
      rw [if_pos hx.1]
      exact hx
    · intro x y hx hs _ hp
      exact ⟨hp.trans hx.1, hs.trans hx.2⟩
  refine ⟨Compiler.compile_fuel fuel c source chunk hf, ?_, ?_, ?_, ?_⟩
  · intro r h
    rcases Compiler.compile_reports fuel c source chunk r h with ⟨hs, _⟩ | ⟨d, hs, _, hp⟩
    · exact Or.inl hs
    · exact Or.inr ⟨d, hs, hp⟩
  · intro x t m hx
    unfold Compiler.handleErrorToken
    rw [if_pos hx]
  · intro n rt x y hx hxy
    exact (hpanic x.stderr).exec n rt x y ⟨hx, rfl⟩ hxy
  · intro n x y hx hxy
    exact (hpanic x.stderr).compileLoop n x y ⟨hx, rfl⟩ hxy

/-- Witness of C18: `))` holds several errors (no expression at either `)`, no
`;` after either) and `compile` writes one diagnostic. -/
theorem compile_reports_at_most_once_witness :
    cAfterError.stderr = Compiler.new.stderr
      ∨ ∃ d, cAfterError.stderr = Compiler.new.stderr ++ [d]
          ∧ cAfterError.parser.panicMode = true :=
  (compile_reports_at_most_once 100 Compiler.new srcTwoParens Chunk.empty
    (by decide)).2.1 (false, cAfterError) (by decide!)


/-! ### Equality and comparison -/

/-- C21 (the code departs from the claim): the rule table gives `!=` the
precedence `P_EQUAL` but `==` the precedence `P_COMPARE`, the one of `<`, `<=`,
`>`, `>=`. So `a == b < c;` is compiled as `(a == b) < c`: `GET_GLOBAL a,
GET_GLOBAL b, EQUAL, GET_GLOBAL c, LESS` (then `POP`, `RETURN`), while
`a != b < c;` is compiled as `a != (b < c)`: `GET_GLOBAL a, GET_GLOBAL b,
GET_GLOBAL c, LESS, EQUAL, NOT`. -/
theorem equal_has_compare_precedence :
    (Compiler.getParserRule .T_EXCLAMATION_EQUAL).precedence = P_EQUAL
    ∧ (Compiler.getParserRule .T_EQUAL_EQUAL).precedence = P_COMPARE
    ∧ (Compiler.getParserRule .T_LESS).precedence = P_COMPARE
    ∧ P_EQUAL < P_COMPARE
    ∧ Compiler.outcome (Compiler.compile 100 Compiler.new srcEqualLess Chunk.empty)
        = some (true, [18, 0, 18, 1, 12, 18, 2, 13, 16, 1], [])
    ∧ Compiler.outcome (Compiler.compile 100 Compiler.new srcNotEqualLess Chunk.empty)
        = some (true, [18, 0, 18, 1, 18, 2, 13, 12, 11, 16, 1], []) := by
  decide!


/-! ### The opcodes of the operators -/

/-- C22: `binary` parses the right operand, one precedence level above that of
its operator, and then appends to the code exactly the opcodes listed for the
operator: `+` ADD, `-` SUB, `*` MULT, `/` DIV, `==` EQUAL, `!=` EQUAL NOT,
`>` GREATER, `>=` LESS NOT, `<` LESS, `<=` GREATER NOT. `unary` parses the
operand at `P_UNARY` and then appends NEGATE for `-` and NOT for `!`. The
appended bytes are the only change to the chunk's code and pool, and nothing
but the chunk changes. -/
theorem operators_append_listed_opcodes (call : Compiler.Call) (b : Bool) (c : Compiler) :
    Compiler.binary call b c
      = (call (.parsePrecedence
            ((Compiler.getParserRule c.parser.previous.type).precedence + 1)) c).map
          (fun c1 => Compiler.binaryEmit c1 c.parser.previous.type)
    ∧ Compiler.unary call b c
      = (call (.parsePrecedence P_UNARY) c).map
          (fun c1 => Compiler.unaryEmit c1 c.parser.previous.type)
    ∧ (∀ (c1 : Compiler) (t : TokenType),
        (Compiler.binaryEmit c1 t).currentChunk.data
          = c1.currentChunk.data ++ (specBinaryCode t).map OPCode.toByte
        ∧ (Compiler.binaryEmit c1 t).currentChunk.constantPool = c1.currentChunk.constantPool
        ∧ (Compiler.binaryEmit c1 t).parser = c1.parser
        ∧ (Compiler.binaryEmit c1 t).lexer = c1.lexer
        ∧ (Compiler.binaryEmit c1 t).localStack = c1.localStack
        ∧ (Compiler.binaryEmit c1 t).stderr = c1.stderr)
    ∧ (∀ (c1 : Compiler) (t : TokenType),
        (Compiler.unaryEmit c1 t).currentChunk.data
          = c1.currentChunk.data ++ (specUnaryCode t).map OPCode.toByte
        ∧ (Compiler.unaryEmit c1 t).currentChunk.constantPool = c1.currentChunk.constantPool
        ∧ (Compiler.unaryEmit c1 t).parser = c1.parser
        ∧ (Compiler.unaryEmit c1 t).lexer = c1.lexer
        ∧ (Compiler.unaryEmit c1 t).localStack = c1.localStack
        ∧ (Compiler.unaryEmit c1 t).stderr = c1.stderr) := by
  refine ⟨?_, ?_, ?_, ?_⟩
  · show (call (.parsePrecedence
        ((Compiler.getParserRule c.parser.previous.type).precedence + 1)) c >>= fun c1 =>
        pure (Compiler.binaryEmit c1 c.parser.previous.type)) = _
    cases call (.parsePrecedence
      ((Compiler.getParserRule c.parser.previous.type).precedence + 1)) c <;> rfl
  · show (call (.parsePrecedence P_UNARY) c >>= fun c1 =>
        pure (Compiler.unaryEmit c1 c.parser.previous.type)) = _
    cases call (.parsePrecedence P_UNARY) c <;> rfl
  · intro c1 t
    cases t <;>
      simp [Compiler.binaryEmit, specBinaryCode, Compiler.emitOp, Compiler.emitByte,
        Chunk.push_back, OPCode.toByte]
  · intro c1 t
    cases t <;>
      simp [Compiler.unaryEmit, specUnaryCode, Compiler.emitOp, Compiler.emitByte,
        Chunk.push_back, OPCode.toByte]

/-! ### Peeking into the operand stack -/

/-- C25 (the code departs from the claim): `peek` throws only when the distance
exceeds the stack size by more than one. For a distance below the size it
yields the element that many positions below the top. For a distance equal to
the size, or to the size plus one, it does not throw and reads
`vmStack[size - 1 - distance]`, an index outside the stack: so on the empty
stack `peek(0)` reads outside, and on a stack of one value `peek(1)` and
`peek(2)` do. -/
theorem peek_guard_off_by_two (vm : VirtualMachine) (d : Nat) :
    (∀ v, d < vm.vmStack.length → vm.vmStack.reverse[d]? = some v → vm.peek d = .value v)
    ∧ (vm.vmStack.length + 1 < d → vm.peek d = .thrown)
    ∧ (d = vm.vmStack.length ∨ d = vm.vmStack.length + 1 → vm.peek d = .undefined)
    ∧ (vmStacked []).peek 0 = .undefined
    ∧ (vmStacked [.bool true]).peek 1 = .undefined
    ∧ (vmStacked [.bool true]).peek 2 = .undefined
    ∧ (vmStacked [.bool true]).peek 3 = .thrown := by
  refine ⟨?_, ?_, ?_, by decide, by decide, by decide, by decide⟩
  · intro v hd hv
    unfold VirtualMachine.peek
    rw [if_neg (by omega), if_pos hd]
    rw [List.getElem?_reverse hd] at hv
    rw [hv]
  · intro hd
    unfold VirtualMachine.peek
    rw [if_pos hd]
  · intro hd
    unfold VirtualMachine.peek
    rw [if_neg (by omega), if_neg (by omega)]


/-! ### Termination of the compiler -/

namespace Compiler

theorem precedence_not_eof (t : TokenType) (h : 1 ≤ (getParserRule t).precedence) :
    t ≠ .T_EOF := by
  intro ht
  subst ht
  revert h
  decide

theorem advance_lexer_length (c : Compiler) :
    (advance c).lexer.length ≤ c.lexer.length - 1 := by
  have h := pending_advanceLoop c.lexer
    { c with parser := { c.parser with previous := c.parser.current } }
  unfold pending at h
  unfold advance
  omega

end Compiler

/-- C24: `compile` terminates on every list of tokens: with fuel of 12 per
token plus 6 the model does not run out of fuel, so it yields its result, or
faults where the program throws. More generally no routine runs out of fuel
when the fuel exceeds six times the pending input by the rank of the routine.
No routine gives input back, and a call of `declaration` at a current token
other than `T_EOF` consumes input; so does every turn of the loop of
`scopeBlock` (a declaration at a token that is neither a closing brace nor `T_EOF`) and
every turn of the loop of `parsePrecedence` (an `advance` past a token whose
precedence is at least the one asked for); `advance` itself takes at least
one token from a lexer that has one, and never gives one back. -/
theorem compile_terminates (fuel : Nat) (c : Compiler) (source : List Token)
    (chunk : Chunk) (hf : 12 * source.length + 6 ≤ fuel) :
    Compiler.compile fuel c source chunk ≠ .error .outOfFuel
    ∧ (∀ (n : Nat) (r : Compiler.Routine) (x : Compiler),
        6 * x.pending + r.rank + 1 ≤ n → Compiler.exec n r x ≠ .error .outOfFuel)
    ∧ (∀ (n : Nat) (r : Compiler.Routine) (x y : Compiler),
        Compiler.exec n r x = .ok y → y.pending ≤ x.pending)
    ∧ (∀ (n : Nat) (x y : Compiler), x.parser.current.type ≠ .T_EOF →
        Compiler.exec n .declaration x = .ok y → y.pending < x.pending)
    ∧ (∀ (n : Nat) (x y : Compiler),
        (!Compiler.checkToken x .T_RIGHT_BRACES && !Compiler.checkToken x .T_EOF) = true →
        Compiler.exec n .declaration x = .ok y → y.pending < x.pending)
    ∧ (∀ (p : Precedence) (x : Compiler), 1 ≤ p →
        p ≤ (Compiler.getParserRule x.parser.current.type).precedence →
        (Compiler.advance x).pending < x.pending)
    ∧ (∀ x : Compiler,
        (Compiler.advance x).pending ≤ x.pending
        ∧ (x.parser.current.type ≠ .T_EOF → (Compiler.advance x).pending < x.pending)
        ∧ (Compiler.advance x).lexer.length ≤ x.lexer.length - 1) := by
  refine ⟨Compiler.compile_fuel fuel c source chunk hf, ?_, ?_, ?_, ?_, ?_, ?_⟩
  · intro n r x hb
    exact Compiler.exec_fuel n r x hb
  · intro n r x y h
    exact Compiler.exec_pending_le n r x y h
  · intro n x y hx h
    exact Compiler.exec_consumes n _ x y (by rfl) hx h
  · intro n x y hcond h
    have hne : x.parser.current.type ≠ .T_EOF := by
      simp only [Compiler.checkToken, Bool.and_eq_true, Bool.not_eq_true',
        decide_eq_false_iff_not] at hcond
      exact hcond.2
    exact Compiler.exec_consumes n _ x y (by rfl) hne h
  · intro p x hp hle
    exact Compiler.pending_advance_lt x
      (Compiler.precedence_not_eof _ (le_trans hp hle))
  · intro x
    exact ⟨Compiler.pending_advance_le x, Compiler.pending_advance_lt x,
      Compiler.advance_lexer_length x⟩

/-- Witness of C24: on the malformed source `))` the model of `compile` does
not run out of 100 units of fuel. -/
theorem compile_terminates_witness :
    Compiler.compile 100 Compiler.new srcTwoParens Chunk.empty ≠ .error .outOfFuel :=
  (compile_terminates 100 Compiler.new srcTwoParens Chunk.empty (by decide)).1

namespace Disassembler

theorem toSigned_of_lt (o : Nat) (h : o < 2147483648) : toSigned o = (o : Int) := by
  unfold toSigned
  have h1 : o % 4294967296 = o := Nat.mod_eq_of_lt (by omega)
  rw [h1, if_pos h]

theorem readData_nat (chunk : Chunk) (o : Nat) : readData chunk (o : Int) = chunk.data[o]? := by
  unfold readData
  rw [if_pos (Int.ofNat_nonneg o)]
  rfl

theorem readLine_nat (chunk : Chunk) (o : Nat) : readLine chunk (o : Int) = chunk.lines[o]? := by
  unfold readLine
  rw [if_pos (Int.ofNat_nonneg o)]
  rfl

theorem fitsInt_nat (o : Nat) (h : o < 2147483648) : fitsInt (o : Int) = true := by
  unfold fitsInt
  simp only [Bool.and_eq_true, decide_eq_true_eq]
  omega

theorem returnOffset_nat (o k : Nat) (h : o + k < 2147483648) :
    returnOffset (o : Int) k = some (o + k) := by
  unfold returnOffset
  have h1 : ((o : Int) + (k : Int)) = ((o + k : Nat) : Int) := by push_cast; rfl
  rw [h1, fitsInt_nat _ h, if_pos rfl]
  unfold Compiler.toUnsigned
  congr 1
  omega

theorem cast_succ (o : Nat) : ((o : Int) + 1) = ((o + 1 : Nat) : Int) := by
  push_cast; rfl

theorem cast_succ_succ (o : Nat) : ((o : Int) + 2) = ((o + 2 : Nat) : Int) := by
  push_cast; rfl

theorem simpleInstruction_nat (code o : Nat) (h : o + 1 < 2147483648) :
    simpleInstruction code (o : Int) = some (o + 1) :=
  returnOffset_nat o 1 h

theorem constantInstruction_nat (code : Nat) (chunk : Chunk) (o k : Nat)
    (h : o + 2 < 2147483648) (hk : chunk.data[o + 1]? = some k)
    (hpool : k < chunk.constantPool.length) :
    constantInstruction code chunk (o : Int) = some (o + 2) := by
  unfold constantInstruction
  rw [cast_succ, fitsInt_nat _ (by omega), if_pos rfl, readData_nat, hk]
  simp only
  rw [List.getElem?_eq_getElem hpool]
  simp only
  exact returnOffset_nat (o + 1) 1 h

theorem byteInstruction_nat (code : Nat) (chunk : Chunk) (o : Nat)
    (h : o + 2 < 2147483648) (hin : o + 2 ≤ chunk.data.length) :
    byteInstruction code chunk (o : Int) = some (o + 2) := by
  unfold byteInstruction
  rw [cast_succ, fitsInt_nat _ (by omega), if_pos rfl, readData_nat,
    List.getElem?_eq_getElem (by omega)]
  simp only
  exact returnOffset_nat o 2 h

theorem jumpInstruction_nat (code : Nat) (sign : Int) (chunk : Chunk) (o : Nat)
    (h : o + 3 < 2147483648) (hin : o + 3 ≤ chunk.data.length) :
    jumpInstruction code sign chunk (o : Int) = some (o + 3) := by
  unfold jumpInstruction
  rw [cast_succ, cast_succ_succ, fitsInt_nat _ (by omega), if_pos rfl, readData_nat,
    readData_nat, List.getElem?_eq_getElem (by omega : o + 1 < chunk.data.length),
    List.getElem?_eq_getElem (by omega : o + 2 < chunk.data.length)]
  simp only
  exact returnOffset_nat o 3 h

/-- At an offset where a whole instruction lies inside the chunk,
`disassembleInstruction` returns the offset of the next instruction. -/
theorem disassembleInstruction_nat (chunk : Chunk) (offset byte : Nat)
    (hbyte : chunk.data[offset]? = some byte)
    (hline : offset < chunk.lines.length)
    (hin : offset + instructionLength byte ≤ chunk.data.length)
    (hsize : offset + instructionLength byte < 2147483648)
    (hpool : hasConstantOperand byte = true →
      ∀ k, chunk.data[offset + 1]? = some k → k < chunk.constantPool.length) :
    disassembleInstruction chunk (offset : Int) = some (offset + instructionLength byte) := by
  unfold disassembleInstruction
  rw [readData_nat, hbyte]
  simp only
  rw [readLine_nat, List.getElem?_eq_getElem hline]
  simp only
  unfold instructionLength at hin hsize ⊢
  unfold hasConstantOperand at hpool
  cases hop : OPCode.ofByte byte with
  | none =>
    rw [hop] at hin hsize
    exact returnOffset_nat offset 1 hsize
  | some op =>
    rw [hop] at hin hsize hpool
    have hconst : ∀ code, offset + 2 ≤ chunk.data.length → offset + 2 < 2147483648 →
        (∀ k, chunk.data[offset + 1]? = some k → k < chunk.constantPool.length) →
        constantInstruction code chunk (offset : Int) = some (offset + 2) := by
      intro code h1 h2 h3
      have hlt : offset + 1 < chunk.data.length := by omega
      exact constantInstruction_nat code chunk offset _ h2
        (List.getElem?_eq_getElem hlt) (h3 _ (List.getElem?_eq_getElem hlt))
    cases op
    case OP_CONSTANT | OP_DEFINE_GLOBAL_VAR | OP_GET_GLOBAL_VAR | OP_SET_GLOBAL_VAR =>
      exact hconst _ hin hsize (hpool rfl)
    case OP_SET_LOCAL_VAR | OP_GET_LOCAL_VAR =>
      exact byteInstruction_nat _ _ _ hsize hin
    case OP_JUMP | OP_JUMP_IF_FALSE | OP_LOOP =>
      exact jumpInstruction_nat _ _ _ _ hsize hin
    all_goals exact simpleInstruction_nat _ _ hsize

end Disassembler
namespace VirtualMachine

theorem readByte_some (vm vm1 : VirtualMachine) (b : Nat) (h : readByte vm = some (b, vm1)) :
    vm1 = { vm with IP := vm.IP + 1 } ∧ vm.chunk.data[vm.IP]? = some b := by
  unfold readByte at h
  cases hd : vm.chunk.data[vm.IP]? with
  | none => rw [hd] at h; cases h
  | some x =>
    rw [hd] at h
    simp only [Option.some.injEq, Prod.mk.injEq] at h
    exact ⟨h.2.symm, by rw [h.1]⟩

theorem lt_of_getElem?_some (l : List Nat) (i b : Nat) (h : l[i]? = some b) : i < l.length := by
  by_contra hc
  rw [List.getElem?_eq_none (Nat.le_of_not_lt hc)] at h
  cases h

theorem readByte_IP (vm vm1 : VirtualMachine) (b : Nat) (h : readByte vm = some (b, vm1)) :
    vm1.IP = vm.IP + 1 ∧ vm.IP + 1 ≤ vm.chunk.data.length := by
  obtain ⟨h1, h2⟩ := readByte_some vm vm1 b h
  subst h1
  exact ⟨rfl, lt_of_getElem?_some _ _ _ h2⟩

theorem readConstant_IP (vm vm1 : VirtualMachine) (v : Value)
    (h : readConstant vm = some (v, vm1)) :
    vm1.IP = vm.IP + 1 ∧ vm.IP + 1 ≤ vm.chunk.data.length := by
  unfold readConstant at h
  cases hb : readByte vm with
  | none => rw [hb] at h; cases h
  | some p =>
    obtain ⟨idx, vm2⟩ := p
    rw [hb] at h
    simp only at h
    cases hp : vm2.chunk.constantPool[idx]? with
    | none => rw [hp] at h; cases h
    | some w =>
      rw [hp] at h
      simp only [Option.some.injEq, Prod.mk.injEq] at h
      rw [← h.2]
      exact readByte_IP vm vm2 idx hb

theorem readName_IP (vm vm1 : VirtualMachine) (s : String)
    (h : readName vm = some (s, vm1)) :
    vm1.IP = vm.IP + 1 ∧ vm.IP + 1 ≤ vm.chunk.data.length := by
  unfold readName at h
  cases hb : readConstant vm with
  | none => rw [hb] at h; cases h
  | some p =>
    obtain ⟨v, vm2⟩ := p
    rw [hb] at h
    simp only at h
    cases hp : getStringObject v with
    | none => rw [hp] at h; cases h
    | some w =>
      rw [hp] at h
      simp only [Option.some.injEq, Prod.mk.injEq] at h
      rw [← h.2]
      exact readConstant_IP vm vm2 v hb

theorem readShort_IP (vm vm1 : VirtualMachine) (off : Nat)
    (h : readShort vm = some (off, vm1)) :
    vm1.IP = vm.IP + 2 ∧ vm.IP + 2 ≤ vm.chunk.data.length := by
  unfold readShort at h
  cases h1 : vm.chunk.data[vm.IP]? with
  | none => rw [h1] at h; cases h
  | some hi =>
    cases h2 : vm.chunk.data[vm.IP + 1]? with
    | none => rw [h1, h2] at h; cases h
    | some lo =>
      rw [h1, h2] at h
      simp only [Option.some.injEq, Prod.mk.injEq] at h
      rw [← h.2]
      exact ⟨rfl, lt_of_getElem?_some _ _ _ h2⟩

theorem pop_IP (vm vm1 : VirtualMachine) (v : Value) (h : pop vm = some (v, vm1)) :
    vm1.IP = vm.IP := by
  unfold pop at h
  cases hl : vm.vmStack.getLast? with
  | none => rw [hl] at h; cases h
  | some w =>
    rw [hl] at h
    simp only [Option.some.injEq, Prod.mk.injEq] at h
    rw [← h.2]

theorem binaryOperation_IP (vm vm1 : VirtualMachine) (op : OPCode)
    (h : (binaryOperation vm op).endState = some vm1) : vm1.IP = vm.IP := by
  unfold binaryOperation at h
  cases h1 : pop vm with
  | none => rw [h1] at h; cases h
  | some p =>
    obtain ⟨b, vm2⟩ := p
    rw [h1] at h
    simp only at h
    cases h2 : pop vm2 with
    | none => rw [h2] at h; cases h
    | some q =>
      obtain ⟨a, vm3⟩ := q
      rw [h2] at h
      simp only at h
      cases h3 : applyBinary op a b with
      | none => rw [h3] at h; cases h
      | some r =>
        rw [h3] at h
        simp only [Step.endState, Option.some.injEq] at h
        rw [← h]
        show vm3.IP = vm.IP
        rw [pop_IP vm2 vm3 a h2, pop_IP vm vm2 b h1]

end VirtualMachine
namespace VirtualMachine

theorem execute_IP (vm vm' : VirtualMachine) (op : OPCode)
    (h : (execute vm op).endState = some vm') :
    match op with
    | .OP_CONSTANT | .OP_DEFINE_GLOBAL_VAR | .OP_GET_GLOBAL_VAR | .OP_SET_GLOBAL_VAR
    | .OP_SET_LOCAL_VAR | .OP_GET_LOCAL_VAR =>
      vm'.IP = vm.IP + 1 ∧ vm.IP + 1 ≤ vm.chunk.data.length
    | .OP_JUMP | .OP_JUMP_IF_FALSE | .OP_LOOP =>
      ∃ off vm1, readShort vm = some (off, vm1) ∧ vm1.IP = vm.IP + 2
        ∧ vm.IP + 2 ≤ vm.chunk.data.length
        ∧ (vm'.IP = vm1.IP + off ∨ vm'.IP = vm1.IP ∨ vm'.IP + off = vm1.IP)
    | _ => vm'.IP = vm.IP := by
  cases op
  case OP_ADD | OP_SUB | OP_MULT | OP_DIV | OP_LESS | OP_GREATER =>
    exact binaryOperation_IP vm vm' _ h
  case None | OP_RETURN | OP_NONE | OP_TRUE | OP_FALSE =>
    simp only [execute, Step.endState, Option.some.injEq] at h
    subst h
    rfl
  case OP_NEGATE | OP_NOT | OP_PRINT | OP_POP_BACK =>
    simp only [execute] at h
    cases h1 : pop vm with
    | none => rw [h1] at h; cases h
    | some p =>
      obtain ⟨b, vm1⟩ := p
      rw [h1] at h
      simp only at h
      have hp := pop_IP vm vm1 b h1
      first
        | (simp only [Step.endState, Option.some.injEq] at h
           subst h
           exact hp)
        | (cases h2 : b.neg with
           | none => rw [h2] at h; cases h
           | some r =>
             rw [h2] at h
             simp only [Step.endState, Option.some.injEq] at h
             subst h
             exact hp)
  case OP_EQUAL =>
    simp only [execute] at h
    cases h1 : pop vm with
    | none => rw [h1] at h; cases h
    | some p =>
      obtain ⟨b, vm1⟩ := p
      rw [h1] at h
      simp only at h
      cases h2 : pop vm1 with
      | none => rw [h2] at h; cases h
      | some q =>
        obtain ⟨a, vm2⟩ := q
        rw [h2] at h
        simp only [Step.endState, Option.some.injEq] at h
        subst h
        show vm2.IP = vm.IP
        rw [pop_IP vm1 vm2 a h2, pop_IP vm vm1 b h1]
  case OP_CONSTANT =>
    simp only [execute] at h
    cases h1 : readConstant vm with
    | none => rw [h1] at h; cases h
    | some p =>
      obtain ⟨b, vm1⟩ := p
      rw [h1] at h
      simp only [Step.endState, Option.some.injEq] at h
      subst h
      exact readConstant_IP vm vm1 b h1
  case OP_DEFINE_GLOBAL_VAR =>
    simp only [execute] at h
    cases h1 : readName vm with
    | none => rw [h1] at h; cases h
    | some p =>
      obtain ⟨name, vm1⟩ := p
      rw [h1] at h
      simp only at h
      have hr := readName_IP vm vm1 name h1
      cases h2 : findGlobal vm1.vmGlobals name with
      | some w =>
        rw [h2] at h
        simp only [Step.endState, Option.some.injEq] at h
        subst h
        exact hr
      | none =>
        rw [h2] at h
        simp only at h
        cases h3 : pop vm1 with
        | none => rw [h3] at h; cases h
        | some q =>
          obtain ⟨back, vm2⟩ := q
          rw [h3] at h
          simp only [Step.endState, Option.some.injEq] at h
          subst h
          refine ⟨?_, hr.2⟩
          show vm2.IP = vm.IP + 1
          rw [pop_IP vm1 vm2 back h3, hr.1]
  case OP_GET_GLOBAL_VAR =>
    simp only [execute] at h
    cases h1 : readName vm with
    | none => rw [h1] at h; cases h
    | some p =>
      obtain ⟨name, vm1⟩ := p
      rw [h1] at h
      simp only at h
      have hr := readName_IP vm vm1 name h1
      cases h2 : findGlobal vm1.vmGlobals name with
      | some w =>
        rw [h2] at h
        simp only [Step.endState, Option.some.injEq] at h
        subst h
        exact hr
      | none =>
        rw [h2] at h
        simp only [Step.endState, Option.some.injEq] at h
        subst h
        exact hr
  case OP_SET_GLOBAL_VAR =>
    simp only [execute] at h
    cases h1 : readName vm with
    | none => rw [h1] at h; cases h
    | some p =>
      obtain ⟨name, vm1⟩ := p
      rw [h1] at h
      simp only at h
      have hr := readName_IP vm vm1 name h1
      cases h2 : findGlobal vm1.vmGlobals name with
      | none =>
        rw [h2] at h
        simp only [Step.endState, Option.some.injEq] at h
        subst h
        exact hr
      | some w =>
        rw [h2] at h
        simp only at h
        cases h3 : vm1.vmStack.getLast? with
        | none => rw [h3] at h; cases h
        | some back =>
          rw [h3] at h
          simp only [Step.endState, Option.some.injEq] at h
          subst h
          exact hr
  case OP_GET_LOCAL_VAR =>
    simp only [execute] at h
    cases h1 : readByte vm with
    | none => rw [h1] at h; cases h
    | some p =>
      obtain ⟨slot, vm1⟩ := p
      rw [h1] at h
      simp only at h
      have hr := readByte_IP vm vm1 slot h1
      cases h2 : vm1.vmStack[slot]? with
      | none => rw [h2] at h; cases h
      | some w =>
        rw [h2] at h
        simp only [Step.endState, Option.some.injEq] at h
        subst h
        exact hr
  case OP_SET_LOCAL_VAR =>
    simp only [execute] at h
    cases h1 : readByte vm with
    | none => rw [h1] at h; cases h
    | some p =>
      obtain ⟨slot, vm1⟩ := p
      rw [h1] at h
      simp only at h
      have hr := readByte_IP vm vm1 slot h1
      cases h2 : vm1.vmStack.getLast? with
      | none => rw [h2] at h; cases h
      | some back =>
        rw [h2] at h
        simp only at h
        by_cases hs : slot < vm1.vmStack.length
        · rw [if_pos hs] at h
          simp only [Step.endState, Option.some.injEq] at h
          subst h
          exact hr
        · rw [if_neg hs] at h
          cases h
  case OP_JUMP =>
    simp only [execute] at h
    cases h1 : readShort vm with
    | none => rw [h1] at h; cases h
    | some p =>
      obtain ⟨off, vm1⟩ := p
      rw [h1] at h
      simp only [Step.endState, Option.some.injEq] at h
      subst h
      have hr := readShort_IP vm vm1 off h1
      exact ⟨off, vm1, rfl, hr.1, hr.2, Or.inl rfl⟩
  case OP_JUMP_IF_FALSE =>
    simp only [execute] at h
    cases h1 : readShort vm with
    | none => rw [h1] at h; cases h
    | some p =>
      obtain ⟨off, vm1⟩ := p
      rw [h1] at h
      simp only at h
      have hr := readShort_IP vm vm1 off h1
      refine ⟨off, vm1, rfl, hr.1, hr.2, ?_⟩
      cases h2 : peek vm1 0 with
      | thrown =>
        rw [h2] at h
        simp only [Step.endState, Option.some.injEq] at h
        subst h
        exact Or.inr (Or.inl rfl)
      | undefined => rw [h2] at h; cases h
      | value v =>
        rw [h2] at h
        simp only at h
        by_cases hv : isBooleanFalse v = true
        · rw [if_pos hv] at h
          simp only [Step.endState, Option.some.injEq] at h
          subst h
          exact Or.inl rfl
        · rw [if_neg hv] at h
          simp only [Step.endState, Option.some.injEq] at h
          subst h
          exact Or.inr (Or.inl rfl)
  case OP_LOOP =>
    simp only [execute] at h
    cases h1 : readShort vm with
    | none => rw [h1] at h; cases h
    | some p =>
      obtain ⟨off, vm1⟩ := p
      rw [h1] at h
      simp only at h
      have hr := readShort_IP vm vm1 off h1
      refine ⟨off, vm1, rfl, hr.1, hr.2, ?_⟩
      by_cases hle : off ≤ vm1.IP
      · rw [if_pos hle] at h
        simp only [Step.endState, Option.some.injEq] at h
        subst h
        exact Or.inr (Or.inr (Nat.sub_add_cancel hle))
      · rw [if_neg hle] at h
        cases h

end VirtualMachine
namespace VirtualMachine

theorem step_IP (vm vm' : VirtualMachine) (byte : Nat)
    (hbyte : vm.chunk.data[vm.IP]? = some byte)
    (h : (step vm).endState = some vm') :
    vm.IP + instructionLength byte ≤ vm.chunk.data.length
    ∧ (isJump byte = false → vm'.IP = vm.IP + instructionLength byte)
    ∧ (isJump byte = true →
        ∃ off vm1, readShort { vm with IP := vm.IP + 1 } = some (off, vm1)
          ∧ vm1.IP = vm.IP + 3
          ∧ (vm'.IP = vm.IP + 3 + off ∨ vm'.IP = vm.IP + 3 ∨ vm'.IP + off = vm.IP + 3)) := by
  have hlt : vm.IP < vm.chunk.data.length := lt_of_getElem?_some _ _ _ hbyte
  have hread : readByte vm = some (byte, { vm with IP := vm.IP + 1 }) := by
    unfold readByte
    rw [hbyte]
  unfold step at h
  rw [hread] at h
  simp only at h
  have hip : ({ vm with IP := vm.IP + 1 } : VirtualMachine).IP = vm.IP + 1 := rfl
  have hlen : ({ vm with IP := vm.IP + 1 } : VirtualMachine).chunk.data.length
      = vm.chunk.data.length := rfl
  generalize ({ vm with IP := vm.IP + 1 } : VirtualMachine) = vm1 at h hip hlen ⊢
  unfold instructionLength isJump
  cases hop : OPCode.ofByte byte with
  | none =>
    rw [hop] at h
    simp only [Step.endState, Option.some.injEq] at h
    subst h
    exact ⟨hlt, fun _ => hip, fun hj => by cases hj⟩
  | some op =>
    rw [hop] at h
    simp only at h
    have key := execute_IP vm1 vm' op h
    cases op
    case OP_JUMP | OP_JUMP_IF_FALSE | OP_LOOP =>
      dsimp only at key ⊢
      obtain ⟨off, vm2, h1, h2, h3, h4⟩ := key
      refine ⟨by omega, ?_, ?_⟩
      · intro hj
        cases hj
      · intro _
        refine ⟨off, vm2, h1, by omega, ?_⟩
        rcases h4 with h4 | h4 | h4
        · exact Or.inl (by omega)
        · exact Or.inr (Or.inl (by omega))
        · exact Or.inr (Or.inr (by omega))
    all_goals
      dsimp only at key ⊢
      refine ⟨by omega, ?_, ?_⟩
      · intro _
        omega
      · intro hj
        cases hj

end VirtualMachine

namespace Disassembler

theorem returnOffset_some (o k n : Nat) (h : returnOffset (o : Int) k = some n) :
    n = o + k ∧ o + k < 2147483648 := by
  unfold returnOffset at h
  by_cases hf : fitsInt ((o : Int) + (k : Int)) = true
  · have hlt : o + k < 2147483648 := by
      unfold fitsInt at hf
      simp only [Bool.and_eq_true, decide_eq_true_eq] at hf
      omega
    have h2 := returnOffset_nat o k hlt
    unfold returnOffset at h2
    rw [h2] at h
    simp only [Option.some.injEq] at h
    exact ⟨h.symm, hlt⟩
  · rw [if_neg hf] at h
    cases h

theorem readData_some (chunk : Chunk) (x : Int) (b : Nat) (h : readData chunk x = some b) :
    0 ≤ x ∧ x.toNat < chunk.data.length := by
  unfold readData at h
  by_cases hx : 0 ≤ x
  · rw [if_pos hx] at h
    exact ⟨hx, VirtualMachine.lt_of_getElem?_some _ _ _ h⟩
  · rw [if_neg hx] at h
    cases h

theorem simpleInstruction_some (code o n : Nat) (h : simpleInstruction code (o : Int) = some n) :
    n = o + 1 ∧ n < 2147483648 := by
  have h1 := returnOffset_some o 1 n h
  exact ⟨h1.1, by omega⟩

theorem constantInstruction_some (code : Nat) (chunk : Chunk) (o n : Nat)
    (h : constantInstruction code chunk (o : Int) = some n) :
    n = o + 2 ∧ n < 2147483648 ∧ o + 2 ≤ chunk.data.length := by
  unfold constantInstruction at h
  by_cases hf : fitsInt ((o : Int) + 1) = true
  · rw [if_pos hf, cast_succ, readData_nat] at h
    cases hk : chunk.data[o + 1]? with
    | none => rw [hk] at h; cases h
    | some k =>
      rw [hk] at h
      simp only at h
      cases hp : chunk.constantPool[k]? with
      | none => rw [hp] at h; cases h
      | some v =>
        rw [hp] at h
        simp only at h
        have h1 := returnOffset_some (o + 1) 1 n h
        have h2 := VirtualMachine.lt_of_getElem?_some _ _ _ hk
        exact ⟨by omega, by omega, by omega⟩
  · rw [if_neg hf] at h
    cases h

theorem byteInstruction_some (code : Nat) (chunk : Chunk) (o n : Nat)
    (h : byteInstruction code chunk (o : Int) = some n) :
    n = o + 2 ∧ n < 2147483648 ∧ o + 2 ≤ chunk.data.length := by
  unfold byteInstruction at h
  by_cases hf : fitsInt ((o : Int) + 1) = true
  · rw [if_pos hf, cast_succ, readData_nat] at h
    cases hk : chunk.data[o + 1]? with
    | none => rw [hk] at h; cases h
    | some k =>
      rw [hk] at h
      simp only at h
      have h1 := returnOffset_some o 2 n h
      have h2 := VirtualMachine.lt_of_getElem?_some _ _ _ hk
      exact ⟨by omega, by omega, by omega⟩
  · rw [if_neg hf] at h
    cases h

theorem jumpInstruction_some (code : Nat) (sign : Int) (chunk : Chunk) (o n : Nat)
    (h : jumpInstruction code sign chunk (o : Int) = some n) :
    n = o + 3 ∧ n < 2147483648 ∧ o + 3 ≤ chunk.data.length := by
  unfold jumpInstruction at h
  by_cases hf : fitsInt ((o : Int) + 2) = true
  · rw [if_pos hf, cast_succ, cast_succ_succ, readData_nat, readData_nat] at h
    cases hk : chunk.data[o + 1]? with
    | none => rw [hk] at h; cases h
    | some k =>
      cases hl : chunk.data[o + 2]? with
      | none => rw [hk, hl] at h; cases h
      | some l =>
        rw [hk, hl] at h
        simp only at h
        have h1 := returnOffset_some o 3 n h
        have h2 := VirtualMachine.lt_of_getElem?_some _ _ _ hl
        exact ⟨by omega, by omega, by omega⟩
  · rw [if_neg hf] at h
    cases h

/-- Wherever `disassembleInstruction` has a result, the result is the offset
plus the length of the instruction, and the instruction lies inside the code. -/
theorem disassembleInstruction_some (chunk : Chunk) (offset next : Nat)
    (h : disassembleInstruction chunk (offset : Int) = some next) :
    ∃ byte, chunk.data[offset]? = some byte ∧ next = offset + instructionLength byte
      ∧ next < 2147483648 ∧ next ≤ chunk.data.length := by
  unfold disassembleInstruction at h
  rw [readData_nat] at h
  cases hb : chunk.data[offset]? with
  | none => rw [hb] at h; cases h
  | some byte =>
    have hlt := VirtualMachine.lt_of_getElem?_some _ _ _ hb
    rw [hb] at h
    simp only at h
    cases hl : readLine chunk (offset : Int) with
    | none => rw [hl] at h; cases h
    | some line =>
      rw [hl] at h
      simp only at h
      refine ⟨byte, rfl, ?_⟩
      unfold instructionLength
      cases hop : OPCode.ofByte byte with
      | none =>
        rw [hop] at h
        have h1 := returnOffset_some offset 1 next h
        exact ⟨h1.1, by omega, by omega⟩
      | some op =>
        rw [hop] at h
        cases op
        case OP_CONSTANT | OP_DEFINE_GLOBAL_VAR | OP_GET_GLOBAL_VAR | OP_SET_GLOBAL_VAR =>
          have h1 := constantInstruction_some _ _ _ _ h
          exact ⟨h1.1, h1.2.1, by omega⟩
        case OP_SET_LOCAL_VAR | OP_GET_LOCAL_VAR =>
          have h1 := byteInstruction_some _ _ _ _ h
          exact ⟨h1.1, h1.2.1, by omega⟩
        case OP_JUMP | OP_JUMP_IF_FALSE | OP_LOOP =>
          have h1 := jumpInstruction_some _ _ _ _ _ h
          exact ⟨h1.1, h1.2.1, by omega⟩
        all_goals
          have h1 := simpleInstruction_some _ _ _ h
          exact ⟨h1.1, h1.2, by omega⟩

theorem instructionLength_bounds (byte : Nat) :
    1 ≤ instructionLength byte ∧ instructionLength byte ≤ 3 := by
  unfold instructionLength
  cases hop : OPCode.ofByte byte with
  | none => exact ⟨le_refl _, by decide⟩
  | some op => cases op <;> exact ⟨by decide, by decide⟩

theorem disassembleInstruction_nonneg (chunk : Chunk) (x : Int) (next : Nat)
    (h : disassembleInstruction chunk x = some next) : 0 ≤ x := by
  unfold disassembleInstruction at h
  cases hb : readData chunk x with
  | none => rw [hb] at h; cases h
  | some b => exact (readData_some chunk x b hb).1

theorem toSigned_nonneg (o : Nat) (ho : o < 4294967296) (h : 0 ≤ toSigned o) :
    toSigned o = (o : Int) := by
  have h1 : o % 4294967296 = o := Nat.mod_eq_of_lt ho
  unfold toSigned at h ⊢
  rw [h1] at h ⊢
  by_cases hlt : o < 2147483648
  · rw [if_pos hlt]
  · rw [if_neg hlt] at h
    omega

/-- One turn of the loop of `disassemble` moves the offset forward by the
length of the instruction. -/
theorem disassembleInstruction_turn (chunk : Chunk) (offset next : Nat)
    (ho : offset < 4294967296)
    (h : disassembleInstruction chunk (toSigned offset) = some next) :
    ∃ byte, chunk.data[offset]? = some byte ∧ next = offset + instructionLength byte
      ∧ next < 2147483648 ∧ next ≤ chunk.data.length := by
  have h0 := disassembleInstruction_nonneg chunk _ next h
  rw [toSigned_nonneg offset ho h0] at h
  exact disassembleInstruction_some chunk offset next h

theorem disassembleLoop_fuel (fuel : Nat) (array : Chunk) :
    ∀ (offset : Nat) (visited : List Nat), offset < 4294967296 →
      array.data.length - offset < fuel →
      disassembleLoop fuel array offset visited ≠ .outOfFuel := by
  induction fuel with
  | zero =>
    intro offset visited _ hlen
    omega
  | succ n ih =>
    intro offset visited ho hlen
    unfold disassembleLoop
    by_cases hlt : offset < array.data.length
    · rw [if_pos hlt]
      cases hd : disassembleInstruction array (toSigned offset) with
      | none => simp only; intro hc; cases hc
      | some next =>
        simp only
        obtain ⟨byte, _, h2, h3, _⟩ := disassembleInstruction_turn array offset next ho hd
        have hb := instructionLength_bounds byte
        exact ih next _ (by omega) (by omega)
    · rw [if_neg hlt]
      intro hc
      cases hc

theorem disassembleLoop_visited (fuel : Nat) (array : Chunk) :
    ∀ (offset : Nat) (visited result : List Nat), offset < 4294967296 →
      visited.Pairwise (fun a b => a < b) → (∀ v ∈ visited, v < offset) →
      (∀ v ∈ visited, v < array.data.length) →
      disassembleLoop fuel array offset visited = .done result →
      result.Pairwise (fun a b => a < b) ∧ ∀ v ∈ result, v < array.data.length := by
  induction fuel with
  | zero =>
    intro offset visited result _ _ _ _ h
    unfold disassembleLoop at h
    cases h
  | succ n ih =>
    intro offset visited result ho hp hv hl h
    unfold disassembleLoop at h
    by_cases hlt : offset < array.data.length
    · rw [if_pos hlt] at h
      cases hd : disassembleInstruction array (toSigned offset) with
      | none => rw [hd] at h; cases h
      | some next =>
        rw [hd] at h
        simp only at h
        obtain ⟨byte, _, h2, h3, _⟩ := disassembleInstruction_turn array offset next ho hd
        have hb := instructionLength_bounds byte
        refine ih next (visited ++ [offset]) result (by omega) ?_ ?_ ?_ h
        · rw [List.pairwise_append]
          refine ⟨hp, List.pairwise_singleton _ _, ?_⟩
          intro a ha b hb2
          rw [List.mem_singleton] at hb2
          rw [hb2]
          exact hv a ha
        · intro v hv2
          rw [List.mem_append, List.mem_singleton] at hv2
          rcases hv2 with hv2 | hv2
          · have := hv v hv2
            omega
          · omega
        · intro v hv2
          rw [List.mem_append, List.mem_singleton] at hv2
          rcases hv2 with hv2 | hv2
          · exact hl v hv2
          · omega
    · rw [if_neg hlt] at h
      simp only [Trace.done.injEq] at h
      subst h
      exact ⟨hp, hl⟩

end Disassembler
/-- C23 (as stated, refuted): the claim ranges over every chunk and offset, but
`disassembleInstruction` reads its operands without a bounds check. On the
chunk `CONSTANT 0` with an empty constant pool it reads `constantPool[0]`, and
on the chunk that is the single byte `JUMP` it reads `data[1]` and `data[2]`;
both reads are outside the vector, no offset is returned, and `disassemble`
does not go through either chunk. -/
theorem disassembleInstruction_reads_outside_chunk :
    chunkNoConstant.data[0]? = some OPCode.OP_CONSTANT.toByte
    ∧ Disassembler.disassembleInstruction chunkNoConstant 0 = none
    ∧ Disassembler.disassemble 10 chunkNoConstant = .undefined
    ∧ chunkCutOff.data[0]? = some OPCode.OP_JUMP.toByte
    ∧ Disassembler.disassembleInstruction chunkCutOff 0 = none
    ∧ Disassembler.disassemble 10 chunkCutOff = .undefined
    ∧ (vmOn chunkNoConstant).step = .undefined
    ∧ (vmOn chunkCutOff).step = .undefined := by
  decide

/-- C23 (amended): at an offset where a whole instruction lies inside the chunk
(the opcode byte and its operand bytes are in the code, the offset has a line,
a constant operand indexes the pool, and the next offset is below 2^31),
`disassembleInstruction` returns the offset plus `n`, where `n` is 1, 2 or 3;
wherever `disassembleInstruction` returns at all, it returns that sum. A turn
of the loop of `run` that starts at the same offset of the same chunk and has
a defined outcome reads the same `n` bytes: it ends with the instruction
pointer at the offset plus `n`, or, for a jump, has read its two operand bytes
with the pointer at the offset plus 3 and then leaves the pointer there or
moves it by the operand. `disassemble` never needs more turns than the code
has bytes, and when it ends normally the offsets it visited are strictly
increasing and inside the code. -/
theorem disassembler_agrees_with_vm (chunk : Chunk) (offset byte : Nat)
    (hbyte : chunk.data[offset]? = some byte)
    (hline : offset < chunk.lines.length)
    (hin : offset + instructionLength byte ≤ chunk.data.length)
    (hsize : offset + instructionLength byte < 2147483648)
    (hpool : hasConstantOperand byte = true →
      ∀ k, chunk.data[offset + 1]? = some k → k < chunk.constantPool.length) :
    Disassembler.disassembleInstruction chunk (offset : Int)
        = some (offset + instructionLength byte)
    ∧ 1 ≤ instructionLength byte ∧ instructionLength byte ≤ 3
    ∧ (∀ (o next : Nat), Disassembler.disassembleInstruction chunk (o : Int) = some next →
        ∃ b, chunk.data[o]? = some b ∧ next = o + instructionLength b
          ∧ next ≤ chunk.data.length)
    ∧ (∀ vm vm1 : VirtualMachine, vm.chunk = chunk → vm.IP = offset →
        vm.step.endState = some vm1 →
        (isJump byte = false → vm1.IP = offset + instructionLength byte)
        ∧ (isJump byte = true →
            ∃ operand vm2,
              VirtualMachine.readShort { vm with IP := offset + 1 } = some (operand, vm2)
              ∧ vm2.IP = offset + instructionLength byte
              ∧ (vm1.IP = vm2.IP + operand ∨ vm1.IP = vm2.IP ∨ vm1.IP + operand = vm2.IP)))
    ∧ (∀ fuel, chunk.data.length < fuel → Disassembler.disassemble fuel chunk ≠ .outOfFuel)
    ∧ (∀ fuel visited, Disassembler.disassemble fuel chunk = .done visited →
        visited.Pairwise (fun a b => a < b) ∧ ∀ v ∈ visited, v < chunk.data.length) := by
  refine ⟨Disassembler.disassembleInstruction_nat chunk offset byte hbyte hline hin hsize hpool,
    (Disassembler.instructionLength_bounds byte).1,
    (Disassembler.instructionLength_bounds byte).2, ?_, ?_, ?_, ?_⟩
  · intro o next h
    obtain ⟨b, h1, h2, _, h4⟩ := Disassembler.disassembleInstruction_some chunk o next h
    exact ⟨b, h1, h2, h4⟩
  · intro vm vm1 hc hip hstep
    subst hc
    subst hip
    obtain ⟨_, h2, h3⟩ := VirtualMachine.step_IP vm vm1 byte hbyte hstep
    refine ⟨h2, ?_⟩
    intro hj
    obtain ⟨operand, vm2, h4, h5, h6⟩ := h3 hj
    have hlen : instructionLength byte = 3 := by
      unfold isJump at hj
      unfold instructionLength
      cases hop : OPCode.ofByte byte with
      | none => rw [hop] at hj; cases hj
      | some op => rw [hop] at hj; cases op <;> first | rfl | cases hj
    refine ⟨operand, vm2, h4, by rw [hlen]; exact h5, ?_⟩
    rw [h5]
    exact h6
  · intro fuel hf
    exact Disassembler.disassembleLoop_fuel fuel chunk 0 [] (by decide) (by omega)
  · intro fuel visited h
    exact Disassembler.disassembleLoop_visited fuel chunk 0 [] visited (by decide)
      List.Pairwise.nil (fun v hv => by cases hv) (fun v hv => by cases hv) h

/-- Witness of C23 (amended): the chunk that `1 + true;` compiles to, at offset
0, where `CONSTANT 0` starts; `disassemble` visits the offsets 0, 2, 3, 4
and 5. -/
theorem disassembler_agrees_with_vm_witness :
    (Compiler.compile 100 Compiler.new srcOnePlusTrue Chunk.empty).toOption.map
        (fun r => r.2.currentChunk) = some chunkOnePlusTrue
    ∧ Disassembler.disassembleInstruction chunkOnePlusTrue ((0 : Nat) : Int)
        = some (0 + instructionLength 2)
    ∧ Disassembler.disassemble 10 chunkOnePlusTrue = .done [0, 2, 3, 4, 5] :=
  ⟨by decide!,
    (disassembler_agrees_with_vm chunkOnePlusTrue 0 2 (by decide) (by decide) (by decide)
      (by decide) (by decide)).1, by decide⟩
end Yocta
